import Mathlib

/-!
Verification development for the web-cut editor core.

The definitions below are a shallow embedding of the timeline data model and
its operations (`src/features/editor/types.ts`, `ops/time.ts`, `ops/errors.ts`,
`ops/projectOps.ts`, `ops/clipOps.ts`, `ops/trackOps.ts`), the squeeze overlap
resolver, the frame compositor (`frameComposer.ts`) and the render-coalescing
loop of the preview canvas.

Modelling conventions:
- JavaScript numbers holding millisecond times, pixel sizes and list orders are
  embedded as `Int` (every operation on them in the source is order, `+`, `-`,
  `max`/clamp; no division or rounding occurs).
- `opacity` / `volume` values are embedded as `Rat`.  `Number.isNaN` has no
  counterpart in `Rat`; the embedding of JS numbers excludes NaN.
- String ids stay `String`; `a.id.localeCompare(b.id)`-based tie-breaks are
  embedded as code-point lexicographic comparison on the underlying character
  list (`strLeB`).
- `Date.now()` and `createId(...)` are nondeterministic in the source; each
  operation that uses them takes the produced value (`now`, `freshId`) as an
  explicit argument.
- The TypeScript tagged union `Clip = VideoClip | AudioClip | TextClip` is
  flattened into one structure carrying a `kind` tag; fields of the other
  variants are inert (the operations only read a field after checking `kind`,
  exactly as the source relies on the union tag).
- Fallible operations return `Except EditorOpError _` in place of `throw`; the
  structured `details` payload of `EditorOpError` is dropped (no claim reads
  it), the `message` strings are abbreviated English stand-ins for the source's
  literals.
-/

deriving instance DecidableEq for Except

namespace WebCut

/-! ## Data model (`types.ts`) -/

inductive ClipKind
  | video
  | audio
  | text
deriving DecidableEq, Repr

abbrev TrackKind := ClipKind

inductive ResourceKind
  | video
  | audio
deriving DecidableEq, Repr

structure TextStyle where
  fontFamily : String
  fontSize : Int
  fontWeight : String
  color : String
  align : String
deriving DecidableEq, Repr

structure TextTransform where
  x : Int
  y : Int
  scale : Int
  rotateDeg : Int
deriving DecidableEq, Repr

/-- Flattened form of the `VideoClip | AudioClip | TextClip` union. -/
structure Clip where
  id : String
  trackId : String
  startMs : Int
  durationMs : Int
  kind : ClipKind
  resourceId : String
  trimStartMs : Int
  trimDurationMs : Option Int
  volume : Rat
  text : String
  style : TextStyle
  transform : TextTransform
deriving DecidableEq, Repr

structure Track where
  id : String
  kind : TrackKind
  name : String
  order : Int
  opacity : Rat
  muted : Option Bool
  hidden : Option Bool
  clips : List Clip
deriving DecidableEq, Repr

structure ResourceMeta where
  id : String
  kind : ResourceKind
  name : String
  mime : String
  size : Int
  lastModified : Int
  createdAt : Int
  durationMs : Option Int
  width : Option Int
  height : Option Int
deriving DecidableEq, Repr

structure ProjectSettings where
  width : Int
  height : Int
  fps : Int
  backgroundColor : String
deriving DecidableEq, Repr

structure EditorProject where
  id : String
  name : String
  createdAt : Int
  updatedAt : Int
  resources : List (String × ResourceMeta)
  tracks : List Track
  settings : ProjectSettings
deriving DecidableEq, Repr

/-! ## Time algebra (`ops/time.ts`) -/

def clampNonNegative (ms : Int) : Int := if ms < 0 then 0 else ms

/-- Half-open interval `[start, stop)`; the source names the second field
`end`, which is a reserved word in Lean. -/
structure TimeRange where
  start : Int
  stop : Int
deriving DecidableEq, Repr

def toRange (startMs durationMs : Int) : TimeRange :=
  { start := startMs, stop := startMs + durationMs }

def rangesOverlap (a b : TimeRange) : Bool :=
  !(decide (a.stop ≤ b.start) || decide (b.stop ≤ a.start))

/-! ## Errors (`ops/errors.ts`) -/

inductive EditorOpErrorCode
  | track_not_found
  | clip_not_found
  | invalid_time
  | clip_overlap
  | track_kind_mismatch
  | resource_kind_mismatch
deriving DecidableEq, Repr

structure EditorOpError where
  code : EditorOpErrorCode
  message : String
deriving DecidableEq, Repr

/-! ## Project helpers (`ops/projectOps.ts`) -/

def touchProject (project : EditorProject) (now : Int) : EditorProject :=
  { project with updatedAt := now }

def getTrack (project : EditorProject) (trackId : String) : Except EditorOpError Track :=
  match project.tracks.find? (fun t => t.id == trackId) with
  | some track => .ok track
  | none => .error { code := .track_not_found, message := "track not found" }

/-- The nested scan of `getClip`: first matching clip, tracks in list order. -/
def findClipInTracks (clipId : String) : List Track → Option Clip
  | [] => none
  | t :: rest =>
    match t.clips.find? (fun c => c.id == clipId) with
    | some c => some c
    | none => findClipInTracks clipId rest

def getClip (project : EditorProject) (clipId : String) : Except EditorOpError Clip :=
  match findClipInTracks clipId project.tracks with
  | some c => .ok c
  | none => .error { code := .clip_not_found, message := "clip not found" }

def findTrackOfClip (clipId : String) : List Track → Option Track
  | [] => none
  | t :: rest =>
    if t.clips.any (fun c => c.id == clipId) then some t else findTrackOfClip clipId rest

def getTrackOfClip (project : EditorProject) (clipId : String) : Except EditorOpError Track :=
  match findTrackOfClip clipId project.tracks with
  | some t => .ok t
  | none => .error { code := .clip_not_found, message := "clip not found" }

def assertTrackAcceptsClipKind (trackKind : TrackKind) (clipKind : ClipKind) :
    Except EditorOpError Unit :=
  let ok :=
    (trackKind == ClipKind.video && clipKind == ClipKind.video) ||
    (trackKind == ClipKind.audio && clipKind == ClipKind.audio) ||
    (trackKind == ClipKind.text && clipKind == ClipKind.text)
  if ok then .ok () else .error { code := .track_kind_mismatch, message := "track kind mismatch" }

def assertResourceKindMatchesClipKind (resourceKind : ResourceKind) (clipKind : ClipKind) :
    Except EditorOpError Unit :=
  let ok :=
    (resourceKind == ResourceKind.video && clipKind == ClipKind.video) ||
    (resourceKind == ResourceKind.audio && clipKind == ClipKind.audio)
  if ok then .ok ()
  else .error { code := .resource_kind_mismatch, message := "resource kind mismatch" }

/-- `project.resources[resourceId]` on the `Record<ResourceId, ResourceMeta>`. -/
def getResource (project : EditorProject) (resourceId : String) : Option ResourceMeta :=
  (project.resources.find? (fun e => e.1 == resourceId)).map (fun e => e.2)

/-! ## Clip operations (`ops/clipOps.ts`) -/

def MIN_DURATION_MS : Int := 1

/-- The filter `(c) => (ignoreClipId ? c.id !== ignoreClipId : true)` — note
that the empty string is falsy in JS, hence the extra case. -/
def keptByIgnore (ignoreClipId : Option String) (c : Clip) : Bool :=
  match ignoreClipId with
  | some i => if i == "" then true else c.id != i
  | none => true

def canPlaceClipInTrack (trackClips : List Clip) (next : Clip) (ignoreClipId : Option String) :
    Bool :=
  let nextRange := toRange next.startMs next.durationMs
  (trackClips.filter (keptByIgnore ignoreClipId)).all
    (fun c => !rangesOverlap (toRange c.startMs c.durationMs) nextRange)

def assertNoOverlap (trackClips : List Clip) (next : Clip) (ignoreClipId : Option String) :
    Except EditorOpError Unit :=
  if canPlaceClipInTrack trackClips next ignoreClipId then .ok ()
  else .error { code := .clip_overlap, message := "clips in one track must not overlap" }

def defaultStyle : TextStyle :=
  { fontFamily := "", fontSize := 0, fontWeight := "", color := "", align := "" }

def defaultTransform : TextTransform := { x := 0, y := 0, scale := 0, rotateDeg := 0 }

/-- `Omit<VideoClip, 'id' | 'kind'>` -/
structure VideoClipInput where
  trackId : String
  startMs : Int
  durationMs : Int
  resourceId : String
  trimStartMs : Int
  trimDurationMs : Option Int
deriving DecidableEq, Repr

/-- `Omit<AudioClip, 'id' | 'kind'>` -/
structure AudioClipInput where
  trackId : String
  startMs : Int
  durationMs : Int
  resourceId : String
  trimStartMs : Int
  trimDurationMs : Option Int
  volume : Rat
deriving DecidableEq, Repr

/-- `Omit<TextClip, 'id' | 'kind'>` -/
structure TextClipInput where
  trackId : String
  startMs : Int
  durationMs : Int
  text : String
  style : TextStyle
  transform : TextTransform
deriving DecidableEq, Repr

def addVideoClipFromResource (project : EditorProject) (input : VideoClipInput)
    (freshId : String) (now : Int) : Except EditorOpError EditorProject := do
  let track ← getTrack project input.trackId
  assertTrackAcceptsClipKind track.kind .video
  let res ← match getResource project input.resourceId with
    | none => throw { code := .resource_kind_mismatch, message := "resource not found" }
    | some r => pure r
  assertResourceKindMatchesClipKind res.kind .video
  let clip : Clip :=
    { id := freshId, kind := .video, trackId := input.trackId, startMs := input.startMs,
      durationMs := input.durationMs, resourceId := input.resourceId,
      trimStartMs := input.trimStartMs, trimDurationMs := input.trimDurationMs,
      volume := 0, text := "", style := defaultStyle, transform := defaultTransform }
  if clip.startMs < 0 ∨ clip.durationMs < MIN_DURATION_MS ∨ clip.trimStartMs < 0 then
    throw { code := .invalid_time, message := "invalid time parameters" }
  assertNoOverlap track.clips clip none
  let next : EditorProject :=
    { project with
      tracks := project.tracks.map (fun t =>
        if t.id == track.id then { t with clips := t.clips ++ [clip] } else t) }
  pure (touchProject next now)

def addAudioClipFromResource (project : EditorProject) (input : AudioClipInput)
    (freshId : String) (now : Int) : Except EditorOpError EditorProject := do
  let track ← getTrack project input.trackId
  assertTrackAcceptsClipKind track.kind .audio
  let res ← match getResource project input.resourceId with
    | none => throw { code := .resource_kind_mismatch, message := "resource not found" }
    | some r => pure r
  assertResourceKindMatchesClipKind res.kind .audio
  let clip : Clip :=
    { id := freshId, kind := .audio, trackId := input.trackId, startMs := input.startMs,
      durationMs := input.durationMs, resourceId := input.resourceId,
      trimStartMs := input.trimStartMs, trimDurationMs := input.trimDurationMs,
      volume := input.volume, text := "", style := defaultStyle,
      transform := defaultTransform }
  if clip.startMs < 0 ∨ clip.durationMs < MIN_DURATION_MS ∨ clip.trimStartMs < 0 then
    throw { code := .invalid_time, message := "invalid time parameters" }
  assertNoOverlap track.clips clip none
  let next : EditorProject :=
    { project with
      tracks := project.tracks.map (fun t =>
        if t.id == track.id then { t with clips := t.clips ++ [clip] } else t) }
  pure (touchProject next now)

def addTextClip (project : EditorProject) (input : TextClipInput)
    (freshId : String) (now : Int) : Except EditorOpError EditorProject := do
  let track ← getTrack project input.trackId
  assertTrackAcceptsClipKind track.kind .text
  let clip : Clip :=
    { id := freshId, kind := .text, trackId := input.trackId, startMs := input.startMs,
      durationMs := input.durationMs, resourceId := "", trimStartMs := 0,
      trimDurationMs := none, volume := 0, text := input.text, style := input.style,
      transform := input.transform }
  if clip.startMs < 0 ∨ clip.durationMs < MIN_DURATION_MS then
    throw { code := .invalid_time, message := "invalid time parameters" }
  assertNoOverlap track.clips clip none
  let next : EditorProject :=
    { project with
      tracks := project.tracks.map (fun t =>
        if t.id == track.id then { t with clips := t.clips ++ [clip] } else t) }
  pure (touchProject next now)

def moveClipInTrack (project : EditorProject) (clipId : String) (nextStartMs : Int)
    (now : Int) : Except EditorOpError EditorProject := do
  let clip ← getClip project clipId
  let track ← getTrack project clip.trackId
  let moved : Clip := { clip with startMs := clampNonNegative nextStartMs }
  assertNoOverlap track.clips moved (some clipId)
  let next : EditorProject :=
    { project with
      tracks := project.tracks.map (fun t =>
        if t.id != track.id then t
        else { t with clips := t.clips.map (fun c => if c.id == clipId then moved else c) }) }
  pure (touchProject next now)

def moveClipToTrack (project : EditorProject) (clipId : String) (nextTrackId : String)
    (nextStartMs : Int) (now : Int) : Except EditorOpError EditorProject := do
  let clip ← getClip project clipId
  let fromTrack ← getTrack project clip.trackId
  let toTrack ← getTrack project nextTrackId
  assertTrackAcceptsClipKind toTrack.kind clip.kind
  let moved : Clip := { clip with trackId := nextTrackId, startMs := clampNonNegative nextStartMs }
  assertNoOverlap toTrack.clips moved none
  let next : EditorProject :=
    { project with
      tracks := project.tracks.map (fun t =>
        if t.id == fromTrack.id then { t with clips := t.clips.filter (fun c => c.id != clipId) }
        else if t.id == toTrack.id then { t with clips := t.clips ++ [moved] }
        else t) }
  pure (touchProject next now)

inductive ResizeAnchor
  | start
  | end_
deriving DecidableEq, Repr

def resizeClip (project : EditorProject) (clipId : String) (nextDurationMs : Int)
    (anchor : ResizeAnchor) (now : Int) : Except EditorOpError EditorProject := do
  let clip ← getClip project clipId
  let track ← getTrack project clip.trackId
  let durationMs := max MIN_DURATION_MS nextDurationMs
  let resized : Clip :=
    match anchor with
    | .end_ => { clip with durationMs := durationMs }
    | .start =>
      { clip with
        startMs := clampNonNegative (clip.startMs + clip.durationMs - durationMs),
        durationMs := durationMs }
  assertNoOverlap track.clips resized (some clipId)
  let next : EditorProject :=
    { project with
      tracks := project.tracks.map (fun t =>
        if t.id != track.id then t
        else { t with clips := t.clips.map (fun c => if c.id == clipId then resized else c) }) }
  pure (touchProject next now)

/-- `Partial<Omit<TextClip, 'id' | 'kind'>>`; the `style`/`transform` spreads in
the source merge whole sub-records (the patch type carries complete records). -/
structure TextClipPatch where
  trackId : Option String
  startMs : Option Int
  durationMs : Option Int
  text : Option String
  style : Option TextStyle
  transform : Option TextTransform
deriving DecidableEq, Repr

def updateTextClip (project : EditorProject) (clipId : String) (patch : TextClipPatch)
    (now : Int) : Except EditorOpError EditorProject := do
  let clip ← getClip project clipId
  if clip.kind != ClipKind.text then
    throw { code := .track_kind_mismatch, message := "only text clips support updateTextClip" }
  let track ← getTrack project clip.trackId
  let nextClip : Clip :=
    { clip with
      trackId := patch.trackId.getD clip.trackId,
      startMs := patch.startMs.getD clip.startMs,
      durationMs := patch.durationMs.getD clip.durationMs,
      text := patch.text.getD clip.text,
      style := patch.style.getD clip.style,
      transform := patch.transform.getD clip.transform }
  assertNoOverlap track.clips nextClip (some clipId)
  let next : EditorProject :=
    { project with
      tracks := project.tracks.map (fun t =>
        if t.id != track.id then t
        else { t with clips := t.clips.map (fun c => if c.id == clipId then nextClip else c) }) }
  pure (touchProject next now)

def removeClip (project : EditorProject) (clipId : String) (now : Int) :
    Except EditorOpError EditorProject := do
  let track ← getTrackOfClip project clipId
  let next : EditorProject :=
    { project with
      tracks := project.tracks.map (fun t =>
        if t.id == track.id then { t with clips := t.clips.filter (fun c => c.id != clipId) }
        else t) }
  pure (touchProject next now)

/-! ## Track operations (`ops/trackOps.ts`) -/

structure TrackPatch where
  name : Option String
  opacity : Option Rat
deriving DecidableEq, Repr

def kindUpper : TrackKind → String
  | .video => "VIDEO"
  | .audio => "AUDIO"
  | .text => "TEXT"

def addTrack (project : EditorProject) (kind : TrackKind) (patch : TrackPatch)
    (freshTrackId : String) (now : Int) : EditorProject :=
  let order : Int := project.tracks.length
  let track : Track :=
    { id := freshTrackId, kind := kind, name := patch.name.getD (kindUpper kind ++ " Track"),
      order := order, opacity := patch.opacity.getD 1, muted := none, hidden := none,
      clips := [] }
  touchProject { project with tracks := project.tracks ++ [track] } now

/-- `tracks.map((t, idx) => ({ ...t, order: idx }))` -/
def reassignOrders (tracks : List Track) : List Track :=
  tracks.enum.map (fun it => { it.2 with order := (it.1 : Int) })

def removeTrack (project : EditorProject) (trackId : String) (now : Int) :
    Except EditorOpError EditorProject := do
  if ¬ project.tracks.any (fun t => t.id == trackId) then
    throw { code := .track_not_found, message := "track not found" }
  let next : EditorProject :=
    { project with
      tracks := reassignOrders (project.tracks.filter (fun t => t.id != trackId)) }
  pure (touchProject next now)

def setTrackOpacity (project : EditorProject) (trackId : String) (opacity : Rat)
    (now : Int) : Except EditorOpError EditorProject := do
  if opacity < 0 ∨ opacity > 1 then
    throw { code := .invalid_time, message := "invalid opacity" }
  let next : EditorProject :=
    { project with
      tracks := project.tracks.map (fun t =>
        if t.id == trackId then { t with opacity := opacity } else t) }
  let _ ← getTrack next trackId
  pure (touchProject next now)

def reorderTracksByIndex (project : EditorProject) (fromIndex toIndex : Int) (now : Int) :
    Except EditorOpError EditorProject :=
  let tracks := project.tracks
  if h : fromIndex < 0 ∨ (tracks.length : Int) ≤ fromIndex ∨
      toIndex < 0 ∨ (tracks.length : Int) ≤ toIndex then
    .error { code := .track_not_found, message := "bad track index" }
  else
    let moved := tracks.get ⟨fromIndex.toNat, by omega⟩
    let next : EditorProject :=
      { project with
        tracks := reassignOrders (List.insertIdx toIndex.toNat moved
          (tracks.eraseIdx fromIndex.toNat)) }
    .ok (touchProject next now)

/-! ## Squeeze overlap resolver (`ops/errors.ts`, `squeezeTrackClips`) -/

/-- Code-point lexicographic comparison of character lists, the embedding of
`a.localeCompare(b) ≤ 0`. -/
def strLeB : List Char → List Char → Bool
  | [], _ => true
  | _ :: _, [] => false
  | a :: as, b :: bs => if a < b then true else if b < a then false else strLeB as bs

/-- The comparator `(a, b) => a.startMs - b.startMs || a.id.localeCompare(b.id)`
read as "a sorts no later than b". -/
def clipKeyLE (a b : Clip) : Prop :=
  a.startMs < b.startMs ∨ (a.startMs = b.startMs ∧ strLeB a.id.data b.id.data = true)

instance : DecidableRel clipKeyLE := fun a b => by
  unfold clipKeyLE
  infer_instance

def sortClips (clips : List Clip) : List Clip := List.insertionSort clipKeyLE clips

/-- The layout loop pushing the overlapping clips back-to-back after the
priority clip: `c.startMs = cursor; cursor = c.startMs + c.durationMs`. -/
def layoutFrom (cursor : Int) : List Clip → List Clip
  | [] => []
  | c :: rest => { c with startMs := cursor } :: layoutFrom (cursor + c.durationMs) rest

/-- The final left-to-right scan of `squeezeTrackClips`. -/
def sweep (priorityClipId : String) (scanCursor : Int) : List Clip → List Clip
  | [] => []
  | c :: rest =>
    if c.id == priorityClipId then
      c :: sweep priorityClipId (max scanCursor c.startMs + c.durationMs) rest
    else
      let c2 := if c.startMs < scanCursor then { c with startMs := scanCursor } else c
      c2 :: sweep priorityClipId (c2.startMs + c2.durationMs) rest

/-- The body of `squeezeTrackClips` once the priority clip has been found:
partition into `before` / `overlap` / `after`, push the overlapping clips
back-to-back after the priority clip, merge, sort by `(startMs, id)` and run
the final left-to-right scan. -/
def squeezedClips (clips : List Clip) (priority : Clip) (priorityClipId : String) :
    List Clip :=
  let pRange := toRange priority.startMs priority.durationMs
  let pEnd := priority.startMs + priority.durationMs
  let others := clips.filter (fun c => c.id != priorityClipId)
  let overlap := others.filter (fun c => rangesOverlap (toRange c.startMs c.durationMs) pRange)
  let before := others.filter (fun c =>
    !rangesOverlap (toRange c.startMs c.durationMs) pRange &&
    decide (c.startMs + c.durationMs ≤ priority.startMs))
  let after := others.filter (fun c =>
    !rangesOverlap (toRange c.startMs c.durationMs) pRange &&
    !decide (c.startMs + c.durationMs ≤ priority.startMs))
  let overlapMoved := layoutFrom pEnd (sortClips overlap)
  let combined := sortClips (before ++ [priority] ++ overlapMoved ++ after)
  sweep priorityClipId 0 combined

def squeezeTrackClips (track : Track) (priorityClipId : String) : Track :=
  match track.clips.find? (fun c => c.id == priorityClipId) with
  | none => track
  | some priority => { track with clips := squeezedClips track.clips priority priorityClipId }

/-! ## Basic facts about the time algebra and the overlap gate -/

theorem rangesOverlap_eq_false_iff (a b : TimeRange) :
    rangesOverlap a b = false ↔ (a.stop ≤ b.start ∨ b.stop ≤ a.start) := by
  unfold rangesOverlap
  by_cases h1 : a.stop ≤ b.start <;> by_cases h2 : b.stop ≤ a.start <;> simp [h1, h2]

/-- Pairwise form of the per-track non-overlap invariant. -/
def clipsDisjoint (a b : Clip) : Prop :=
  rangesOverlap (toRange a.startMs a.durationMs) (toRange b.startMs b.durationMs) = false

instance : DecidableRel clipsDisjoint := fun a b => by
  unfold clipsDisjoint
  infer_instance

theorem clipsDisjoint_iff (a b : Clip) :
    clipsDisjoint a b ↔
      a.startMs + a.durationMs ≤ b.startMs ∨ b.startMs + b.durationMs ≤ a.startMs := by
  unfold clipsDisjoint
  rw [rangesOverlap_eq_false_iff]
  simp [toRange]

theorem clipsDisjoint_symm {a b : Clip} (h : clipsDisjoint a b) : clipsDisjoint b a := by
  rw [clipsDisjoint_iff] at h ⊢
  tauto

theorem canPlaceClipInTrack_iff (clips : List Clip) (next : Clip) (ign : Option String) :
    canPlaceClipInTrack clips next ign = true ↔
      ∀ c ∈ clips, keptByIgnore ign c = true → clipsDisjoint c next := by
  unfold canPlaceClipInTrack clipsDisjoint
  simp [List.all_eq_true, List.mem_filter]
  refine ⟨fun h c hc hk => ?_, fun h c hc => ?_⟩
  · rcases h c hc with h1 | h1
    · exact absurd hk (by simp [h1])
    · exact h1
  · by_cases hk : keptByIgnore ign c = true
    · exact Or.inr (h c hc hk)
    · exact Or.inl (by simpa using hk)

theorem assertNoOverlap_eq_ok_iff (clips : List Clip) (next : Clip) (ign : Option String) :
    assertNoOverlap clips next ign = .ok () ↔ canPlaceClipInTrack clips next ign = true := by
  unfold assertNoOverlap
  split <;> simp_all

theorem assertNoOverlap_eq_error (clips : List Clip) (next : Clip) (ign : Option String)
    (h : canPlaceClipInTrack clips next ign = false) :
    assertNoOverlap clips next ign =
      .error { code := .clip_overlap, message := "clips in one track must not overlap" } := by
  unfold assertNoOverlap
  simp [h]

/-! ## Concrete fixtures used by witnesses and counterexamples -/

def exClip (i : String) (s d : Int) : Clip :=
  { id := i, trackId := "trk1", startMs := s, durationMs := d, kind := .video,
    resourceId := "res1", trimStartMs := 0, trimDurationMs := none, volume := 0,
    text := "", style := defaultStyle, transform := defaultTransform }

def exTrack (cs : List Clip) : Track :=
  { id := "trk1", kind := .video, name := "Track", order := 0, opacity := 1,
    muted := none, hidden := none, clips := cs }

/-! ## Claim C8 -/

/-- C8: `rangesOverlap a b` is `false` iff `a.stop ≤ b.start` or
`b.stop ≤ a.start` — touching endpoints are not an overlap — and consequently a
clip placed so that it only touches the other clips of its track passes the
single overlap gate: `canPlaceClipInTrack` answers `true` and `assertNoOverlap`
does not fail with `clip_overlap`. -/
theorem C8_touching_endpoints_are_legal (a b : TimeRange) (trackClips : List Clip)
    (next : Clip) (ign : Option String)
    (htouch : ∀ c ∈ trackClips, keptByIgnore ign c = true →
      c.startMs + c.durationMs ≤ next.startMs ∨
      next.startMs + next.durationMs ≤ c.startMs) :
    (rangesOverlap a b = false ↔ (a.stop ≤ b.start ∨ b.stop ≤ a.start)) ∧
    canPlaceClipInTrack trackClips next ign = true ∧
    assertNoOverlap trackClips next ign = .ok () := by
  have hcan : canPlaceClipInTrack trackClips next ign = true := by
    rw [canPlaceClipInTrack_iff]
    intro c hc hk
    rw [clipsDisjoint_iff]
    exact htouch c hc hk
  exact ⟨rangesOverlap_eq_false_iff a b, hcan, (assertNoOverlap_eq_ok_iff _ _ _).mpr hcan⟩

theorem C8_touching_endpoints_are_legal_witness :
    (∀ c ∈ [exClip "a" 0 1000], keptByIgnore none c = true →
      c.startMs + c.durationMs ≤ (exClip "b" 1000 500).startMs ∨
      (exClip "b" 1000 500).startMs + (exClip "b" 1000 500).durationMs ≤ c.startMs) ∧
    ((rangesOverlap (TimeRange.mk 0 5) (TimeRange.mk 5 9) = false ↔
        ((TimeRange.mk 0 5).stop ≤ (TimeRange.mk 5 9).start ∨
         (TimeRange.mk 5 9).stop ≤ (TimeRange.mk 0 5).start)) ∧
      canPlaceClipInTrack [exClip "a" 0 1000] (exClip "b" 1000 500) none = true ∧
      assertNoOverlap [exClip "a" 0 1000] (exClip "b" 1000 500) none = .ok ()) :=
  ⟨by decide,
    C8_touching_endpoints_are_legal (TimeRange.mk 0 5) (TimeRange.mk 5 9)
      [exClip "a" 0 1000] (exClip "b" 1000 500) none (by decide)⟩

/-! ## Claim C10 -/

/-- C10: when no clip of the track carries `priorityClipId`, `squeezeTrackClips`
returns its input track unchanged — it does not fail and displaces nothing. -/
theorem C10_squeeze_absent_priority_is_identity (track : Track) (pid : String)
    (h : ∀ c ∈ track.clips, c.id ≠ pid) :
    squeezeTrackClips track pid = track := by
  unfold squeezeTrackClips
  have hfind : track.clips.find? (fun c => c.id == pid) = none := by
    rw [List.find?_eq_none]
    intro c hc
    simp [h c hc]
  rw [hfind]

theorem C10_squeeze_absent_priority_is_identity_witness :
    (∀ c ∈ (exTrack [exClip "a" 0 10, exClip "b" 10 10]).clips, c.id ≠ "zz") ∧
    squeezeTrackClips (exTrack [exClip "a" 0 10, exClip "b" 10 10]) "zz" =
      exTrack [exClip "a" 0 10, exClip "b" 10 10] :=
  ⟨by decide,
    C10_squeeze_absent_priority_is_identity (exTrack [exClip "a" 0 10, exClip "b" 10 10]) "zz"
      (by decide)⟩

/-! ## Lookup and replacement lemmas -/

theorem clampNonNegative_eq_max (x : Int) : clampNonNegative x = max 0 x := by
  unfold clampNonNegative
  split <;> omega

theorem findClipInTracks_id {tracks : List Track} {clipId : String} {c : Clip}
    (h : findClipInTracks clipId tracks = some c) : c.id = clipId := by
  induction tracks with
  | nil => simp [findClipInTracks] at h
  | cons tr rest ih =>
    unfold findClipInTracks at h
    cases hf : tr.clips.find? (fun c => c.id == clipId) with
    | some c0 =>
      rw [hf] at h
      injection h with h
      subst h
      have := List.find?_some hf
      simpa using this
    | none =>
      rw [hf] at h
      exact ih h

theorem getClip_id {project : EditorProject} {clipId : String} {clip : Clip}
    (h : getClip project clipId = .ok clip) : clip.id = clipId := by
  unfold getClip at h
  cases hf : findClipInTracks clipId project.tracks with
  | some c => rw [hf] at h; injection h with h; subst h; exact findClipInTracks_id hf
  | none => rw [hf] at h; cases h

theorem map_replaceClip_eq_self {l : List Clip} {cid : String} {newClip : Clip}
    (h : l.find? (fun c => c.id == cid) = none) :
    l.map (fun c => if c.id == cid then newClip else c) = l := by
  rw [List.find?_eq_none] at h
  have hcong : ∀ c ∈ l, (fun c => if c.id == cid then newClip else c) c = id c := by
    intro c hc
    simp [h c hc]
  rw [List.map_congr_left hcong, List.map_id]

theorem find?_map_replaceClip {l : List Clip} {cid : String} {clip newClip : Clip}
    (hfind : l.find? (fun c => c.id == cid) = some clip) (hid : newClip.id = cid) :
    (l.map (fun c => if c.id == cid then newClip else c)).find? (fun c => c.id == cid) =
      some newClip := by
  induction l with
  | nil => simp at hfind
  | cons c rest ih =>
    cases hc : (c.id == cid) with
    | true =>
      rw [List.map_cons, if_pos hc]
      exact List.find?_cons_of_pos _ (by simp [hid])
    | false =>
      rw [List.map_cons, if_neg (by simp [hc])]
      rw [List.find?_cons_of_neg (rest.map (fun c => if c.id == cid then newClip else c))
        (by simp [hc])]
      rw [List.find?_cons_of_neg rest (by simp [hc])] at hfind
      exact ih hfind

theorem findClipInTracks_map_replace (tracks : List Track) (clipId : String) (t : Track)
    (clip newClip : Clip)
    (hof : findTrackOfClip clipId tracks = some t)
    (hfound : findClipInTracks clipId tracks = some clip)
    (hid : newClip.id = clipId) :
    findClipInTracks clipId (tracks.map (fun tr =>
      if tr.id != t.id then tr
      else { tr with clips := tr.clips.map (fun c => if c.id == clipId then newClip else c) })) =
      some newClip := by
  induction tracks with
  | nil => simp [findTrackOfClip] at hof
  | cons tr rest ih =>
    rw [List.map_cons]
    unfold findTrackOfClip at hof
    by_cases hany : tr.clips.any (fun c => c.id == clipId) = true
    · rw [if_pos hany] at hof
      injection hof with hof
      subst hof
      rw [if_neg (by simp)]
      unfold findClipInTracks at hfound ⊢
      cases hf : tr.clips.find? (fun c => c.id == clipId) with
      | none =>
        rw [List.find?_eq_none] at hf
        rcases List.any_eq_true.mp hany with ⟨c0, hc0, hp⟩
        exact absurd hp (hf c0 hc0)
      | some c0 =>
        simp only
        rw [find?_map_replaceClip hf hid]
    · rw [if_neg hany] at hof
      have hnone : tr.clips.find? (fun c => c.id == clipId) = none := by
        rw [List.find?_eq_none]
        intro c hc hp
        exact hany (List.any_eq_true.mpr ⟨c, hc, hp⟩)
      unfold findClipInTracks at hfound
      rw [hnone] at hfound
      unfold findClipInTracks
      by_cases hidr : (tr.id != t.id) = true
      · rw [if_pos hidr, hnone]
        exact ih hof hfound
      · rw [if_neg hidr]
        simp only
        rw [map_replaceClip_eq_self hnone, hnone]
        exact ih hof hfound

/-- After replacing the clip `clipId` by `newClip` inside the track that
contains it, `getClip` finds `newClip`. -/
theorem getClip_after_replace (project p' : EditorProject) (clipId : String) (t : Track)
    (clip newClip : Clip)
    (hclip : getClip project clipId = .ok clip)
    (hof : getTrackOfClip project clipId = .ok t)
    (hid : newClip.id = clipId)
    (htr : p'.tracks = project.tracks.map (fun tr =>
      if tr.id != t.id then tr
      else { tr with
        clips := tr.clips.map (fun c => if c.id == clipId then newClip else c) })) :
    getClip p' clipId = .ok newClip := by
  unfold getClip at hclip ⊢
  unfold getTrackOfClip at hof
  cases hf : findClipInTracks clipId project.tracks with
  | none => rw [hf] at hclip; cases hclip
  | some c =>
    rw [hf] at hclip
    injection hclip with hclip
    subst hclip
    cases ho : findTrackOfClip clipId project.tracks with
    | none => rw [ho] at hof; cases hof
    | some t0 =>
      rw [ho] at hof
      injection hof with hof
      subst hof
      rw [htr, findClipInTracks_map_replace project.tracks clipId _ _ newClip ho hf hid]

/-! ## Claim C5

In the embedding every timeline operation is a pure function
`... → Except EditorOpError EditorProject`: by the type alone it either
returns a new project or exactly one `EditorOpError` (whose `code` is one of
the six typed codes), and a failing run produces no project at all — the input
value is untouched, so there is no partial application to observe.  The theorem
proves the substantive part: in any project whose addressed track holds a clip
occupying `[0, 1000)`, `addVideoClipFromResource` with `startMs = 500`,
`durationMs = 200` fails, and the error code is `clip_overlap`. -/

def exMeta : ResourceMeta :=
  { id := "res1", kind := .video, name := "clip.mp4", mime := "video/mp4", size := 1,
    lastModified := 0, createdAt := 0, durationMs := none, width := none, height := none }

def exSettings : ProjectSettings :=
  { width := 1280, height := 720, fps := 30, backgroundColor := "#000000" }

def exProj (ts : List Track) : EditorProject :=
  { id := "proj1", name := "Demo", createdAt := 0, updatedAt := 0,
    resources := [("res1", exMeta)], tracks := ts, settings := exSettings }

/-- C5: adding a video clip `[500, 700)` over an existing clip `[0, 1000)`
fails with the typed code `clip_overlap`; the operation returns only the error
(no project), so the input project is unchanged. -/
theorem C5_addVideoClip_overlap_fails_typed (project : EditorProject)
    (input : VideoClipInput) (freshId : String) (now : Int) (track : Track)
    (res : ResourceMeta)
    (htrack : getTrack project input.trackId = .ok track)
    (hkind : track.kind = .video)
    (hres : getResource project input.resourceId = some res)
    (hreskind : res.kind = .video)
    (hstart : input.startMs = 500) (hdur : input.durationMs = 200)
    (htrim : input.trimStartMs = 0)
    (hclip : ∃ c ∈ track.clips, c.startMs = 0 ∧ c.durationMs = 1000) :
    addVideoClipFromResource project input freshId now =
      .error { code := .clip_overlap, message := "clips in one track must not overlap" } := by
  have hcan : canPlaceClipInTrack track.clips
      { id := freshId, kind := .video, trackId := input.trackId, startMs := input.startMs,
        durationMs := input.durationMs, resourceId := input.resourceId,
        trimStartMs := input.trimStartMs, trimDurationMs := input.trimDurationMs,
        volume := 0, text := "", style := defaultStyle, transform := defaultTransform }
      none = false := by
    rcases hclip with ⟨c, hc, hcs, hcd⟩
    rw [Bool.eq_false_iff]
    intro hcp
    rw [canPlaceClipInTrack_iff] at hcp
    have := hcp c hc (by simp [keptByIgnore])
    rw [clipsDisjoint_iff, hcs, hcd] at this
    simp only [hstart, hdur] at this
    omega
  unfold addVideoClipFromResource
  rw [htrack]
  simp only [bind, Except.bind]
  rw [hkind]
  simp only [show assertTrackAcceptsClipKind ClipKind.video ClipKind.video = Except.ok ()
    from rfl]
  rw [hres]
  simp only [pure, Except.pure]
  rw [hreskind]
  simp only [show assertResourceKindMatchesClipKind ResourceKind.video ClipKind.video =
    Except.ok () from rfl]
  rw [if_neg (by simp only [hstart, hdur, htrim, MIN_DURATION_MS]; omega)]
  rw [assertNoOverlap_eq_error _ _ _ hcan]

theorem C5_addVideoClip_overlap_fails_typed_witness :
    (getTrack (exProj [exTrack [exClip "a" 0 1000]]) "trk1" = .ok (exTrack [exClip "a" 0 1000])) ∧
    (getResource (exProj [exTrack [exClip "a" 0 1000]]) "res1" = some exMeta) ∧
    (∃ c ∈ (exTrack [exClip "a" 0 1000]).clips, c.startMs = 0 ∧ c.durationMs = 1000) ∧
    addVideoClipFromResource (exProj [exTrack [exClip "a" 0 1000]])
      { trackId := "trk1", startMs := 500, durationMs := 200, resourceId := "res1",
        trimStartMs := 0, trimDurationMs := none } "fresh" 7 =
      .error { code := .clip_overlap, message := "clips in one track must not overlap" } :=
  ⟨by decide, by decide, ⟨exClip "a" 0 1000, by decide, by decide, by decide⟩,
    C5_addVideoClip_overlap_fails_typed (exProj [exTrack [exClip "a" 0 1000]])
      { trackId := "trk1", startMs := 500, durationMs := 200, resourceId := "res1",
        trimStartMs := 0, trimDurationMs := none } "fresh" 7 (exTrack [exClip "a" 0 1000])
      exMeta (by decide) (by decide) (by decide) (by decide) (by decide) (by decide)
      (by decide) ⟨exClip "a" 0 1000, by decide, by decide, by decide⟩⟩

/-! ## Claim C6 -/

/-- C6: a successful `resizeClip` updates exactly the addressed clip; with
`anchor = end` the clip keeps `startMs` and gets
`durationMs = max 1 nextDurationMs` (`newDuration`), with `anchor = start` the
clip gets `startMs = max 0 (startMs + durationMs - newDuration)` and
`durationMs = newDuration`, keeping the end fixed whenever the clamp at 0 does
not fire.  The hypotheses say the clip exists and sits in the track its
`trackId` names (the data-model ownership invariant). -/
theorem C6_resizeClip_anchor_semantics (project : EditorProject) (clipId : String)
    (nextDurationMs : Int) (anchor : ResizeAnchor) (now : Int) (clip : Clip) (t : Track)
    (p' : EditorProject)
    (hclip : getClip project clipId = .ok clip)
    (htrack : getTrack project clip.trackId = .ok t)
    (hof : getTrackOfClip project clipId = .ok t)
    (hok : resizeClip project clipId nextDurationMs anchor now = .ok p') :
    getClip p' clipId = .ok
      (match anchor with
       | .end_ => { clip with durationMs := max 1 nextDurationMs }
       | .start =>
         { clip with
           startMs := max 0 (clip.startMs + clip.durationMs - max 1 nextDurationMs),
           durationMs := max 1 nextDurationMs }) := by
  unfold resizeClip at hok
  rw [hclip] at hok
  simp only [bind, Except.bind] at hok
  rw [htrack] at hok
  cases anchor with
  | end_ =>
    simp only at hok ⊢
    split at hok
    · cases hok
    · simp only [pure, Except.pure, Except.ok.injEq] at hok
      subst hok
      exact getClip_after_replace project _ clipId t clip _ hclip hof
        (by simp [getClip_id hclip]) rfl
  | start =>
    simp only at hok ⊢
    split at hok
    · cases hok
    · simp only [pure, Except.pure, Except.ok.injEq] at hok
      subst hok
      have hrw : ({ clip with
           startMs := max 0 (clip.startMs + clip.durationMs - max 1 nextDurationMs),
           durationMs := max 1 nextDurationMs } : Clip) =
          { clip with
            startMs := clampNonNegative (clip.startMs + clip.durationMs -
              max MIN_DURATION_MS nextDurationMs),
            durationMs := max MIN_DURATION_MS nextDurationMs } := by
        rw [clampNonNegative_eq_max]
        rfl
      rw [hrw]
      exact getClip_after_replace project _ clipId t clip _ hclip hof
        (by simp [getClip_id hclip]) rfl

theorem C6_resizeClip_anchor_semantics_witness :
    (getClip (exProj [exTrack [exClip "c" 1000 1000]]) "c" = .ok (exClip "c" 1000 1000)) ∧
    (getTrackOfClip (exProj [exTrack [exClip "c" 1000 1000]]) "c" =
      .ok (exTrack [exClip "c" 1000 1000])) ∧
    (resizeClip (exProj [exTrack [exClip "c" 1000 1000]]) "c" 1500 .start 9 =
      .ok (touchProject (exProj [exTrack [exClip "c" 500 1500]]) 9)) ∧
    getClip (touchProject (exProj [exTrack [exClip "c" 500 1500]]) 9) "c" =
      .ok (exClip "c" 500 1500) :=
  ⟨by decide, by decide, by decide,
    C6_resizeClip_anchor_semantics (exProj [exTrack [exClip "c" 1000 1000]]) "c" 1500
      .start 9 (exClip "c" 1000 1000) (exTrack [exClip "c" 1000 1000])
      (touchProject (exProj [exTrack [exClip "c" 500 1500]]) 9)
      (by decide) (by decide) (by decide) (by decide)⟩

/-! ## Squeeze analysis: sort order, chains, sweep -/

theorem strLeB_total (xs ys : List Char) : strLeB xs ys = true ∨ strLeB ys xs = true := by
  induction xs generalizing ys with
  | nil => left; rfl
  | cons a as ih =>
    cases ys with
    | nil => right; rfl
    | cons b bs =>
      rcases lt_trichotomy a b with h | h | h
      · left; simp [strLeB, h]
      · subst h
        rcases ih bs with h2 | h2
        · left; simp [strLeB, lt_irrefl, h2]
        · right; simp [strLeB, lt_irrefl, h2]
      · right; simp [strLeB, h]

theorem strLeB_trans {xs ys zs : List Char} (h1 : strLeB xs ys = true)
    (h2 : strLeB ys zs = true) : strLeB xs zs = true := by
  induction xs generalizing ys zs with
  | nil => rfl
  | cons a as ih =>
    cases ys with
    | nil => simp [strLeB] at h1
    | cons b bs =>
      cases zs with
      | nil => simp [strLeB] at h2
      | cons c cs =>
        simp only [strLeB] at h1 h2 ⊢
        rcases lt_trichotomy a b with hab | hab | hab
        · rcases lt_trichotomy b c with hbc | hbc | hbc
          · simp [lt_trans hab hbc]
          · subst hbc; simp [hab]
          · simp only [if_pos hab] at h1
            simp only [if_neg (lt_asymm hbc), if_pos hbc] at h2
            cases h2
        · subst hab
          rcases lt_trichotomy a c with hac | hac | hac
          · simp [hac]
          · subst hac
            simp only [lt_irrefl, if_neg (lt_irrefl a)] at h1 h2 ⊢
            exact ih h1 h2
          · simp only [if_neg (lt_asymm hac), if_pos hac] at h2
            cases h2
        · simp only [if_neg (lt_asymm hab), if_pos hab] at h1
          cases h1

theorem clipKeyLE_total (a b : Clip) : clipKeyLE a b ∨ clipKeyLE b a := by
  unfold clipKeyLE
  rcases lt_trichotomy a.startMs b.startMs with h | h | h
  · left; left; exact h
  · rcases strLeB_total a.id.data b.id.data with h2 | h2
    · left; right; exact ⟨h, h2⟩
    · right; right; exact ⟨h.symm, h2⟩
  · right; left; exact h

theorem clipKeyLE_trans {a b c : Clip} (h1 : clipKeyLE a b) (h2 : clipKeyLE b c) :
    clipKeyLE a c := by
  unfold clipKeyLE at h1 h2 ⊢
  rcases h1 with h1 | ⟨h1, h1s⟩
  · rcases h2 with h2 | ⟨h2, _⟩
    · exact Or.inl (lt_trans h1 h2)
    · exact Or.inl (h2 ▸ h1)
  · rcases h2 with h2 | ⟨h2, h2s⟩
    · exact Or.inl (h1 ▸ h2)
    · exact Or.inr ⟨h1.trans h2, strLeB_trans h1s h2s⟩

instance : IsTotal Clip clipKeyLE := ⟨clipKeyLE_total⟩

instance : IsTrans Clip clipKeyLE := ⟨fun _ _ _ => clipKeyLE_trans⟩

theorem sortClips_sorted (l : List Clip) : (sortClips l).Pairwise clipKeyLE :=
  List.sorted_insertionSort clipKeyLE l

theorem sortClips_perm (l : List Clip) : (sortClips l).Perm l :=
  List.perm_insertionSort clipKeyLE l

theorem clipKeyLE_start_le {a b : Clip} (h : clipKeyLE a b) : a.startMs ≤ b.startMs := by
  rcases h with h | ⟨h, _⟩
  · exact le_of_lt h
  · exact le_of_eq h

/-- `{ c with startMs := s }`, the only shape of clip mutation the squeeze pass
performs. -/
def setStart (c : Clip) (s : Int) : Clip := { c with startMs := s }

theorem setStart_self (c : Clip) : setStart c c.startMs = c := rfl

theorem setStart_setStart (c : Clip) (s1 s2 : Int) :
    setStart (setStart c s1) s2 = setStart c s2 := rfl

/-- The clips of `l` are laid out left to right without overlap, starting no
earlier than `cur`. -/
def chainedFrom : Int → List Clip → Prop
  | _, [] => True
  | cur, c :: rest => cur ≤ c.startMs ∧ chainedFrom (c.startMs + c.durationMs) rest

theorem chainedFrom_mem_start {cur : Int} {l : List Clip} (h : chainedFrom cur l)
    (hdur : ∀ c ∈ l, 0 ≤ c.durationMs) : ∀ c ∈ l, cur ≤ c.startMs := by
  induction l generalizing cur with
  | nil => intro c hc; cases hc
  | cons c rest ih =>
    intro d hd
    cases hd with
    | head => exact h.1
    | tail _ hd =>
      have h2 := ih h.2 (fun x hx => hdur x (List.mem_cons_of_mem c hx)) d hd
      have h3 := hdur c (List.mem_cons_self c rest)
      have h1 := h.1
      omega

theorem chainedFrom_pairwise {cur : Int} {l : List Clip} (h : chainedFrom cur l)
    (hdur : ∀ c ∈ l, 0 ≤ c.durationMs) : l.Pairwise clipsDisjoint := by
  induction l generalizing cur with
  | nil => exact List.Pairwise.nil
  | cons c rest ih =>
    refine List.Pairwise.cons ?_ (ih h.2 (fun x hx => hdur x (List.mem_cons_of_mem c hx)))
    intro b hb
    have hstart := chainedFrom_mem_start h.2
      (fun x hx => hdur x (List.mem_cons_of_mem c hx)) b hb
    rw [clipsDisjoint_iff]
    omega

theorem sorted_disjoint_chained {cur : Int} {l : List Clip}
    (hsort : l.Pairwise clipKeyLE) (hdisj : l.Pairwise clipsDisjoint)
    (hdur : ∀ c ∈ l, 0 < c.durationMs) (hstart : ∀ c ∈ l, cur ≤ c.startMs) :
    chainedFrom cur l := by
  induction l generalizing cur with
  | nil => trivial
  | cons c rest ih =>
    refine ⟨hstart c (List.mem_cons_self c rest), ?_⟩
    have hnext : ∀ b ∈ rest, c.startMs + c.durationMs ≤ b.startMs := by
      intro b hb
      have hk := clipKeyLE_start_le (List.rel_of_pairwise_cons hsort hb)
      have hd := (clipsDisjoint_iff c b).mp (List.rel_of_pairwise_cons hdisj hb)
      have hbd := hdur b (List.mem_cons_of_mem c hb)
      omega
    exact ih (List.Pairwise.sublist (List.sublist_cons_self c rest) hsort)
      (List.Pairwise.sublist (List.sublist_cons_self c rest) hdisj)
      (fun x hx => hdur x (List.mem_cons_of_mem c hx)) hnext

/-! Layout (`layoutFrom`) lemmas. -/

theorem layoutFrom_ids (cur : Int) (l : List Clip) :
    (layoutFrom cur l).map (fun c => c.id) = l.map (fun c => c.id) := by
  induction l generalizing cur with
  | nil => rfl
  | cons c rest ih => simp [layoutFrom, ih]

theorem layoutFrom_mem {cur : Int} {l : List Clip}
    (hdur : ∀ c ∈ l, 0 ≤ c.durationMs) :
    ∀ c' ∈ layoutFrom cur l, ∃ c ∈ l, ∃ s, c' = setStart c s ∧ cur ≤ s := by
  induction l generalizing cur with
  | nil => intro c' hc'; cases hc'
  | cons c rest ih =>
    intro c' hc'
    cases hc' with
    | head => exact ⟨c, List.mem_cons_self c rest, cur, rfl, le_refl cur⟩
    | tail _ hc' =>
      rcases ih (fun x hx => hdur x (List.mem_cons_of_mem c hx)) c' hc' with
        ⟨c0, hc0, s, hs, hcs⟩
      have := hdur c (List.mem_cons_self c rest)
      exact ⟨c0, List.mem_cons_of_mem c hc0, s, hs, by omega⟩

/-! Sweep lemmas. -/

theorem sweep_ids (pid : String) (cur : Int) (l : List Clip) :
    (sweep pid cur l).map (fun c => c.id) = l.map (fun c => c.id) := by
  induction l generalizing cur with
  | nil => rfl
  | cons c rest ih =>
    unfold sweep
    by_cases hc : (c.id == pid) = true
    · simp only [if_pos hc, List.map_cons, ih]
    · simp only [if_neg hc, List.map_cons, ih]
      split <;> simp

theorem sweep_mem {pid : String} {cur : Int} {l : List Clip} :
    ∀ c' ∈ sweep pid cur l, ∃ c ∈ l, ∃ s, c' = setStart c s ∧ c.startMs ≤ s := by
  induction l generalizing cur with
  | nil => intro c' hc'; cases hc'
  | cons c rest ih =>
    intro c' hc'
    unfold sweep at hc'
    by_cases hc : (c.id == pid) = true
    · rw [if_pos hc] at hc'
      cases hc' with
      | head => exact ⟨c, List.mem_cons_self c rest, c.startMs, (setStart_self c).symm, le_refl _⟩
      | tail _ hc' =>
        rcases ih c' hc' with ⟨c0, hc0, s, hs, hcs⟩
        exact ⟨c0, List.mem_cons_of_mem c hc0, s, hs, hcs⟩
    · rw [if_neg hc] at hc'
      cases hc' with
      | head =>
        by_cases hlt : c.startMs < cur
        · exact ⟨c, List.mem_cons_self c rest, cur, by simp [hlt, setStart], by omega⟩
        · exact ⟨c, List.mem_cons_self c rest, c.startMs, by simp [hlt, setStart], le_refl _⟩
      | tail _ hc' =>
        rcases ih c' hc' with ⟨c0, hc0, s, hs, hcs⟩
        exact ⟨c0, List.mem_cons_of_mem c hc0, s, hs, hcs⟩

theorem sweep_chainedFrom {pid : String} {cur : Int} {l : List Clip}
    (hnp : ∀ c ∈ l, (c.id == pid) = false) : chainedFrom cur (sweep pid cur l) := by
  induction l generalizing cur with
  | nil => trivial
  | cons c rest ih =>
    unfold sweep
    rw [if_neg (by simp [hnp c (List.mem_cons_self c rest)])]
    dsimp only
    by_cases hlt : c.startMs < cur
    · rw [if_pos hlt]
      exact ⟨by simp, ih (fun x hx => hnp x (List.mem_cons_of_mem c hx))⟩
    · rw [if_neg hlt]
      exact ⟨by omega, ih (fun x hx => hnp x (List.mem_cons_of_mem c hx))⟩

/-- Cursor value after passing over an already-chained prefix. -/
def chainEnd (cur : Int) : List Clip → Int
  | [] => cur
  | c :: rest => chainEnd (c.startMs + c.durationMs) rest

theorem sweep_append_chained {pid : String} {cur : Int} {B rest : List Clip}
    (h : chainedFrom cur B) :
    sweep pid cur (B ++ rest) = B ++ sweep pid (chainEnd cur B) rest := by
  induction B generalizing cur with
  | nil => rfl
  | cons b B ih =>
    have hce : chainEnd cur (b :: B) = chainEnd (b.startMs + b.durationMs) B := rfl
    rw [List.cons_append, hce]
    by_cases hb : (b.id == pid) = true
    · have hstep : sweep pid cur (b :: (B ++ rest)) =
          b :: sweep pid (max cur b.startMs + b.durationMs) (B ++ rest) := by
        conv_lhs => unfold sweep
        rw [if_pos hb]
      rw [hstep, max_eq_right h.1, ih h.2, List.cons_append]
    · have hnlt : ¬ b.startMs < cur := by
        have := h.1
        omega
      have hstep : sweep pid cur (b :: (B ++ rest)) =
          b :: sweep pid (b.startMs + b.durationMs) (B ++ rest) := by
        conv_lhs => unfold sweep
        rw [if_neg hb]
        dsimp only
        rw [if_neg hnlt]
      rw [hstep, ih h.2, List.cons_append]

theorem chainEnd_le {cur bound : Int} {B : List Clip}
    (h : chainedFrom cur B) (hb : ∀ c ∈ B, c.startMs + c.durationMs ≤ bound)
    (hc : cur ≤ bound) : chainEnd cur B ≤ bound := by
  induction B generalizing cur with
  | nil => exact hc
  | cons c B ih =>
    exact ih h.2 (fun x hx => hb x (List.mem_cons_of_mem c hx))
      (hb c (List.mem_cons_self c B))

theorem mem_map_id_of_mem {l : List Clip} {c : Clip} (h : c ∈ l) :
    c.id ∈ l.map (fun c => c.id) :=
  List.mem_map_of_mem (fun c => c.id) h

/-- In a `(startMs, id)`-sorted list whose non-priority members all lie
entirely left of the priority clip or entirely right of it, the list splits as
`left ++ priority :: right`. -/
theorem split_sorted {pid : String} {p : Clip} {l : List Clip}
    (hsort : l.Pairwise clipKeyLE)
    (hmem : p ∈ l)
    (hp : p.id = pid)
    (hnodup : (l.map (fun c => c.id)).Nodup)
    (hsplit : ∀ c ∈ l, c.id ≠ pid →
      (0 ≤ c.startMs ∧ c.startMs + c.durationMs ≤ p.startMs) ∨
      (p.startMs + p.durationMs ≤ c.startMs))
    (hdur : ∀ c ∈ l, 1 ≤ c.durationMs) :
    ∃ L R, l = L ++ p :: R ∧
      (∀ c ∈ L, c.id ≠ pid ∧ 0 ≤ c.startMs ∧ c.startMs + c.durationMs ≤ p.startMs) ∧
      (∀ c ∈ R, c.id ≠ pid ∧ p.startMs + p.durationMs ≤ c.startMs) := by
  induction l with
  | nil => cases hmem
  | cons c rest ih =>
    rw [List.map_cons, List.nodup_cons] at hnodup
    by_cases hcp : c = p
    · subst hcp
      refine ⟨[], rest, rfl, by simp, ?_⟩
      intro r hr
      have hid : r.id ≠ pid := by
        intro hEq
        exact hnodup.1 (by rw [hp, ← hEq]; exact mem_map_id_of_mem hr)
      refine ⟨hid, ?_⟩
      rcases hsplit r (List.mem_cons_of_mem c hr) hid with ⟨hr0, hrle⟩ | hge
      · have hk := clipKeyLE_start_le (List.rel_of_pairwise_cons hsort hr)
        have hd := hdur r (List.mem_cons_of_mem c hr)
        omega
      · exact hge
    · have hmem2 : p ∈ rest := by
        cases hmem with
        | head => exact absurd rfl hcp
        | tail _ h => exact h
      have hcid : c.id ≠ pid := by
        intro hEq
        exact hnodup.1 (by rw [hEq, ← hp]; exact mem_map_id_of_mem hmem2)
      have hcleft : 0 ≤ c.startMs ∧ c.startMs + c.durationMs ≤ p.startMs := by
        rcases hsplit c (List.mem_cons_self c rest) hcid with h | hge
        · exact h
        · have hk := clipKeyLE_start_le (List.rel_of_pairwise_cons hsort hmem2)
          have hd := hdur p (List.mem_cons_of_mem c hmem2)
          omega
      rcases ih (List.Pairwise.sublist (List.sublist_cons_self c rest) hsort) hmem2 hnodup.2
          (fun x hx => hsplit x (List.mem_cons_of_mem c hx))
          (fun x hx => hdur x (List.mem_cons_of_mem c hx)) with ⟨L, R, hLR, hL, hR⟩
      refine ⟨c :: L, R, by rw [List.cons_append, hLR], ?_, hR⟩
      intro x hx
      cases hx with
      | head => exact ⟨hcid, hcleft⟩
      | tail _ hx => exact hL x hx

theorem filter_eq_pid_single {l : List Clip} {pid : String} {p : Clip}
    (hnodup : (l.map (fun c => c.id)).Nodup) (hmem : p ∈ l) (hp : p.id = pid) :
    l.filter (fun c => c.id == pid) = [p] := by
  induction l with
  | nil => cases hmem
  | cons c rest ih =>
    rw [List.map_cons, List.nodup_cons] at hnodup
    cases hmem with
    | head =>
      rw [List.filter_cons_of_pos (by simp [hp])]
      have hrest : rest.filter (fun c => c.id == pid) = [] := by
        rw [List.filter_eq_nil_iff]
        intro x hx
        simp only [beq_iff_eq]
        intro hEq
        exact hnodup.1 (by rw [hp, ← hEq]; exact mem_map_id_of_mem hx)
      rw [hrest]
    | tail _ h =>
      have hcid : c.id ≠ pid := by
        intro hEq
        exact hnodup.1 (by rw [hEq, ← hp]; exact mem_map_id_of_mem h)
      rw [List.filter_cons_of_neg (by simp [hcid])]
      exact ih hnodup.2 h

theorem clips_perm_priority_others {l : List Clip} {pid : String} {p : Clip}
    (hnodup : (l.map (fun c => c.id)).Nodup) (hmem : p ∈ l) (hp : p.id = pid) :
    l.Perm (p :: l.filter (fun c => c.id != pid)) := by
  have h1 := List.filter_append_perm (fun c => c.id == pid) l
  rw [filter_eq_pid_single hnodup hmem hp] at h1
  have h2 : l.filter (fun c => !(c.id == pid)) = l.filter (fun c => c.id != pid) := rfl
  rw [h2] at h1
  exact (h1.symm).trans (by rw [List.singleton_append])

theorem rangesOverlap_eq_true_iff (a b : TimeRange) :
    rangesOverlap a b = true ↔ (b.start < a.stop ∧ a.start < b.stop) := by
  unfold rangesOverlap
  by_cases h1 : a.stop ≤ b.start <;> by_cases h2 : b.stop ≤ a.start <;>
    simp [h1, h2] <;> omega

/-- Correctness of the squeeze pipeline body: same ids, the priority clip kept
verbatim, every clip only pushed right, and the result pairwise disjoint. -/
theorem squeezedClips_spec (clips : List Clip) (pid : String) (p : Clip)
    (hmem : p ∈ clips) (hp : p.id = pid)
    (hnodup : (clips.map (fun c => c.id)).Nodup)
    (hbounds : ∀ c ∈ clips, 0 ≤ c.startMs ∧ 1 ≤ c.durationMs)
    (hdisj : (clips.filter (fun c => c.id != pid)).Pairwise clipsDisjoint) :
    ((squeezedClips clips p pid).map (fun c => c.id)).Perm (clips.map (fun c => c.id)) ∧
    p ∈ squeezedClips clips p pid ∧
    (∀ c ∈ squeezedClips clips p pid, c.id = pid → c = p) ∧
    (∀ c ∈ squeezedClips clips p pid, ∃ c0 ∈ clips, ∃ s, c = setStart c0 s ∧ c0.startMs ≤ s) ∧
    (squeezedClips clips p pid).Pairwise clipsDisjoint := by
  have hpb := hbounds p hmem
  -- named stages of the pipeline
  set pEnd := p.startMs + p.durationMs with hpEnddef
  set others := clips.filter (fun c => c.id != pid) with hothersdef
  set ovB : Clip → Bool :=
    fun c => rangesOverlap (toRange c.startMs c.durationMs) (toRange p.startMs p.durationMs)
    with hovBdef
  set leB : Clip → Bool := fun c => decide (c.startMs + c.durationMs ≤ p.startMs) with hleBdef
  set beforeL := others.filter (fun c => !ovB c && leB c) with hbeforedef
  set afterL := others.filter (fun c => !ovB c && !leB c) with hafterdef
  set overlapL := others.filter ovB with hoverlapdef
  set oM := layoutFrom pEnd (sortClips overlapL) with hoMdef
  set combined := sortClips (beforeL ++ [p] ++ oM ++ afterL) with hcombineddef
  have hsq : squeezedClips clips p pid = sweep pid 0 combined := rfl
  -- membership in the stage lists
  have hothers_mem : ∀ c ∈ others, c ∈ clips ∧ c.id ≠ pid := by
    intro c hc
    rw [hothersdef, List.mem_filter] at hc
    exact ⟨hc.1, by simpa using hc.2⟩
  have hov_lt : ∀ c ∈ overlapL, c.startMs < pEnd ∧ p.startMs < c.startMs + c.durationMs := by
    intro c hc
    rw [hoverlapdef, List.mem_filter] at hc
    have := (rangesOverlap_eq_true_iff _ _).mp hc.2
    simp only [toRange] at this
    exact ⟨by omega, by omega⟩
  have hbefore_mem : ∀ c ∈ beforeL,
      c ∈ clips ∧ c.id ≠ pid ∧ c.startMs + c.durationMs ≤ p.startMs := by
    intro c hc
    rw [hbeforedef, List.mem_filter] at hc
    rcases hothers_mem c hc.1 with ⟨h1, h2⟩
    have := hc.2
    simp only [Bool.and_eq_true, hleBdef, decide_eq_true_eq] at this
    exact ⟨h1, h2, this.2⟩
  have hafter_mem : ∀ c ∈ afterL,
      c ∈ clips ∧ c.id ≠ pid ∧ pEnd ≤ c.startMs := by
    intro c hc
    rw [hafterdef, List.mem_filter] at hc
    rcases hothers_mem c hc.1 with ⟨h1, h2⟩
    have h3 := hc.2
    simp only [Bool.and_eq_true, Bool.not_eq_true', hleBdef, decide_eq_false_iff_not,
      hovBdef] at h3
    have h4 := (rangesOverlap_eq_false_iff _ _).mp h3.1
    simp only [toRange] at h4
    rcases h4 with h4 | h4
    · exact absurd h4 h3.2
    · exact ⟨h1, h2, h4⟩
  have hoverlap_mem : ∀ c ∈ overlapL, c ∈ clips ∧ c.id ≠ pid := by
    intro c hc
    rw [hoverlapdef, List.mem_filter] at hc
    exact hothers_mem c hc.1
  have hsortov_mem : ∀ c ∈ sortClips overlapL, c ∈ overlapL :=
    fun c hc => (sortClips_perm overlapL).mem_iff.mp hc
  have hoM_mem : ∀ c ∈ oM, ∃ c0 ∈ overlapL, ∃ s, c = setStart c0 s ∧ pEnd ≤ s := by
    intro c hc
    rw [hoMdef] at hc
    rcases layoutFrom_mem (fun x hx => by
        have := (hbounds x (hoverlap_mem x (hsortov_mem x hx)).1).2
        omega) c hc with ⟨c0, hc0, s, hs, hles⟩
    exact ⟨c0, hsortov_mem c0 hc0, s, hs, hles⟩
  -- combined: membership decomposition
  have hcomb_perm : combined.Perm (beforeL ++ [p] ++ oM ++ afterL) := by
    rw [hcombineddef]
    exact sortClips_perm _
  have hcomb_mem : ∀ c ∈ combined, c ∈ beforeL ∨ c = p ∨ c ∈ oM ∨ c ∈ afterL := by
    intro c hc
    have := hcomb_perm.mem_iff.mp hc
    simp only [List.mem_append, List.mem_singleton] at this
    tauto
  have hcomb_dur : ∀ c ∈ combined, 1 ≤ c.durationMs := by
    intro c hc
    rcases hcomb_mem c hc with h | h | h | h
    · exact (hbounds c (hbefore_mem c h).1).2
    · rw [h]
      exact hpb.2
    · rcases hoM_mem c h with ⟨c0, hc0, s, hs, _⟩
      rw [hs]
      exact (hbounds c0 (hoverlap_mem c0 hc0).1).2
    · exact (hbounds c (hafter_mem c h).1).2
  have hcomb_split : ∀ c ∈ combined, c.id ≠ pid →
      (0 ≤ c.startMs ∧ c.startMs + c.durationMs ≤ p.startMs) ∨ (pEnd ≤ c.startMs) := by
    intro c hc hcid
    rcases hcomb_mem c hc with h | h | h | h
    · rcases hbefore_mem c h with ⟨h1, _, h3⟩
      exact Or.inl ⟨(hbounds c h1).1, h3⟩
    · exact absurd (h ▸ hp) hcid
    · rcases hoM_mem c h with ⟨c0, hc0, s, hs, hles⟩
      rw [hs]
      exact Or.inr hles
    · exact Or.inr (hafter_mem c h).2.2
  -- id multiset bookkeeping
  have hperm_others : (overlapL ++ (beforeL ++ afterL)).Perm others := by
    have h1 : (others.filter ovB ++ others.filter (fun c => !ovB c)).Perm others :=
      List.filter_append_perm ovB others
    have h2 : ((others.filter (fun c => !ovB c)).filter leB ++
        (others.filter (fun c => !ovB c)).filter (fun c => !leB c)).Perm
        (others.filter (fun c => !ovB c)) :=
      List.filter_append_perm leB (others.filter (fun c => !ovB c))
    have e1 : (others.filter (fun c => !ovB c)).filter leB = beforeL := by
      rw [List.filter_filter, hbeforedef]
      exact List.filter_congr (fun x _ => Bool.and_comm _ _)
    have e2 : (others.filter (fun c => !ovB c)).filter (fun c => !leB c) = afterL := by
      rw [List.filter_filter, hafterdef]
      exact List.filter_congr (fun x _ => Bool.and_comm _ _)
    rw [e1, e2] at h2
    have h3 : (overlapL ++ (beforeL ++ afterL)).Perm
        (others.filter ovB ++ others.filter (fun c => !ovB c)) := by
      rw [hoverlapdef]
      exact List.Perm.append_left _ h2
    exact h3.trans h1
  have hids_oM : (oM.map (fun c => c.id)).Perm (overlapL.map (fun c => c.id)) := by
    rw [hoMdef, layoutFrom_ids]
    exact (sortClips_perm overlapL).map _
  have hids_comb : (combined.map (fun c => c.id)).Perm (clips.map (fun c => c.id)) := by
    have h0 : (combined.map (fun c => c.id)).Perm
        ((beforeL ++ [p] ++ oM ++ afterL).map (fun c => c.id)) := hcomb_perm.map _
    have hclips2 : (clips.map (fun c => c.id)).Perm
        ((p :: others).map (fun c => c.id)) :=
      (clips_perm_priority_others hnodup hmem hp).map _
    have hmid : ((beforeL ++ [p] ++ oM ++ afterL).map (fun c => c.id)).Perm
        ((p :: others).map (fun c => c.id)) := by
      simp only [List.map_append, List.map_cons, List.map_nil]
      have s1 : (beforeL.map (fun c => c.id) ++ [p.id] ++ oM.map (fun c => c.id) ++
          afterL.map (fun c => c.id)).Perm
          (beforeL.map (fun c => c.id) ++ [p.id] ++ overlapL.map (fun c => c.id) ++
          afterL.map (fun c => c.id)) :=
        List.Perm.append (List.Perm.append_left _ hids_oM) (List.Perm.refl _)
      have s2 : (beforeL.map (fun c => c.id) ++ [p.id] ++ overlapL.map (fun c => c.id) ++
          afterL.map (fun c => c.id)).Perm
          (p.id :: (overlapL.map (fun c => c.id) ++ (beforeL.map (fun c => c.id) ++
            afterL.map (fun c => c.id)))) := by
        have t1 : beforeL.map (fun c => c.id) ++ [p.id] ++ overlapL.map (fun c => c.id) ++
            afterL.map (fun c => c.id) =
            beforeL.map (fun c => c.id) ++ p.id ::
              (overlapL.map (fun c => c.id) ++ afterL.map (fun c => c.id)) := by
          simp [List.append_assoc]
        rw [t1]
        have t2 := @List.perm_middle _ p.id (beforeL.map (fun c => c.id))
          (overlapL.map (fun c => c.id) ++ afterL.map (fun c => c.id))
        refine t2.trans (List.Perm.cons _ ?_)
        have t3 : (beforeL.map (fun c => c.id) ++ (overlapL.map (fun c => c.id) ++
            afterL.map (fun c => c.id))).Perm
            ((overlapL.map (fun c => c.id) ++ afterL.map (fun c => c.id)) ++
              beforeL.map (fun c => c.id)) := List.perm_append_comm
        refine t3.trans ?_
        rw [List.append_assoc]
        exact List.Perm.append_left _ List.perm_append_comm
      have s3 : (p.id :: (overlapL.map (fun c => c.id) ++ (beforeL.map (fun c => c.id) ++
          afterL.map (fun c => c.id)))).Perm (p.id :: others.map (fun c => c.id)) := by
        refine List.Perm.cons _ ?_
        have := hperm_others.map (fun c => c.id)
        simpa [List.map_append] using this
      exact (s1.trans s2).trans s3
    exact h0.trans (hmid.trans hclips2.symm)
  have hnodup_comb : (combined.map (fun c => c.id)).Nodup :=
    (hids_comb.nodup_iff).mpr hnodup
  have hsort_comb : combined.Pairwise clipKeyLE := by
    rw [hcombineddef]
    exact sortClips_sorted _
  have hmem_comb : p ∈ combined := hcomb_perm.mem_iff.mpr (by simp)
  rcases split_sorted hsort_comb hmem_comb hp hnodup_comb
      (fun c hc hcid => hcomb_split c hc hcid) hcomb_dur with ⟨L, R, hLR, hL, hR⟩
  have hLsub : ∀ c ∈ L, c ∈ combined := by
    intro c hc
    rw [hLR]
    exact List.mem_append_left _ hc
  have hRsub : ∀ c ∈ R, c ∈ combined := by
    intro c hc
    rw [hLR]
    exact List.mem_append_right _ (List.mem_cons_of_mem _ hc)
  have hleBp : leB p = false := by
    rw [hleBdef]
    simp only [decide_eq_false_iff_not]
    have := hpb.2
    omega
  have hbdisj : beforeL.Pairwise clipsDisjoint := by
    rw [hbeforedef]
    exact List.Pairwise.sublist (List.filter_sublist others) hdisj
  have hLperm_before : L.Perm beforeL := by
    have hLq : combined.filter (fun c => !ovB c && leB c) = L := by
      rw [hLR, List.filter_append]
      have h1 : L.filter (fun c => !ovB c && leB c) = L := by
        rw [List.filter_eq_self]
        intro c hc
        rcases hL c hc with ⟨hcid, hc0, hcle⟩
        have hov : ovB c = false := by
          rw [hovBdef, rangesOverlap_eq_false_iff]
          left
          exact hcle
        have hle : leB c = true := by
          rw [hleBdef]
          simpa using hcle
        simp [hov, hle]
      have h2 : (p :: R).filter (fun c => !ovB c && leB c) = [] := by
        rw [List.filter_eq_nil_iff]
        intro x hx
        cases hx with
        | head => simp [hleBp]
        | tail _ hx =>
          rcases hR x hx with ⟨_, hge⟩
          have hd := hcomb_dur x (hRsub x hx)
          have hle : leB x = false := by
            rw [hleBdef]
            simp only [decide_eq_false_iff_not]
            have := hpb.2
            omega
          simp [hle]
      rw [h1, h2, List.append_nil]
    have h3 : (combined.filter (fun c => !ovB c && leB c)).Perm
        ((beforeL ++ [p] ++ oM ++ afterL).filter (fun c => !ovB c && leB c)) :=
      hcomb_perm.filter _
    have e1 : beforeL.filter (fun c => !ovB c && leB c) = beforeL := by
      rw [List.filter_eq_self]
      intro c hc
      rw [hbeforedef, List.mem_filter] at hc
      exact hc.2
    have e2 : ([p] : List Clip).filter (fun c => !ovB c && leB c) = [] := by
      simp [hleBp]
    have e3 : oM.filter (fun c => !ovB c && leB c) = [] := by
      rw [List.filter_eq_nil_iff]
      intro x hx
      rcases hoM_mem x hx with ⟨c0, hc0, s, hs, hles⟩
      have hd := (hbounds c0 (hoverlap_mem c0 hc0).1).2
      have hle : leB x = false := by
        rw [hleBdef]
        simp only [decide_eq_false_iff_not]
        rw [hs]
        show ¬ (s + c0.durationMs ≤ p.startMs)
        have := hpb.2
        omega
      simp [hle]
    have e4 : afterL.filter (fun c => !ovB c && leB c) = [] := by
      rw [List.filter_eq_nil_iff]
      intro x hx
      rw [hafterdef, List.mem_filter] at hx
      have hx2 := hx.2
      simp only [Bool.and_eq_true, Bool.not_eq_true'] at hx2
      simp [hx2.2]
    rw [hLq, List.filter_append, List.filter_append, List.filter_append,
      e1, e2, e3, e4] at h3
    simpa using h3
  have hLdisj : L.Pairwise clipsDisjoint :=
    (hLperm_before.pairwise_iff (fun h => clipsDisjoint_symm h)).mpr hbdisj
  have hLsort : L.Pairwise clipKeyLE := by
    have := hsort_comb
    rw [hLR] at this
    exact (List.pairwise_append.mp this).1
  have hLchain : chainedFrom 0 L :=
    sorted_disjoint_chained hLsort hLdisj
      (fun c hc => by have := hcomb_dur c (hLsub c hc); omega)
      (fun c hc => (hL c hc).2.1)
  have hcur1 : chainEnd 0 L ≤ p.startMs :=
    chainEnd_le hLchain (fun c hc => (hL c hc).2.2) hpb.1
  have hsq : squeezedClips clips p pid = sweep pid 0 combined := rfl
  have hswdec : sweep pid 0 combined = L ++ p :: sweep pid pEnd R := by
    rw [hLR, sweep_append_chained hLchain]
    congr 1
    conv_lhs => unfold sweep
    rw [if_pos (by simp [hp])]
    rw [max_eq_right hcur1]
  have hfinal : squeezedClips clips p pid = L ++ p :: sweep pid pEnd R := by
    rw [hsq, hswdec]
  have hRnp : ∀ c ∈ R, (c.id == pid) = false := fun c hc => by simp [(hR c hc).1]
  have hSRchain : chainedFrom pEnd (sweep pid pEnd R) := sweep_chainedFrom hRnp
  have hSRdur : ∀ c ∈ sweep pid pEnd R, 1 ≤ c.durationMs := by
    intro c hc
    rcases sweep_mem c hc with ⟨c1, hc1, s, hs, _⟩
    rw [hs]
    exact hcomb_dur c1 (hRsub c1 hc1)
  have hSRdisj : (sweep pid pEnd R).Pairwise clipsDisjoint :=
    chainedFrom_pairwise hSRchain (fun c hc => by have := hSRdur c hc; omega)
  have hSRstart : ∀ c ∈ sweep pid pEnd R, pEnd ≤ c.startMs :=
    chainedFrom_mem_start hSRchain (fun c hc => by have := hSRdur c hc; omega)
  refine ⟨?_, ?_, ?_, ?_, ?_⟩
  · rw [hsq, sweep_ids]
    exact hids_comb
  · rw [hfinal]
    exact List.mem_append_right _ (List.mem_cons_self _ _)
  · intro c hc hcid
    have hnd : ((squeezedClips clips p pid).map (fun c => c.id)).Nodup := by
      rw [hsq, sweep_ids]
      exact hnodup_comb
    have hpmem : p ∈ squeezedClips clips p pid := by
      rw [hfinal]
      exact List.mem_append_right _ (List.mem_cons_self _ _)
    exact List.inj_on_of_nodup_map hnd hc hpmem (by rw [hcid, hp])
  · intro c hc
    rw [hsq] at hc
    rcases sweep_mem c hc with ⟨c1, hc1, s1, hs1, hle1⟩
    rcases hcomb_mem c1 hc1 with h | h | h | h
    · exact ⟨c1, (hbefore_mem c1 h).1, s1, hs1, hle1⟩
    · rw [h] at hs1 hle1
      exact ⟨p, hmem, s1, hs1, hle1⟩
    · rcases hoM_mem c1 h with ⟨c0, hc0, s0, hs0, hles0⟩
      refine ⟨c0, (hoverlap_mem c0 hc0).1, s1, by rw [hs1, hs0, setStart_setStart], ?_⟩
      have hlt := (hov_lt c0 hc0).1
      have hc1s : c1.startMs = s0 := by
        rw [hs0]
        rfl
      omega
    · exact ⟨c1, (hafter_mem c1 h).1, s1, hs1, hle1⟩
  · rw [hfinal, List.pairwise_append]
    refine ⟨hLdisj, ?_, ?_⟩
    · refine List.Pairwise.cons ?_ hSRdisj
      intro b hb
      have hbs := hSRstart b hb
      rw [clipsDisjoint_iff]
      left
      omega
    · intro a ha b hb
      rcases hL a ha with ⟨_, _, hale⟩
      cases hb with
      | head =>
        rw [clipsDisjoint_iff]
        left
        exact hale
      | tail _ hb =>
        have hbs := hSRstart b hb
        have := hpb.2
        rw [clipsDisjoint_iff]
        left
        omega

/-! ## Claim C2 -/

theorem sweep_of_chained {pid : String} {cur : Int} {l : List Clip}
    (h : chainedFrom cur l) : sweep pid cur l = l := by
  have := @sweep_append_chained pid cur l [] h
  simpa [sweep] using this

/-- C2 (amended): on a track whose clips are within the data-model bounds
(`startMs ≥ 0`, `durationMs ≥ 1`), have distinct ids and whose non-priority
clips are pairwise non-overlapping, `squeezeTrackClips` keeps exactly the same
clips (same ids, same payloads and durations), keeps the priority clip's
placement verbatim, only ever increases the other clips' `startMs`, and the
resulting clips are pairwise non-overlapping. -/
theorem C2_squeeze_correct (track : Track) (pid : String) (priority : Clip)
    (hfind : track.clips.find? (fun c => c.id == pid) = some priority)
    (hnodup : (track.clips.map (fun c => c.id)).Nodup)
    (hbounds : ∀ c ∈ track.clips, 0 ≤ c.startMs ∧ 1 ≤ c.durationMs)
    (hdisj : (track.clips.filter (fun c => c.id != pid)).Pairwise clipsDisjoint) :
    (((squeezeTrackClips track pid).clips.map (fun c => c.id)).Perm
        (track.clips.map (fun c => c.id))) ∧
    priority ∈ (squeezeTrackClips track pid).clips ∧
    (∀ c ∈ (squeezeTrackClips track pid).clips, c.id = pid → c = priority) ∧
    (∀ c ∈ (squeezeTrackClips track pid).clips,
        ∃ c0 ∈ track.clips, ∃ s, c = setStart c0 s ∧ c0.startMs ≤ s) ∧
    (squeezeTrackClips track pid).clips.Pairwise clipsDisjoint := by
  have hres : squeezeTrackClips track pid =
      { track with clips := squeezedClips track.clips priority pid } := by
    unfold squeezeTrackClips
    rw [hfind]
  have hmem : priority ∈ track.clips := List.mem_of_find?_eq_some hfind
  have hpid : priority.id = pid := by
    have := List.find?_some hfind
    simpa using this
  rw [hres]
  exact squeezedClips_spec track.clips pid priority hmem hpid hnodup hbounds hdisj

theorem C2_squeeze_correct_witness :
    ((exTrack [exClip "p" 0 1000, exClip "o" 500 1000]).clips.find?
        (fun c => c.id == "p") = some (exClip "p" 0 1000)) ∧
    (((exTrack [exClip "p" 0 1000, exClip "o" 500 1000]).clips.map
        (fun c => c.id)).Nodup) ∧
    (∀ c ∈ (exTrack [exClip "p" 0 1000, exClip "o" 500 1000]).clips,
        0 ≤ c.startMs ∧ 1 ≤ c.durationMs) ∧
    (((exTrack [exClip "p" 0 1000, exClip "o" 500 1000]).clips.filter
        (fun c => c.id != "p")).Pairwise clipsDisjoint) ∧
    ((((squeezeTrackClips (exTrack [exClip "p" 0 1000, exClip "o" 500 1000]) "p").clips.map
          (fun c => c.id)).Perm
        ((exTrack [exClip "p" 0 1000, exClip "o" 500 1000]).clips.map (fun c => c.id))) ∧
      exClip "p" 0 1000 ∈
        (squeezeTrackClips (exTrack [exClip "p" 0 1000, exClip "o" 500 1000]) "p").clips ∧
      (∀ c ∈ (squeezeTrackClips (exTrack [exClip "p" 0 1000, exClip "o" 500 1000]) "p").clips,
          c.id = "p" → c = exClip "p" 0 1000) ∧
      (∀ c ∈ (squeezeTrackClips (exTrack [exClip "p" 0 1000, exClip "o" 500 1000]) "p").clips,
          ∃ c0 ∈ (exTrack [exClip "p" 0 1000, exClip "o" 500 1000]).clips,
            ∃ s, c = setStart c0 s ∧ c0.startMs ≤ s) ∧
      (squeezeTrackClips
          (exTrack [exClip "p" 0 1000, exClip "o" 500 1000]) "p").clips.Pairwise
        clipsDisjoint) :=
  ⟨by decide, by decide, by decide, by decide,
    C2_squeeze_correct (exTrack [exClip "p" 0 1000, exClip "o" 500 1000]) "p"
      (exClip "p" 0 1000) (by decide) (by decide) (by decide) (by decide)⟩

/-- C2 counterexample: the claim as stated (for *every* track) fails.  In the
track `c1 [0,150)`, `c2 [100,150)`, `p [150,250)` with priority `p`, the final
sweep pushes `c2` to `[150,200)`, which overlaps the unmoved priority clip, so
the output violates pairwise non-overlap. -/
theorem C2_squeeze_counterexample :
    (∃ c ∈ (exTrack [exClip "c1" 0 150, exClip "c2" 100 50, exClip "p" 150 100]).clips,
        c.id = "p") ∧
    ¬ ((squeezeTrackClips
        (exTrack [exClip "c1" 0 150, exClip "c2" 100 50, exClip "p" 150 100])
        "p").clips.Pairwise clipsDisjoint) := by
  constructor
  · exact ⟨exClip "p" 150 100, by decide, by decide⟩
  · decide

/-! ## Claim C9 -/

/-- C9 (amended): on a track satisfying the full per-track invariant (pairwise
non-overlapping clips, model bounds, distinct ids) that contains the priority
clip, `squeezeTrackClips` changes no placement at all: the output clips are a
permutation of the input clips themselves. -/
theorem C9_squeeze_identity_on_disjoint (track : Track) (pid : String) (priority : Clip)
    (hfind : track.clips.find? (fun c => c.id == pid) = some priority)
    (hnodup : (track.clips.map (fun c => c.id)).Nodup)
    (hbounds : ∀ c ∈ track.clips, 0 ≤ c.startMs ∧ 1 ≤ c.durationMs)
    (hdisjAll : track.clips.Pairwise clipsDisjoint) :
    (squeezeTrackClips track pid).clips.Perm track.clips := by
  have hres : squeezeTrackClips track pid =
      { track with clips := squeezedClips track.clips priority pid } := by
    unfold squeezeTrackClips
    rw [hfind]
  have hmem : priority ∈ track.clips := List.mem_of_find?_eq_some hfind
  have hpid : priority.id = pid := by
    have := List.find?_some hfind
    simpa using this
  have hall : ∀ a ∈ track.clips, ∀ b ∈ track.clips, a ≠ b → clipsDisjoint a b := by
    intro a ha b hb hne
    exact List.Pairwise.forall (fun {x y} h => clipsDisjoint_symm h) hdisjAll ha hb hne
  rw [hres]
  show (squeezedClips track.clips priority pid).Perm track.clips
  set clips := track.clips with hclipsdef
  set pEnd := priority.startMs + priority.durationMs with hpEnddef
  set others := clips.filter (fun c => c.id != pid) with hothersdef
  set ovB : Clip → Bool := fun c =>
    rangesOverlap (toRange c.startMs c.durationMs)
      (toRange priority.startMs priority.durationMs) with hovBdef
  set leB : Clip → Bool :=
    fun c => decide (c.startMs + c.durationMs ≤ priority.startMs) with hleBdef
  set beforeL := others.filter (fun c => !ovB c && leB c) with hbeforedef
  set afterL := others.filter (fun c => !ovB c && !leB c) with hafterdef
  set overlapL := others.filter ovB with hoverlapdef
  have hothers_mem : ∀ c ∈ others, c ∈ clips ∧ c.id ≠ pid := by
    intro c hc
    rw [hothersdef, List.mem_filter] at hc
    exact ⟨hc.1, by simpa using hc.2⟩
  have hovempty : overlapL = [] := by
    rw [hoverlapdef, List.filter_eq_nil_iff]
    intro c hc
    rcases hothers_mem c hc with ⟨hcl, hcid⟩
    have hne : c ≠ priority := fun hEq => hcid (hEq ▸ hpid)
    have := hall c hcl priority hmem hne
    rw [hovBdef]
    simp [clipsDisjoint] at this
    simp [this]
  have hsq : squeezedClips clips priority pid =
      sweep pid 0 (sortClips (beforeL ++ [priority] ++
        layoutFrom pEnd (sortClips overlapL) ++ afterL)) := rfl
  have hoMempty : layoutFrom pEnd (sortClips overlapL) = [] := by
    rw [hovempty]
    rfl
  set combined := sortClips (beforeL ++ [priority] ++
    layoutFrom pEnd (sortClips overlapL) ++ afterL) with hcombineddef
  have hcomb_perm : combined.Perm (beforeL ++ [priority] ++ afterL) := by
    rw [hcombineddef, hoMempty]
    have := sortClips_perm (beforeL ++ [priority] ++ [] ++ afterL)
    simpa using this
  have hperm_others : (beforeL ++ afterL).Perm others := by
    have h2 : ((others.filter (fun c => !ovB c)).filter leB ++
        (others.filter (fun c => !ovB c)).filter (fun c => !leB c)).Perm
        (others.filter (fun c => !ovB c)) :=
      List.filter_append_perm leB (others.filter (fun c => !ovB c))
    have e1 : (others.filter (fun c => !ovB c)).filter leB = beforeL := by
      rw [List.filter_filter, hbeforedef]
      exact List.filter_congr (fun x _ => Bool.and_comm _ _)
    have e2 : (others.filter (fun c => !ovB c)).filter (fun c => !leB c) = afterL := by
      rw [List.filter_filter, hafterdef]
      exact List.filter_congr (fun x _ => Bool.and_comm _ _)
    have e3 : others.filter (fun c => !ovB c) = others := by
      rw [List.filter_eq_self]
      intro c hc
      have : ovB c = false := by
        have h4 : overlapL = [] := hovempty
        rw [hoverlapdef, List.filter_eq_nil_iff] at h4
        simpa using h4 c hc
      simp [this]
    rw [e1, e2, e3] at h2
    exact h2
  have hcomb_clips : combined.Perm clips := by
    have h5 : (beforeL ++ [priority] ++ afterL).Perm (priority :: (beforeL ++ afterL)) := by
      rw [List.append_assoc, List.singleton_append]
      exact List.perm_middle
    have h6 : (priority :: (beforeL ++ afterL)).Perm (priority :: others) :=
      List.Perm.cons _ hperm_others
    have h7 := clips_perm_priority_others hnodup hmem hpid
    exact ((hcomb_perm.trans h5).trans h6).trans h7.symm
  have hcomb_disj : combined.Pairwise clipsDisjoint :=
    (hcomb_clips.pairwise_iff (fun h => clipsDisjoint_symm h)).mpr hdisjAll
  have hcomb_sorted : combined.Pairwise clipKeyLE := by
    rw [hcombineddef]
    exact sortClips_sorted _
  have hchain : chainedFrom 0 combined :=
    sorted_disjoint_chained hcomb_sorted hcomb_disj
      (fun c hc => by have := (hbounds c (hcomb_clips.mem_iff.mp hc)).2; omega)
      (fun c hc => (hbounds c (hcomb_clips.mem_iff.mp hc)).1)
  rw [hsq, sweep_of_chained hchain]
  exact hcomb_clips

theorem C9_squeeze_identity_on_disjoint_witness :
    ((exTrack [exClip "a" 0 10, exClip "p" 100 10]).clips.find?
        (fun c => c.id == "p") = some (exClip "p" 100 10)) ∧
    (((exTrack [exClip "a" 0 10, exClip "p" 100 10]).clips.map (fun c => c.id)).Nodup) ∧
    (∀ c ∈ (exTrack [exClip "a" 0 10, exClip "p" 100 10]).clips,
        0 ≤ c.startMs ∧ 1 ≤ c.durationMs) ∧
    ((exTrack [exClip "a" 0 10, exClip "p" 100 10]).clips.Pairwise clipsDisjoint) ∧
    ((squeezeTrackClips (exTrack [exClip "a" 0 10, exClip "p" 100 10]) "p").clips.Perm
      (exTrack [exClip "a" 0 10, exClip "p" 100 10]).clips) :=
  ⟨by decide, by decide, by decide, by decide,
    C9_squeeze_identity_on_disjoint (exTrack [exClip "a" 0 10, exClip "p" 100 10]) "p"
      (exClip "p" 100 10) (by decide) (by decide) (by decide) (by decide)⟩

/-- C9 counterexample: as stated the claim only assumes that no clip overlaps
the *priority* clip.  In the track `a [0,10)`, `b [0,10)`, `p [100,110)` no
clip overlaps `p`, yet the final sweep moves `b` to `[10,20)`, so the output
placements differ from the input. -/
theorem C9_squeeze_identity_counterexample :
    (∀ c ∈ (exTrack [exClip "a" 0 10, exClip "b" 0 10, exClip "p" 100 10]).clips,
        c.id ≠ "p" → clipsDisjoint c (exClip "p" 100 10)) ∧
    ¬ (∀ c ∈ (squeezeTrackClips
          (exTrack [exClip "a" 0 10, exClip "b" 0 10, exClip "p" 100 10]) "p").clips,
        ∃ c0 ∈ (exTrack [exClip "a" 0 10, exClip "b" 0 10, exClip "p" 100 10]).clips,
          c0.id = c.id ∧ c0.startMs = c.startMs ∧ c0.durationMs = c.durationMs) := by
  constructor
  · decide
  · decide

/-! ## Claim C7: bounds on startMs / durationMs -/

/-- The data-model bounds on a clip: `startMs ≥ 0`, `durationMs ≥ 1`. -/
def clipBounded (c : Clip) : Prop := 0 ≤ c.startMs ∧ 1 ≤ c.durationMs

instance : DecidablePred clipBounded := fun c => by
  unfold clipBounded
  infer_instance

def projectBounded (p : EditorProject) : Prop :=
  ∀ t ∈ p.tracks, ∀ c ∈ t.clips, clipBounded c

instance (p : EditorProject) : Decidable (projectBounded p) := by
  unfold projectBounded
  infer_instance

theorem findClipInTracks_mem {tracks : List Track} {clipId : String} {c : Clip}
    (h : findClipInTracks clipId tracks = some c) : ∃ t ∈ tracks, c ∈ t.clips := by
  induction tracks with
  | nil => simp [findClipInTracks] at h
  | cons tr rest ih =>
    unfold findClipInTracks at h
    cases hf : tr.clips.find? (fun c => c.id == clipId) with
    | some c0 =>
      rw [hf] at h
      injection h with h
      subst h
      exact ⟨tr, List.mem_cons_self tr rest, List.mem_of_find?_eq_some hf⟩
    | none =>
      rw [hf] at h
      rcases ih h with ⟨t, ht, hc⟩
      exact ⟨t, List.mem_cons_of_mem tr ht, hc⟩

theorem getClip_mem {project : EditorProject} {clipId : String} {clip : Clip}
    (h : getClip project clipId = .ok clip) : ∃ t ∈ project.tracks, clip ∈ t.clips := by
  unfold getClip at h
  cases hf : findClipInTracks clipId project.tracks with
  | some c =>
    rw [hf] at h
    injection h with h
    subst h
    exact findClipInTracks_mem hf
  | none =>
    rw [hf] at h
    cases h

theorem reassignOrders_clips {l : List Track} {t' : Track} (h : t' ∈ reassignOrders l) :
    ∃ t ∈ l, t'.clips = t.clips := by
  unfold reassignOrders at h
  rcases List.mem_map.mp h with ⟨it, hit, rfl⟩
  have hsnd : it.2 ∈ l := by
    have := List.enum_map_snd l
    rw [← this]
    exact List.mem_map_of_mem Prod.snd hit
  exact ⟨it.2, hsnd, rfl⟩

theorem mem_replaceClip {l : List Clip} {cid : String} {m c : Clip}
    (h : c ∈ l.map (fun c => if c.id == cid then m else c)) : c ∈ l ∨ c = m := by
  rcases List.mem_map.mp h with ⟨c0, hc0, hEq⟩
  by_cases hid : (c0.id == cid) = true
  · rw [if_pos hid] at hEq
    exact Or.inr hEq.symm
  · rw [if_neg hid] at hEq
    exact Or.inl (hEq ▸ hc0)

theorem addTrack_bounded {p : EditorProject} (kind : TrackKind) (patch : TrackPatch)
    (freshTrackId : String) (now : Int) (hb : projectBounded p) :
    projectBounded (addTrack p kind patch freshTrackId now) := by
  intro t ht c hc
  unfold addTrack touchProject at ht
  simp only at ht
  rcases List.mem_append.mp ht with h | h
  · exact hb t h c hc
  · rw [List.mem_singleton] at h
    rw [h] at hc
    cases hc

theorem removeTrack_bounded {p q : EditorProject} {trackId : String} {now : Int}
    (h : removeTrack p trackId now = .ok q) (hb : projectBounded p) : projectBounded q := by
  unfold removeTrack at h
  split at h
  · cases h
  · simp only [bind, Except.bind, pure, Except.pure, Except.ok.injEq] at h
    subst h
    intro t ht c hc
    rcases reassignOrders_clips ht with ⟨t0, ht0, hcl⟩
    rw [hcl] at hc
    exact hb t0 (List.Sublist.mem ht0 (List.filter_sublist p.tracks)) c hc

theorem reorderTracks_bounded {p q : EditorProject} {i j now : Int}
    (h : reorderTracksByIndex p i j now = .ok q) (hb : projectBounded p) :
    projectBounded q := by
  unfold reorderTracksByIndex at h
  simp only [] at h
  split at h
  · cases h
  · rename_i hguard
    injection h with h
    subst h
    intro t ht c hc
    rcases reassignOrders_clips ht with ⟨t0, ht0, hcl⟩
    have hlen : (p.tracks.eraseIdx i.toNat).length = p.tracks.length - 1 := by
      rw [List.length_eraseIdx]
      rw [if_pos (by omega)]
    have ht0m : t0 ∈ p.tracks := by
      rcases (List.mem_insertIdx (by omega)).mp ht0 with h1 | h1
      · rw [h1]
        exact List.get_mem _ _ _
      · exact List.Sublist.mem h1 (List.eraseIdx_sublist _ _)
    rw [hcl] at hc
    exact hb t0 ht0m c hc

theorem setTrackOpacity_bounded {p q : EditorProject} {trackId : String} {o : Rat} {now : Int}
    (h : setTrackOpacity p trackId o now = .ok q) (hb : projectBounded p) :
    projectBounded q := by
  unfold setTrackOpacity at h
  simp only [bind, Except.bind] at h
  split at h
  · cases h
  · simp only [pure, Except.pure] at h
    split at h
    · cases h
    · injection h with h
      subst h
      intro t ht c hc
      rcases List.mem_map.mp ht with ⟨t0, ht0, rfl⟩
      by_cases hcond : (t0.id == trackId) = true
      · rw [if_pos hcond] at hc
        exact hb t0 ht0 c hc
      · rw [if_neg hcond] at hc
        exact hb t0 ht0 c hc

theorem clampNonNegative_nonneg (x : Int) : 0 ≤ clampNonNegative x := by
  unfold clampNonNegative
  split <;> omega

theorem addVideoClip_bounded {p q : EditorProject} {input : VideoClipInput}
    {freshId : String} {now : Int}
    (h : addVideoClipFromResource p input freshId now = .ok q) (hb : projectBounded p) :
    projectBounded q := by
  unfold addVideoClipFromResource at h
  cases htrack : getTrack p input.trackId with
  | error e => rw [htrack] at h; simp [bind, Except.bind] at h
  | ok track =>
  rw [htrack] at h
  simp only [bind, Except.bind] at h
  cases hkind : assertTrackAcceptsClipKind track.kind ClipKind.video with
  | error e => rw [hkind] at h; simp at h
  | ok u =>
  rw [hkind] at h
  simp only [] at h
  cases hres : getResource p input.resourceId with
  | none => rw [hres] at h; simp at h
  | some res =>
  rw [hres] at h
  simp only [pure, Except.pure] at h
  cases hrk : assertResourceKindMatchesClipKind res.kind ClipKind.video with
  | error e => rw [hrk] at h; simp at h
  | ok u2 =>
  rw [hrk] at h
  simp only [] at h
  split at h
  · cases h
  · rename_i hval
    split at h
    · cases h
    · injection h with h
      subst h
      intro t ht c hc
      simp only [touchProject] at ht
      rcases List.mem_map.mp ht with ⟨t0, ht0, rfl⟩
      by_cases hcond : (t0.id == track.id) = true
      · rw [if_pos hcond] at hc
        rcases List.mem_append.mp hc with h1 | h1
        · exact hb t0 ht0 c h1
        · rw [List.mem_singleton] at h1
          rw [h1]
          unfold MIN_DURATION_MS at hval
          refine ⟨?_, ?_⟩
          · show 0 ≤ input.startMs
            omega
          · show 1 ≤ input.durationMs
            omega
      · rw [if_neg hcond] at hc
        exact hb t0 ht0 c hc

theorem addAudioClip_bounded {p q : EditorProject} {input : AudioClipInput}
    {freshId : String} {now : Int}
    (h : addAudioClipFromResource p input freshId now = .ok q) (hb : projectBounded p) :
    projectBounded q := by
  unfold addAudioClipFromResource at h
  cases htrack : getTrack p input.trackId with
  | error e => rw [htrack] at h; simp [bind, Except.bind] at h
  | ok track =>
  rw [htrack] at h
  simp only [bind, Except.bind] at h
  cases hkind : assertTrackAcceptsClipKind track.kind ClipKind.audio with
  | error e => rw [hkind] at h; simp at h
  | ok u =>
  rw [hkind] at h
  simp only [] at h
  cases hres : getResource p input.resourceId with
  | none => rw [hres] at h; simp at h
  | some res =>
  rw [hres] at h
  simp only [pure, Except.pure] at h
  cases hrk : assertResourceKindMatchesClipKind res.kind ClipKind.audio with
  | error e => rw [hrk] at h; simp at h
  | ok u2 =>
  rw [hrk] at h
  simp only [] at h
  split at h
  · cases h
  · rename_i hval
    split at h
    · cases h
    · injection h with h
      subst h
      intro t ht c hc
      simp only [touchProject] at ht
      rcases List.mem_map.mp ht with ⟨t0, ht0, rfl⟩
      by_cases hcond : (t0.id == track.id) = true
      · rw [if_pos hcond] at hc
        rcases List.mem_append.mp hc with h1 | h1
        · exact hb t0 ht0 c h1
        · rw [List.mem_singleton] at h1
          rw [h1]
          unfold MIN_DURATION_MS at hval
          refine ⟨?_, ?_⟩
          · show 0 ≤ input.startMs
            omega
          · show 1 ≤ input.durationMs
            omega
      · rw [if_neg hcond] at hc
        exact hb t0 ht0 c hc

theorem addTextClip_bounded {p q : EditorProject} {input : TextClipInput}
    {freshId : String} {now : Int}
    (h : addTextClip p input freshId now = .ok q) (hb : projectBounded p) :
    projectBounded q := by
  unfold addTextClip at h
  cases htrack : getTrack p input.trackId with
  | error e => rw [htrack] at h; simp [bind, Except.bind] at h
  | ok track =>
  rw [htrack] at h
  simp only [bind, Except.bind] at h
  cases hkind : assertTrackAcceptsClipKind track.kind ClipKind.text with
  | error e => rw [hkind] at h; simp at h
  | ok u =>
  rw [hkind] at h
  simp only [pure, Except.pure] at h
  split at h
  · cases h
  · rename_i hval
    split at h
    · cases h
    · injection h with h
      subst h
      intro t ht c hc
      simp only [touchProject] at ht
      rcases List.mem_map.mp ht with ⟨t0, ht0, rfl⟩
      by_cases hcond : (t0.id == track.id) = true
      · rw [if_pos hcond] at hc
        rcases List.mem_append.mp hc with h1 | h1
        · exact hb t0 ht0 c h1
        · rw [List.mem_singleton] at h1
          rw [h1]
          unfold MIN_DURATION_MS at hval
          refine ⟨?_, ?_⟩
          · show 0 ≤ input.startMs
            omega
          · show 1 ≤ input.durationMs
            omega
      · rw [if_neg hcond] at hc
        exact hb t0 ht0 c hc

theorem moveClipInTrack_bounded {p q : EditorProject} {clipId : String} {s now : Int}
    (h : moveClipInTrack p clipId s now = .ok q) (hb : projectBounded p) :
    projectBounded q := by
  unfold moveClipInTrack at h
  cases hclip : getClip p clipId with
  | error e => rw [hclip] at h; simp [bind, Except.bind] at h
  | ok clip =>
  rw [hclip] at h
  simp only [bind, Except.bind] at h
  cases htrack : getTrack p clip.trackId with
  | error e => rw [htrack] at h; simp at h
  | ok track =>
  rw [htrack] at h
  simp only [] at h
  split at h
  · cases h
  · simp only [pure, Except.pure] at h
    injection h with h
    subst h
    have hcb : clipBounded clip := by
      rcases getClip_mem hclip with ⟨t1, ht1, hc1⟩
      exact hb t1 ht1 clip hc1
    intro t ht c hc
    simp only [touchProject] at ht
    rcases List.mem_map.mp ht with ⟨t0, ht0, rfl⟩
    by_cases hcond : (t0.id != track.id) = true
    · rw [if_pos hcond] at hc
      exact hb t0 ht0 c hc
    · rw [if_neg hcond] at hc
      rcases mem_replaceClip hc with h1 | h1
      · exact hb t0 ht0 c h1
      · rw [h1]
        exact ⟨clampNonNegative_nonneg s, hcb.2⟩

theorem moveClipToTrack_bounded {p q : EditorProject} {clipId nextTrackId : String}
    {s now : Int}
    (h : moveClipToTrack p clipId nextTrackId s now = .ok q) (hb : projectBounded p) :
    projectBounded q := by
  unfold moveClipToTrack at h
  cases hclip : getClip p clipId with
  | error e => rw [hclip] at h; simp [bind, Except.bind] at h
  | ok clip =>
  rw [hclip] at h
  simp only [bind, Except.bind] at h
  cases hfrom : getTrack p clip.trackId with
  | error e => rw [hfrom] at h; simp at h
  | ok fromTrack =>
  rw [hfrom] at h
  simp only [] at h
  cases hto : getTrack p nextTrackId with
  | error e => rw [hto] at h; simp at h
  | ok toTrack =>
  rw [hto] at h
  simp only [] at h
  cases hkind : assertTrackAcceptsClipKind toTrack.kind clip.kind with
  | error e => rw [hkind] at h; simp at h
  | ok u =>
  rw [hkind] at h
  simp only [] at h
  split at h
  · cases h
  · simp only [pure, Except.pure] at h
    injection h with h
    subst h
    have hcb : clipBounded clip := by
      rcases getClip_mem hclip with ⟨t1, ht1, hc1⟩
      exact hb t1 ht1 clip hc1
    intro t ht c hc
    simp only [touchProject] at ht
    rcases List.mem_map.mp ht with ⟨t0, ht0, rfl⟩
    by_cases hc1 : (t0.id == fromTrack.id) = true
    · rw [if_pos hc1] at hc
      exact hb t0 ht0 c (List.Sublist.mem hc (List.filter_sublist t0.clips))
    · rw [if_neg hc1] at hc
      by_cases hc2 : (t0.id == toTrack.id) = true
      · rw [if_pos hc2] at hc
        rcases List.mem_append.mp hc with h1 | h1
        · exact hb t0 ht0 c h1
        · rw [List.mem_singleton] at h1
          rw [h1]
          exact ⟨clampNonNegative_nonneg s, hcb.2⟩
      · rw [if_neg hc2] at hc
        exact hb t0 ht0 c hc

theorem resizeClip_bounded {p q : EditorProject} {clipId : String} {d now : Int}
    {anchor : ResizeAnchor}
    (h : resizeClip p clipId d anchor now = .ok q) (hb : projectBounded p) :
    projectBounded q := by
  unfold resizeClip at h
  cases hclip : getClip p clipId with
  | error e => rw [hclip] at h; simp [bind, Except.bind] at h
  | ok clip =>
  rw [hclip] at h
  simp only [bind, Except.bind] at h
  cases htrack : getTrack p clip.trackId with
  | error e => rw [htrack] at h; simp at h
  | ok track =>
  rw [htrack] at h
  simp only [] at h
  split at h
  · cases h
  · simp only [pure, Except.pure] at h
    injection h with h
    subst h
    have hcb : clipBounded clip := by
      rcases getClip_mem hclip with ⟨t1, ht1, hc1⟩
      exact hb t1 ht1 clip hc1
    intro t ht c hc
    simp only [touchProject] at ht
    rcases List.mem_map.mp ht with ⟨t0, ht0, rfl⟩
    by_cases hcond : (t0.id != track.id) = true
    · rw [if_pos hcond] at hc
      exact hb t0 ht0 c hc
    · rw [if_neg hcond] at hc
      rcases mem_replaceClip hc with h1 | h1
      · exact hb t0 ht0 c h1
      · rw [h1]
        cases anchor with
        | end_ => exact ⟨hcb.1, le_max_left MIN_DURATION_MS d⟩
        | start =>
          exact ⟨clampNonNegative_nonneg _, le_max_left MIN_DURATION_MS d⟩

theorem updateTextClip_bounded {p q : EditorProject} {clipId : String}
    {patch : TextClipPatch} {now : Int}
    (hs : ∀ v, patch.startMs = some v → 0 ≤ v)
    (hd : ∀ v, patch.durationMs = some v → 1 ≤ v)
    (h : updateTextClip p clipId patch now = .ok q) (hb : projectBounded p) :
    projectBounded q := by
  unfold updateTextClip at h
  cases hclip : getClip p clipId with
  | error e => rw [hclip] at h; simp [bind, Except.bind] at h
  | ok clip =>
  rw [hclip] at h
  simp only [bind, Except.bind] at h
  split at h
  · cases h
  · simp only [pure, Except.pure] at h
    cases htrack : getTrack p clip.trackId with
    | error e => rw [htrack] at h; simp at h
    | ok track =>
    rw [htrack] at h
    simp only [] at h
    split at h
    · cases h
    · injection h with h
      subst h
      have hcb : clipBounded clip := by
        rcases getClip_mem hclip with ⟨t1, ht1, hc1⟩
        exact hb t1 ht1 clip hc1
      intro t ht c hc
      simp only [touchProject] at ht
      rcases List.mem_map.mp ht with ⟨t0, ht0, rfl⟩
      by_cases hcond : (t0.id != track.id) = true
      · rw [if_pos hcond] at hc
        exact hb t0 ht0 c hc
      · rw [if_neg hcond] at hc
        rcases mem_replaceClip hc with h1 | h1
        · exact hb t0 ht0 c h1
        · rw [h1]
          constructor
          · show 0 ≤ patch.startMs.getD clip.startMs
            cases hps : patch.startMs with
            | none => exact hcb.1
            | some v => exact hs v hps
          · show 1 ≤ patch.durationMs.getD clip.durationMs
            cases hpd : patch.durationMs with
            | none => exact hcb.2
            | some v => exact hd v hpd

theorem removeClip_bounded {p q : EditorProject} {clipId : String} {now : Int}
    (h : removeClip p clipId now = .ok q) (hb : projectBounded p) :
    projectBounded q := by
  unfold removeClip at h
  simp only [bind, Except.bind, pure, Except.pure] at h
  split at h
  · cases h
  · injection h with h
    subst h
    intro t ht c hc
    simp only [touchProject] at ht
    rcases List.mem_map.mp ht with ⟨t0, ht0, rfl⟩
    split at hc
    · exact hb t0 ht0 c (List.Sublist.mem hc (List.filter_sublist t0.clips))
    · exact hb t0 ht0 c hc

/-- One successful fail-fast timeline operation, with `updateTextClip`
restricted to patches whose explicit `startMs` / `durationMs` values respect
the data-model bounds (the code does not re-validate them). -/
inductive BoundedStep : EditorProject → EditorProject → Prop
  | addTrack (p : EditorProject) (kind : TrackKind) (patch : TrackPatch)
      (freshTrackId : String) (now : Int) :
      BoundedStep p (addTrack p kind patch freshTrackId now)
  | removeTrack {p q : EditorProject} (trackId : String) (now : Int)
      (h : removeTrack p trackId now = .ok q) : BoundedStep p q
  | reorderTracksByIndex {p q : EditorProject} (i j now : Int)
      (h : reorderTracksByIndex p i j now = .ok q) : BoundedStep p q
  | setTrackOpacity {p q : EditorProject} (trackId : String) (o : Rat) (now : Int)
      (h : setTrackOpacity p trackId o now = .ok q) : BoundedStep p q
  | addVideoClipFromResource {p q : EditorProject} (input : VideoClipInput)
      (freshId : String) (now : Int)
      (h : addVideoClipFromResource p input freshId now = .ok q) : BoundedStep p q
  | addAudioClipFromResource {p q : EditorProject} (input : AudioClipInput)
      (freshId : String) (now : Int)
      (h : addAudioClipFromResource p input freshId now = .ok q) : BoundedStep p q
  | addTextClip {p q : EditorProject} (input : TextClipInput) (freshId : String) (now : Int)
      (h : addTextClip p input freshId now = .ok q) : BoundedStep p q
  | moveClipInTrack {p q : EditorProject} (clipId : String) (s now : Int)
      (h : moveClipInTrack p clipId s now = .ok q) : BoundedStep p q
  | moveClipToTrack {p q : EditorProject} (clipId nextTrackId : String) (s now : Int)
      (h : moveClipToTrack p clipId nextTrackId s now = .ok q) : BoundedStep p q
  | resizeClip {p q : EditorProject} (clipId : String) (d now : Int) (anchor : ResizeAnchor)
      (h : resizeClip p clipId d anchor now = .ok q) : BoundedStep p q
  | updateTextClip {p q : EditorProject} (clipId : String) (patch : TextClipPatch) (now : Int)
      (hs : ∀ v, patch.startMs = some v → 0 ≤ v)
      (hd : ∀ v, patch.durationMs = some v → 1 ≤ v)
      (h : updateTextClip p clipId patch now = .ok q) : BoundedStep p q
  | removeClip {p q : EditorProject} (clipId : String) (now : Int)
      (h : removeClip p clipId now = .ok q) : BoundedStep p q

theorem boundedStep_preserves {p q : EditorProject} (h : BoundedStep p q)
    (hb : projectBounded p) : projectBounded q := by
  cases h with
  | addTrack kind patch freshTrackId now => exact addTrack_bounded kind patch freshTrackId now hb
  | removeTrack trackId now h => exact removeTrack_bounded h hb
  | reorderTracksByIndex i j now h => exact reorderTracks_bounded h hb
  | setTrackOpacity trackId o now h => exact setTrackOpacity_bounded h hb
  | addVideoClipFromResource input freshId now h => exact addVideoClip_bounded h hb
  | addAudioClipFromResource input freshId now h => exact addAudioClip_bounded h hb
  | addTextClip input freshId now h => exact addTextClip_bounded h hb
  | moveClipInTrack clipId s now h => exact moveClipInTrack_bounded h hb
  | moveClipToTrack clipId nextTrackId s now h => exact moveClipToTrack_bounded h hb
  | resizeClip clipId d now anchor h => exact resizeClip_bounded h hb
  | updateTextClip clipId patch now hs hd h => exact updateTextClip_bounded hs hd h hb
  | removeClip clipId now h => exact removeClip_bounded h hb

/-- C7 (amended): every project reachable by successful fail-fast operations —
with `updateTextClip` patches whose explicit `startMs` / `durationMs` entries
are themselves in bounds — from a project whose clips satisfy
`startMs ≥ 0 ∧ durationMs ≥ 1` keeps every clip within those bounds. -/
theorem C7_bounds_invariant (p q : EditorProject)
    (h : Relation.ReflTransGen BoundedStep p q) (hb : projectBounded p) :
    projectBounded q := by
  induction h with
  | refl => exact hb
  | tail _ hstep ih => exact boundedStep_preserves hstep ih

theorem C7_bounds_invariant_witness :
    projectBounded (exProj []) ∧
    projectBounded (addTrack (exProj []) ClipKind.video
      { name := none, opacity := none } "trk9" 5) :=
  ⟨by decide,
    C7_bounds_invariant (exProj [])
      (addTrack (exProj []) ClipKind.video { name := none, opacity := none } "trk9" 5)
      (Relation.ReflTransGen.single
        (BoundedStep.addTrack (exProj []) ClipKind.video
          { name := none, opacity := none } "trk9" 5))
      (by decide)⟩

def exTextClip (s d : Int) : Clip :=
  { id := "x", trackId := "trkT", startMs := s, durationMs := d, kind := .text,
    resourceId := "", trimStartMs := 0, trimDurationMs := none, volume := 0,
    text := "hi", style := defaultStyle, transform := defaultTransform }

def exTextTrack (cs : List Clip) : Track :=
  { id := "trkT", kind := .text, name := "T", order := 0, opacity := 1,
    muted := none, hidden := none, clips := cs }

def exProjT (cs : List Clip) : EditorProject :=
  { id := "projT", name := "Demo", createdAt := 0, updatedAt := 0, resources := [],
    tracks := [exTextTrack cs], settings := exSettings }

/-- C7 counterexample: `updateTextClip` accepts a patch with `durationMs = 0`
and `startMs = -7` (it only re-checks overlap), so the bounds invariant is not
preserved by the operations as implemented. -/
theorem C7_bounds_counterexample :
    projectBounded (exProjT [exTextClip 3 5]) ∧
    updateTextClip (exProjT [exTextClip 3 5]) "x"
      { trackId := none, startMs := some (-7), durationMs := some 0, text := none,
        style := none, transform := none } 0 =
      .ok (exProjT [exTextClip (-7) 0]) ∧
    ¬ projectBounded (exProjT [exTextClip (-7) 0]) :=
  ⟨by decide, by decide, by decide⟩


/-! ## Claim C1: the well-formedness invariant of a project -/

def trackIds (p : EditorProject) : List String := p.tracks.map (fun t => t.id)

def clipIdsOfTracks (l : List Track) : List String :=
  (l.map (fun t => t.clips.map (fun c => c.id))).flatten

def projectClipIds (p : EditorProject) : List String := clipIdsOfTracks p.tracks

/-- Every clip records the id of the track that holds it. -/
def consistentTrackIds (p : EditorProject) : Prop :=
  ∀ t ∈ p.tracks, ∀ c ∈ t.clips, c.trackId = t.id

/-- The per-track non-overlap invariant of the spec. -/
def projectNoOverlap (p : EditorProject) : Prop :=
  ∀ t ∈ p.tracks, t.clips.Pairwise clipsDisjoint

/-- Well-formed project: distinct track ids, globally distinct clip ids,
clips aware of their track, and per-track non-overlap. -/
def projectWF (p : EditorProject) : Prop :=
  (trackIds p).Nodup ∧ (projectClipIds p).Nodup ∧ consistentTrackIds p ∧ projectNoOverlap p

instance (p : EditorProject) : Decidable (consistentTrackIds p) := by
  unfold consistentTrackIds
  infer_instance

instance (p : EditorProject) : Decidable (projectNoOverlap p) := by
  unfold projectNoOverlap
  infer_instance

instance (p : EditorProject) : Decidable (projectWF p) := by
  unfold projectWF trackIds projectClipIds
  infer_instance

theorem clipIdsOfTracks_cons (t : Track) (l : List Track) :
    clipIdsOfTracks (t :: l) = t.clips.map (fun c => c.id) ++ clipIdsOfTracks l := by
  unfold clipIdsOfTracks
  rw [List.map_cons, List.flatten_cons]

theorem clipIdsOfTracks_append (l₁ l₂ : List Track) :
    clipIdsOfTracks (l₁ ++ l₂) = clipIdsOfTracks l₁ ++ clipIdsOfTracks l₂ := by
  unfold clipIdsOfTracks
  rw [List.map_append, List.flatten_append]

theorem clipIdsOfTracks_sublist {l₁ l₂ : List Track} (h : l₁.Sublist l₂) :
    (clipIdsOfTracks l₁).Sublist (clipIdsOfTracks l₂) := by
  induction h with
  | slnil => exact List.Sublist.refl _
  | cons t _ ih =>
    rw [clipIdsOfTracks_cons]
    exact ih.trans (List.sublist_append_right _ _)
  | cons₂ t _ ih =>
    rw [clipIdsOfTracks_cons, clipIdsOfTracks_cons]
    exact List.Sublist.append (List.Sublist.refl _) ih

theorem clipIdsOfTracks_perm {l₁ l₂ : List Track} (h : l₁.Perm l₂) :
    (clipIdsOfTracks l₁).Perm (clipIdsOfTracks l₂) := by
  unfold clipIdsOfTracks
  exact (h.map (fun t => t.clips.map (fun c => c.id))).flatten

theorem map_id_of_eq {α : Type} {l : List α} {f : α → α} (h : ∀ a ∈ l, f a = a) :
    l.map f = l := by
  induction l with
  | nil => rfl
  | cons a rest ih =>
    rw [List.map_cons, h a (List.mem_cons_self a rest),
      ih (fun b hb => h b (List.mem_cons_of_mem a hb))]

theorem map_map_congr {α β γ : Type} {l : List α} {f : α → β} {g : β → γ} {k : α → γ}
    (hpt : ∀ a ∈ l, g (f a) = k a) : (l.map f).map g = l.map k := by
  induction l with
  | nil => rfl
  | cons a rest ih =>
    rw [List.map_cons, List.map_cons, List.map_cons, hpt a (List.mem_cons_self a rest),
      ih (fun b hb => hpt b (List.mem_cons_of_mem a hb))]

/-- Splitting a list with duplicate-free keys around one member. -/
theorem keyed_decomp {α : Type} (key : α → String) {l : List α} {x : α}
    (hnodup : (l.map key).Nodup) (hmem : x ∈ l) :
    ∃ l₁ l₂, l = l₁ ++ x :: l₂ ∧ (∀ y ∈ l₁, key y ≠ key x) ∧ ∀ y ∈ l₂, key y ≠ key x := by
  induction l with
  | nil => cases hmem
  | cons a rest ih =>
    rw [List.map_cons, List.nodup_cons] at hnodup
    cases hmem with
    | head =>
      refine ⟨[], rest, rfl, by simp, fun y hy hEq => hnodup.1 ?_⟩
      rw [← hEq]
      exact List.mem_map_of_mem key hy
    | tail _ hx =>
      obtain ⟨l₁, l₂, hdec, h₁, h₂⟩ := ih hnodup.2 hx
      refine ⟨a :: l₁, l₂, by rw [hdec]; rfl, ?_, h₂⟩
      intro y hy
      cases hy with
      | head =>
        intro hEq
        refine hnodup.1 ?_
        rw [hEq]
        exact List.mem_map_of_mem key hx
      | tail _ hy => exact h₁ y hy

theorem eq_of_key_eq {α : Type} (key : α → String) {l : List α} {x y : α}
    (hnodup : (l.map key).Nodup) (hx : x ∈ l) (hy : y ∈ l) (hEq : key x = key y) : x = y := by
  induction l with
  | nil => cases hx
  | cons a rest ih =>
    rw [List.map_cons, List.nodup_cons] at hnodup
    cases hx with
    | head =>
      cases hy with
      | head => rfl
      | tail _ hy =>
        refine absurd ?_ hnodup.1
        rw [hEq]
        exact List.mem_map_of_mem key hy
    | tail _ hx =>
      cases hy with
      | head =>
        refine absurd ?_ hnodup.1
        rw [← hEq]
        exact List.mem_map_of_mem key hx
      | tail _ hy => exact ih hnodup.2 hx hy

theorem getTrack_ok_mem {p : EditorProject} {tid : String} {t : Track}
    (h : getTrack p tid = .ok t) : t ∈ p.tracks ∧ t.id = tid := by
  unfold getTrack at h
  cases hf : p.tracks.find? (fun t => t.id == tid) with
  | some t0 =>
    rw [hf] at h
    injection h with h
    subst h
    exact ⟨List.mem_of_find?_eq_some hf, by simpa using List.find?_some hf⟩
  | none =>
    rw [hf] at h
    cases h

theorem nodup_segment {l : List Track} {t : Track}
    (hCN : (clipIdsOfTracks l).Nodup) (ht : t ∈ l) :
    (t.clips.map (fun c => c.id)).Nodup := by
  induction l with
  | nil => cases ht
  | cons a rest ih =>
    rw [clipIdsOfTracks_cons, List.nodup_append] at hCN
    cases ht with
    | head => exact hCN.1
    | tail _ ht => exact ih hCN.2.1 ht

theorem perm_pull2 {α : Type} (x : α) (P Q rest : List α) :
    (P ++ (Q ++ x :: rest)).Perm (x :: (P ++ (Q ++ rest))) :=
  (List.Perm.append_left P List.perm_middle).trans List.perm_middle

theorem perm_pull3 {α : Type} (x : α) (P Q R rest : List α) :
    (P ++ (Q ++ (R ++ x :: rest))).Perm (x :: (P ++ (Q ++ (R ++ rest)))) :=
  (List.Perm.append_left P (perm_pull2 x Q R rest)).trans List.perm_middle

theorem perm_pull4 {α : Type} (x : α) (P Q R S rest : List α) :
    (P ++ (Q ++ (R ++ (S ++ x :: rest)))).Perm (x :: (P ++ (Q ++ (R ++ (S ++ rest))))) :=
  (List.Perm.append_left P (perm_pull3 x Q R S rest)).trans List.perm_middle

theorem nodup_insert_mid (P T B : List String) (f : String)
    (hnodup : (P ++ (T ++ B)).Nodup) (hfresh : f ∉ P ++ (T ++ B)) :
    (P ++ ((T ++ [f]) ++ B)).Nodup := by
  have h1 : (P ++ ((T ++ [f]) ++ B)).Perm (f :: (P ++ (T ++ B))) := by
    rw [List.append_assoc, List.singleton_append]
    exact perm_pull2 f P T B
  exact h1.nodup_iff.mpr (List.nodup_cons.mpr ⟨hfresh, hnodup⟩)

/-- Removing the clip with id `x` from a track that comes after the target
track keeps the global clip-id list duplicate-free. -/
theorem nodup_move_after (P W Q T R F : List String) (x : String)
    (hperm : T.Perm (x :: F))
    (hnodup : (P ++ (W ++ (Q ++ (T ++ R)))).Nodup) :
    (P ++ (W ++ (x :: (Q ++ (F ++ R))))).Nodup := by
  have h2 : (P ++ (W ++ (Q ++ (T ++ R)))).Perm (x :: (P ++ (W ++ (Q ++ (F ++ R))))) := by
    refine List.Perm.trans
      (List.Perm.append_left P (List.Perm.append_left W
        (List.Perm.append_left Q (hperm.append_right R)))) ?_
    rw [List.cons_append]
    exact perm_pull3 x P W Q (F ++ R)
  have h1 : (P ++ (W ++ (x :: (Q ++ (F ++ R))))).Perm
      (x :: (P ++ (W ++ (Q ++ (F ++ R))))) :=
    perm_pull2 x P W (Q ++ (F ++ R))
  exact h1.nodup_iff.mpr (h2.nodup_iff.mp hnodup)

/-- Symmetric variant: the target track comes after the source track. -/
theorem nodup_move_before (P T Q W R F : List String) (x : String)
    (hperm : T.Perm (x :: F))
    (hnodup : (P ++ (T ++ (Q ++ (W ++ R)))).Nodup) :
    (P ++ (F ++ (Q ++ (W ++ (x :: R))))).Nodup := by
  have h2 : (P ++ (T ++ (Q ++ (W ++ R)))).Perm (x :: (P ++ (F ++ (Q ++ (W ++ R))))) := by
    refine List.Perm.trans
      (List.Perm.append_left P (hperm.append_right (Q ++ (W ++ R)))) ?_
    rw [List.cons_append]
    exact List.perm_middle
  have h1 : (P ++ (F ++ (Q ++ (W ++ (x :: R))))).Perm
      (x :: (P ++ (F ++ (Q ++ (W ++ R))))) :=
    perm_pull4 x P F Q W R
  exact h1.nodup_iff.mpr (h2.nodup_iff.mp hnodup)

theorem pairwise_snoc_disjoint {l : List Clip} {x : Clip}
    (hpw : l.Pairwise clipsDisjoint) (hall : ∀ c ∈ l, clipsDisjoint c x) :
    (l ++ [x]).Pairwise clipsDisjoint := by
  rw [List.pairwise_append]
  refine ⟨hpw, List.pairwise_singleton _ _, fun a ha b hb => ?_⟩
  rw [List.mem_singleton] at hb
  subst hb
  exact hall a ha

theorem pairwise_replace {C₁ C₂ : List Clip} {clip newClip : Clip}
    (hpw : (C₁ ++ clip :: C₂).Pairwise clipsDisjoint)
    (hdisj : ∀ c ∈ C₁ ++ clip :: C₂, c.id ≠ clip.id → clipsDisjoint c newClip)
    (hne₁ : ∀ c ∈ C₁, c.id ≠ clip.id) (hne₂ : ∀ c ∈ C₂, c.id ≠ clip.id) :
    (C₁ ++ newClip :: C₂).Pairwise clipsDisjoint := by
  rw [List.pairwise_append] at hpw ⊢
  obtain ⟨h₁, h₂, hcross⟩ := hpw
  rw [List.pairwise_cons] at h₂ ⊢
  refine ⟨h₁, ⟨fun b hb => ?_, h₂.2⟩, fun a ha b hb => ?_⟩
  · exact clipsDisjoint_symm (hdisj b
      (List.mem_append.mpr (Or.inr (List.mem_cons_of_mem clip hb))) (hne₂ b hb))
  · cases hb with
    | head => exact hdisj a (List.mem_append.mpr (Or.inl ha)) (hne₁ a ha)
    | tail _ hb => exact hcross a ha b (List.mem_cons_of_mem clip hb)

theorem keptByIgnore_of_ne {i : String} {c : Clip} (h : c.id ≠ i) :
    keptByIgnore (some i) c = true := by
  have hred : keptByIgnore (some i) c = if (i == "") = true then true else c.id != i := rfl
  rw [hred]
  split
  · rfl
  · simpa using h

theorem canPlace_disjoint_of_ne {clips : List Clip} {next : Clip} {i : String}
    (hcan : canPlaceClipInTrack clips next (some i) = true) {c : Clip} (hc : c ∈ clips)
    (hne : c.id ≠ i) : clipsDisjoint c next :=
  (canPlaceClipInTrack_iff clips next (some i)).mp hcan c hc (keptByIgnore_of_ne hne)

theorem canPlace_disjoint_none {clips : List Clip} {next : Clip}
    (hcan : canPlaceClipInTrack clips next none = true) {c : Clip} (hc : c ∈ clips) :
    clipsDisjoint c next :=
  (canPlaceClipInTrack_iff clips next none).mp hcan c hc rfl


/-- Introduction form of `projectWF` for a project rebuilt with new tracks,
with the id lists spelled out. -/
theorem projectWF_mk_tracks (p : EditorProject) (l : List Track) (now : Int)
    (h1 : (l.map (fun t => t.id)).Nodup) (h2 : (clipIdsOfTracks l).Nodup)
    (h3 : ∀ t ∈ l, ∀ c ∈ t.clips, c.trackId = t.id)
    (h4 : ∀ t ∈ l, t.clips.Pairwise clipsDisjoint) :
    projectWF (touchProject { p with tracks := l } now) :=
  ⟨h1, h2, h3, h4⟩

/-- Elimination form of `projectWF`, with the id lists spelled out. -/
theorem projectWF_elim {p : EditorProject} (h : projectWF p) :
    (p.tracks.map (fun t => t.id)).Nodup ∧ (clipIdsOfTracks p.tracks).Nodup ∧
    (∀ t ∈ p.tracks, ∀ c ∈ t.clips, c.trackId = t.id) ∧
    (∀ t ∈ p.tracks, t.clips.Pairwise clipsDisjoint) := h

theorem clipIdsOfTracks_map_sublist {l : List Track} {g : Track → Track}
    (hg : ∀ t ∈ l, (g t).clips.Sublist t.clips) :
    (clipIdsOfTracks (l.map g)).Sublist (clipIdsOfTracks l) := by
  induction l with
  | nil => exact List.Sublist.refl _
  | cons a rest ih =>
    rw [List.map_cons, clipIdsOfTracks_cons, clipIdsOfTracks_cons]
    exact List.Sublist.append
      (List.Sublist.map _ (hg a (List.mem_cons_self a rest)))
      (ih (fun t ht => hg t (List.mem_cons_of_mem a ht)))

/-- A pointwise track transformation that keeps every track id and only drops
clips preserves well-formedness. -/
theorem projectWF_map_sublist {p : EditorProject} {g : Track → Track} {now : Int}
    (hg : ∀ t ∈ p.tracks, (g t).id = t.id ∧ (g t).clips.Sublist t.clips)
    (hwf : projectWF p) :
    projectWF (touchProject { p with tracks := p.tracks.map g } now) := by
  obtain ⟨hTN, hCN, hCons, hNov⟩ := projectWF_elim hwf
  refine projectWF_mk_tracks p _ now ?_ ?_ ?_ ?_
  · rw [map_map_congr (fun t ht => (hg t ht).1)]
    exact hTN
  · exact List.Nodup.sublist (clipIdsOfTracks_map_sublist (fun t ht => (hg t ht).2)) hCN
  · intro t' ht' c hc
    rcases List.mem_map.mp ht' with ⟨t, ht, rfl⟩
    rw [(hg t ht).1]
    exact hCons t ht c (List.Sublist.mem hc (hg t ht).2)
  · intro t' ht'
    rcases List.mem_map.mp ht' with ⟨t, ht, rfl⟩
    exact List.Pairwise.sublist (hg t ht).2 (hNov t ht)

theorem map_replace_ids (clips : List Clip) (cid : String) (nc : Clip) (hid : nc.id = cid) :
    (clips.map (fun c => if c.id == cid then nc else c)).map (fun c => c.id) =
      clips.map (fun c => c.id) := by
  induction clips with
  | nil => rfl
  | cons c rest ih =>
    rw [List.map_cons, List.map_cons, List.map_cons]
    congr 1
    by_cases h : (c.id == cid) = true
    · rw [if_pos h]
      exact hid.trans (beq_iff_eq.mp h).symm
    · rw [if_neg h]

theorem clipIdsOfTracks_map_eq {l : List Track} {g : Track → Track}
    (hg : ∀ t ∈ l, (g t).clips.map (fun c => c.id) = t.clips.map (fun c => c.id)) :
    clipIdsOfTracks (l.map g) = clipIdsOfTracks l := by
  induction l with
  | nil => rfl
  | cons a rest ih =>
    rw [List.map_cons, clipIdsOfTracks_cons, clipIdsOfTracks_cons,
      hg a (List.mem_cons_self a rest), ih (fun t ht => hg t (List.mem_cons_of_mem a ht))]

/-- Replacing, inside the unique track of id `track.id`, the clip of id
`clipId` by a same-id clip of the same track that passes the overlap gate
preserves well-formedness.  This is the shared shape of `moveClipInTrack`,
`resizeClip` and `updateTextClip`. -/
theorem projectWF_replace_core {p : EditorProject} {track : Track} {clipId : String}
    {clip newClip : Clip} {now : Int}
    (hwf : projectWF p) (htr : track ∈ p.tracks)
    (hcl : clip ∈ track.clips) (hcid : clip.id = clipId)
    (hnid : newClip.id = clipId) (hntid : newClip.trackId = track.id)
    (hcan : canPlaceClipInTrack track.clips newClip (some clipId) = true) :
    projectWF (touchProject
      { p with tracks := p.tracks.map (fun t =>
          if t.id != track.id then t
          else { t with clips := t.clips.map (fun c => if c.id == clipId then newClip else c) }) }
      now) := by
  obtain ⟨hTN, hCN, hCons, hNov⟩ := projectWF_elim hwf
  have hsegN : (track.clips.map (fun c => c.id)).Nodup := nodup_segment hCN htr
  obtain ⟨C₁, C₂, hcdec, hne₁, hne₂⟩ := keyed_decomp (fun c => c.id) hsegN hcl
  have hrepl : track.clips.map (fun c => if c.id == clipId then newClip else c) =
      C₁ ++ newClip :: C₂ := by
    rw [hcdec, List.map_append, List.map_cons]
    congr 1
    · refine map_id_of_eq (fun c hc => if_neg ?_)
      simp only [beq_iff_eq]
      rw [← hcid]
      exact hne₁ c hc
    congr 1
    · rw [if_pos (by simp only [beq_iff_eq]; exact hcid)]
    · refine map_id_of_eq (fun c hc => if_neg ?_)
      simp only [beq_iff_eq]
      rw [← hcid]
      exact hne₂ c hc
  refine projectWF_mk_tracks p _ now ?_ ?_ ?_ ?_
  · rw [map_map_congr (fun t ht => ?_)]
    · exact hTN
    · split <;> rfl
  · rw [clipIdsOfTracks_map_eq (fun t ht => ?_)]
    · exact hCN
    · split
      · rfl
      · exact map_replace_ids t.clips clipId newClip hnid
  · intro t' ht' c hc
    rcases List.mem_map.mp ht' with ⟨t, ht, rfl⟩
    by_cases hcond : (t.id != track.id) = true
    · rw [if_pos hcond] at hc ⊢
      exact hCons t ht c hc
    · have hid : t.id = track.id := by simpa using hcond
      have htt : t = track := eq_of_key_eq (fun t => t.id) hTN ht htr hid
      subst htt
      rw [if_neg hcond] at hc ⊢
      show c.trackId = t.id
      rw [hrepl] at hc
      rcases List.mem_append.mp hc with h1 | h1
      · exact hCons t ht c (by rw [hcdec]; exact List.mem_append.mpr (Or.inl h1))
      · cases h1 with
        | head => rw [hntid]
        | tail _ h1 =>
          refine hCons t ht c ?_
          rw [hcdec]
          exact List.mem_append.mpr (Or.inr (List.mem_cons_of_mem clip h1))
  · intro t' ht'
    rcases List.mem_map.mp ht' with ⟨t, ht, rfl⟩
    by_cases hcond : (t.id != track.id) = true
    · rw [if_pos hcond]
      exact hNov t ht
    · have hid : t.id = track.id := by simpa using hcond
      have htt : t = track := eq_of_key_eq (fun t => t.id) hTN ht htr hid
      subst htt
      rw [if_neg hcond]
      show (t.clips.map (fun c => if c.id == clipId then newClip else c)).Pairwise clipsDisjoint
      rw [hrepl]
      refine pairwise_replace (by rw [← hcdec]; exact hNov t ht) ?_ hne₁ hne₂
      intro c hcm hne
      refine canPlace_disjoint_of_ne hcan ?_ ?_
      · rw [hcdec]
        exact hcm
      · rw [← hcid]
        exact hne

/-- Appending a fresh-id clip that passes the overlap gate to the unique track
of id `track.id` preserves well-formedness.  This is the shared shape of the
three add-clip operations. -/
theorem projectWF_append_core {p : EditorProject} {track : Track} {newClip : Clip} {now : Int}
    (hwf : projectWF p) (htr : track ∈ p.tracks)
    (hfresh : newClip.id ∉ projectClipIds p)
    (htid : newClip.trackId = track.id)
    (hcan : canPlaceClipInTrack track.clips newClip none = true) :
    projectWF (touchProject
      { p with tracks := p.tracks.map (fun t =>
          if t.id == track.id then { t with clips := t.clips ++ [newClip] } else t) } now) := by
  obtain ⟨hTN, hCN, hCons, hNov⟩ := projectWF_elim hwf
  obtain ⟨L₁, L₂, hdec, hne₁, hne₂⟩ := keyed_decomp (fun t => t.id) hTN htr
  have hmap : p.tracks.map (fun t =>
      if t.id == track.id then { t with clips := t.clips ++ [newClip] } else t) =
      L₁ ++ ({ track with clips := track.clips ++ [newClip] } : Track) :: L₂ := by
    rw [hdec, List.map_append, List.map_cons]
    congr 1
    · refine map_id_of_eq (fun y hy => if_neg ?_)
      simp only [beq_iff_eq]
      exact hne₁ y hy
    congr 1
    · rw [if_pos (by simp)]
    · refine map_id_of_eq (fun y hy => if_neg ?_)
      simp only [beq_iff_eq]
      exact hne₂ y hy
  refine projectWF_mk_tracks p _ now ?_ ?_ ?_ ?_
  · rw [map_map_congr (fun t ht => ?_)]
    · exact hTN
    · split <;> rfl
  · rw [hmap, clipIdsOfTracks_append, clipIdsOfTracks_cons]
    show (clipIdsOfTracks L₁ ++
      ((track.clips ++ [newClip]).map (fun c => c.id) ++ clipIdsOfTracks L₂)).Nodup
    rw [List.map_append]
    have hCN' : (clipIdsOfTracks L₁ ++
        (track.clips.map (fun c => c.id) ++ clipIdsOfTracks L₂)).Nodup := by
      rw [hdec, clipIdsOfTracks_append, clipIdsOfTracks_cons] at hCN
      exact hCN
    have hfresh' : newClip.id ∉ clipIdsOfTracks L₁ ++
        (track.clips.map (fun c => c.id) ++ clipIdsOfTracks L₂) := by
      intro hmem
      refine hfresh ?_
      show newClip.id ∈ clipIdsOfTracks p.tracks
      rw [hdec, clipIdsOfTracks_append, clipIdsOfTracks_cons]
      exact hmem
    show (clipIdsOfTracks L₁ ++
      ((track.clips.map (fun c => c.id) ++ [newClip].map (fun c => c.id)) ++
        clipIdsOfTracks L₂)).Nodup
    exact nodup_insert_mid _ _ _ _ hCN' hfresh'
  · intro t' ht' c hc
    rcases List.mem_map.mp ht' with ⟨t, ht, rfl⟩
    by_cases hcond : (t.id == track.id) = true
    · rw [if_pos hcond] at hc ⊢
      show c.trackId = t.id
      rcases List.mem_append.mp hc with h1 | h1
      · exact hCons t ht c h1
      · rw [List.mem_singleton] at h1
        subst h1
        rw [htid]
        exact (beq_iff_eq.mp hcond).symm
    · rw [if_neg hcond] at hc ⊢
      exact hCons t ht c hc
  · intro t' ht'
    rcases List.mem_map.mp ht' with ⟨t, ht, rfl⟩
    by_cases hcond : (t.id == track.id) = true
    · rw [if_pos hcond]
      have htt : t = track := eq_of_key_eq (fun t => t.id) hTN ht htr (beq_iff_eq.mp hcond)
      subst htt
      show (t.clips ++ [newClip]).Pairwise clipsDisjoint
      exact pairwise_snoc_disjoint (hNov t ht) (fun c hc => canPlace_disjoint_none hcan hc)
    · rw [if_neg hcond]
      exact hNov t ht

theorem perm_get_cons_eraseIdx : ∀ (l : List Track) (i : Nat) (h : i < l.length),
    l.Perm (l.get ⟨i, h⟩ :: l.eraseIdx i)
  | a :: rest, 0, _ => by
    rw [List.eraseIdx]
    exact List.Perm.refl _
  | a :: rest, i + 1, h => by
    rw [List.eraseIdx]
    have ih := perm_get_cons_eraseIdx rest i (by simpa using h)
    show (a :: rest).Perm (rest.get ⟨i, _⟩ :: a :: rest.eraseIdx i)
    exact (ih.cons a).trans (List.Perm.swap _ _ _)

theorem reassignOrders_map_id (l : List Track) :
    (reassignOrders l).map (fun t => t.id) = l.map (fun t => t.id) := by
  unfold reassignOrders
  rw [List.map_map]
  have h1 : l.enum.map ((fun t => t.id) ∘ fun it : Nat × Track =>
      { it.2 with order := (it.1 : Int) }) = l.enum.map (fun it => it.2.id) :=
    List.map_congr_left (fun a _ => rfl)
  rw [h1, show (fun it : Nat × Track => it.2.id) = (fun t : Track => t.id) ∘ Prod.snd from rfl,
    ← List.map_map, List.enum_map_snd]

theorem clipIdsOfTracks_reassign (l : List Track) :
    clipIdsOfTracks (reassignOrders l) = clipIdsOfTracks l := by
  unfold clipIdsOfTracks reassignOrders
  rw [List.map_map]
  have h1 : l.enum.map ((fun t => t.clips.map (fun c => c.id)) ∘ fun it : Nat × Track =>
      { it.2 with order := (it.1 : Int) }) =
      l.enum.map (fun it => it.2.clips.map (fun c => c.id)) :=
    List.map_congr_left (fun a _ => rfl)
  rw [h1, show (fun it : Nat × Track => it.2.clips.map (fun c => c.id)) =
    (fun t : Track => t.clips.map (fun c => c.id)) ∘ Prod.snd from rfl,
    ← List.map_map, List.enum_map_snd]

theorem reassignOrders_mem2 {l : List Track} {t' : Track} (h : t' ∈ reassignOrders l) :
    ∃ t ∈ l, t'.id = t.id ∧ t'.clips = t.clips := by
  unfold reassignOrders at h
  rcases List.mem_map.mp h with ⟨it, hit, rfl⟩
  have hsnd : it.2 ∈ l := by
    have := List.enum_map_snd l
    rw [← this]
    exact List.mem_map_of_mem Prod.snd hit
  exact ⟨it.2, hsnd, rfl, rfl⟩

theorem addTrack_wf {p : EditorProject} (kind : TrackKind) (patch : TrackPatch)
    (freshTrackId : String) (now : Int) (hfresh : freshTrackId ∉ trackIds p)
    (hwf : projectWF p) : projectWF (addTrack p kind patch freshTrackId now) := by
  obtain ⟨hTN, hCN, hCons, hNov⟩ := projectWF_elim hwf
  refine projectWF_mk_tracks p _ now ?_ ?_ ?_ ?_
  · rw [List.map_append, List.nodup_append]
    refine ⟨hTN, List.nodup_singleton _, fun a ha hb => ?_⟩
    rw [List.map_singleton, List.mem_singleton] at hb
    subst hb
    exact hfresh ha
  · rw [clipIdsOfTracks_append]
    show (clipIdsOfTracks p.tracks ++ ([] : List String)).Nodup
    rw [List.append_nil]
    exact hCN
  · intro t ht c hc
    rcases List.mem_append.mp ht with h1 | h1
    · exact hCons t h1 c hc
    · rw [List.mem_singleton] at h1
      subst h1
      cases hc
  · intro t ht
    rcases List.mem_append.mp ht with h1 | h1
    · exact hNov t h1
    · rw [List.mem_singleton] at h1
      subst h1
      exact List.Pairwise.nil

theorem removeTrack_wf {p q : EditorProject} {trackId : String} {now : Int}
    (h : removeTrack p trackId now = .ok q) (hwf : projectWF p) : projectWF q := by
  unfold removeTrack at h
  split at h
  · cases h
  · simp only [bind, Except.bind, pure, Except.pure, Except.ok.injEq] at h
    subst h
    obtain ⟨hTN, hCN, hCons, hNov⟩ := projectWF_elim hwf
    refine projectWF_mk_tracks p _ now ?_ ?_ ?_ ?_
    · rw [reassignOrders_map_id]
      exact List.Nodup.sublist (List.Sublist.map _ (List.filter_sublist p.tracks)) hTN
    · rw [clipIdsOfTracks_reassign]
      exact List.Nodup.sublist (clipIdsOfTracks_sublist (List.filter_sublist p.tracks)) hCN
    · intro t ht c hc
      rcases reassignOrders_mem2 ht with ⟨t0, ht0, hid, hcl⟩
      rw [hid]
      rw [hcl] at hc
      exact hCons t0 (List.Sublist.mem ht0 (List.filter_sublist p.tracks)) c hc
    · intro t ht
      rcases reassignOrders_mem2 ht with ⟨t0, ht0, hid, hcl⟩
      rw [hcl]
      exact hNov t0 (List.Sublist.mem ht0 (List.filter_sublist p.tracks))

theorem reorderTracks_wf {p q : EditorProject} {i j now : Int}
    (h : reorderTracksByIndex p i j now = .ok q) (hwf : projectWF p) : projectWF q := by
  unfold reorderTracksByIndex at h
  simp only [] at h
  split at h
  · cases h
  · rename_i hguard
    injection h with h
    subst h
    obtain ⟨hTN, hCN, hCons, hNov⟩ := projectWF_elim hwf
    have hlen : (p.tracks.eraseIdx i.toNat).length = p.tracks.length - 1 := by
      rw [List.length_eraseIdx]
      rw [if_pos (by omega)]
    have hperm1 := perm_get_cons_eraseIdx p.tracks i.toNat (by omega)
    have hperm2 := @List.perm_insertIdx Track (p.tracks.get ⟨i.toNat, by omega⟩)
      (p.tracks.eraseIdx i.toNat) j.toNat (by omega)
    have hperm : (List.insertIdx j.toNat (p.tracks.get ⟨i.toNat, by omega⟩)
        (p.tracks.eraseIdx i.toNat)).Perm p.tracks := hperm2.trans hperm1.symm
    refine projectWF_mk_tracks p _ now ?_ ?_ ?_ ?_
    · rw [reassignOrders_map_id]
      exact ((hperm.map (fun t => t.id)).nodup_iff).mpr hTN
    · rw [clipIdsOfTracks_reassign]
      exact ((clipIdsOfTracks_perm hperm).nodup_iff).mpr hCN
    · intro t ht c hc
      rcases reassignOrders_mem2 ht with ⟨t0, ht0, hid, hcl⟩
      have ht0m : t0 ∈ p.tracks := hperm.mem_iff.mp ht0
      rw [hid]
      rw [hcl] at hc
      exact hCons t0 ht0m c hc
    · intro t ht
      rcases reassignOrders_mem2 ht with ⟨t0, ht0, hid, hcl⟩
      have ht0m : t0 ∈ p.tracks := hperm.mem_iff.mp ht0
      rw [hcl]
      exact hNov t0 ht0m

theorem setTrackOpacity_wf {p q : EditorProject} {trackId : String} {o : Rat} {now : Int}
    (h : setTrackOpacity p trackId o now = .ok q) (hwf : projectWF p) : projectWF q := by
  unfold setTrackOpacity at h
  simp only [bind, Except.bind] at h
  split at h
  · cases h
  · simp only [pure, Except.pure] at h
    split at h
    · cases h
    · injection h with h
      subst h
      refine projectWF_map_sublist (fun t ht => ?_) hwf
      by_cases hc : (t.id == trackId) = true
      · rw [if_pos hc]
        exact ⟨rfl, List.Sublist.refl t.clips⟩
      · rw [if_neg hc]
        exact ⟨rfl, List.Sublist.refl t.clips⟩

theorem removeClip_wf {p q : EditorProject} {clipId : String} {now : Int}
    (h : removeClip p clipId now = .ok q) (hwf : projectWF p) : projectWF q := by
  unfold removeClip at h
  simp only [bind, Except.bind, pure, Except.pure] at h
  split at h
  · cases h
  · rename_i track heq
    injection h with h
    subst h
    refine projectWF_map_sublist (fun t ht => ?_) hwf
    by_cases hc : (t.id == track.id) = true
    · rw [if_pos hc]
      exact ⟨rfl, List.filter_sublist t.clips⟩
    · rw [if_neg hc]
      exact ⟨rfl, List.Sublist.refl t.clips⟩

theorem addVideoClip_wf {p q : EditorProject} {input : VideoClipInput}
    {freshId : String} {now : Int}
    (hfresh : freshId ∉ projectClipIds p)
    (h : addVideoClipFromResource p input freshId now = .ok q) (hwf : projectWF p) :
    projectWF q := by
  unfold addVideoClipFromResource at h
  cases htrack : getTrack p input.trackId with
  | error e => rw [htrack] at h; simp [bind, Except.bind] at h
  | ok track =>
  rw [htrack] at h
  simp only [bind, Except.bind] at h
  cases hkind : assertTrackAcceptsClipKind track.kind ClipKind.video with
  | error e => rw [hkind] at h; simp at h
  | ok u =>
  rw [hkind] at h
  simp only [] at h
  cases hres : getResource p input.resourceId with
  | none => rw [hres] at h; simp at h
  | some res =>
  rw [hres] at h
  simp only [pure, Except.pure] at h
  cases hrk : assertResourceKindMatchesClipKind res.kind ClipKind.video with
  | error e => rw [hrk] at h; simp at h
  | ok u2 =>
  rw [hrk] at h
  simp only [] at h
  split at h
  · cases h
  · split at h
    · cases h
    · rename_i u3 heq
      injection h with h
      subst h
      obtain ⟨htrm, htid⟩ := getTrack_ok_mem htrack
      cases u3
      have hcan := (assertNoOverlap_eq_ok_iff _ _ _).mp heq
      exact projectWF_append_core hwf htrm hfresh htid.symm hcan

theorem addAudioClip_wf {p q : EditorProject} {input : AudioClipInput}
    {freshId : String} {now : Int}
    (hfresh : freshId ∉ projectClipIds p)
    (h : addAudioClipFromResource p input freshId now = .ok q) (hwf : projectWF p) :
    projectWF q := by
  unfold addAudioClipFromResource at h
  cases htrack : getTrack p input.trackId with
  | error e => rw [htrack] at h; simp [bind, Except.bind] at h
  | ok track =>
  rw [htrack] at h
  simp only [bind, Except.bind] at h
  cases hkind : assertTrackAcceptsClipKind track.kind ClipKind.audio with
  | error e => rw [hkind] at h; simp at h
  | ok u =>
  rw [hkind] at h
  simp only [] at h
  cases hres : getResource p input.resourceId with
  | none => rw [hres] at h; simp at h
  | some res =>
  rw [hres] at h
  simp only [pure, Except.pure] at h
  cases hrk : assertResourceKindMatchesClipKind res.kind ClipKind.audio with
  | error e => rw [hrk] at h; simp at h
  | ok u2 =>
  rw [hrk] at h
  simp only [] at h
  split at h
  · cases h
  · split at h
    · cases h
    · rename_i u3 heq
      injection h with h
      subst h
      obtain ⟨htrm, htid⟩ := getTrack_ok_mem htrack
      cases u3
      have hcan := (assertNoOverlap_eq_ok_iff _ _ _).mp heq
      exact projectWF_append_core hwf htrm hfresh htid.symm hcan

theorem addTextClip_wf {p q : EditorProject} {input : TextClipInput}
    {freshId : String} {now : Int}
    (hfresh : freshId ∉ projectClipIds p)
    (h : addTextClip p input freshId now = .ok q) (hwf : projectWF p) :
    projectWF q := by
  unfold addTextClip at h
  cases htrack : getTrack p input.trackId with
  | error e => rw [htrack] at h; simp [bind, Except.bind] at h
  | ok track =>
  rw [htrack] at h
  simp only [bind, Except.bind] at h
  cases hkind : assertTrackAcceptsClipKind track.kind ClipKind.text with
  | error e => rw [hkind] at h; simp at h
  | ok u =>
  rw [hkind] at h
  simp only [pure, Except.pure] at h
  split at h
  · cases h
  · split at h
    · cases h
    · rename_i u3 heq
      injection h with h
      subst h
      obtain ⟨htrm, htid⟩ := getTrack_ok_mem htrack
      cases u3
      have hcan := (assertNoOverlap_eq_ok_iff _ _ _).mp heq
      exact projectWF_append_core hwf htrm hfresh htid.symm hcan

/-- The clip returned by a successful `getClip` lies in the track a successful
`getTrack` on its `trackId` returns, provided the project is well-formed. -/
theorem getClip_in_getTrack {p : EditorProject} {clipId : String} {clip : Clip} {track : Track}
    (hwf : projectWF p) (hclip : getClip p clipId = .ok clip)
    (htrack : getTrack p clip.trackId = .ok track) :
    track ∈ p.tracks ∧ clip ∈ track.clips := by
  obtain ⟨hTN, hCN, hCons, hNov⟩ := projectWF_elim hwf
  obtain ⟨tc, htc, hclm⟩ := getClip_mem hclip
  obtain ⟨htrm, htrid⟩ := getTrack_ok_mem htrack
  have hEq : track = tc :=
    eq_of_key_eq (fun t => t.id) hTN htrm htc (htrid.trans (hCons tc htc clip hclm))
  subst hEq
  exact ⟨htrm, hclm⟩

theorem moveClipInTrack_wf {p q : EditorProject} {clipId : String} {s now : Int}
    (h : moveClipInTrack p clipId s now = .ok q) (hwf : projectWF p) : projectWF q := by
  unfold moveClipInTrack at h
  cases hclip : getClip p clipId with
  | error e => rw [hclip] at h; simp [bind, Except.bind] at h
  | ok clip =>
  rw [hclip] at h
  simp only [bind, Except.bind] at h
  cases htrack : getTrack p clip.trackId with
  | error e => rw [htrack] at h; simp at h
  | ok track =>
  rw [htrack] at h
  simp only [] at h
  split at h
  · cases h
  · rename_i u heq
    simp only [pure, Except.pure] at h
    injection h with h
    subst h
    cases u
    have hcan := (assertNoOverlap_eq_ok_iff _ _ _).mp heq
    obtain ⟨htrm, hmem⟩ := getClip_in_getTrack hwf hclip htrack
    obtain ⟨_, htrid⟩ := getTrack_ok_mem htrack
    have hid := getClip_id hclip
    refine projectWF_replace_core hwf htrm hmem hid ?_ ?_ hcan
    · exact hid
    · exact htrid.symm

theorem resizeClip_wf {p q : EditorProject} {clipId : String} {d now : Int}
    {anchor : ResizeAnchor}
    (h : resizeClip p clipId d anchor now = .ok q) (hwf : projectWF p) : projectWF q := by
  unfold resizeClip at h
  cases hclip : getClip p clipId with
  | error e => rw [hclip] at h; simp [bind, Except.bind] at h
  | ok clip =>
  rw [hclip] at h
  simp only [bind, Except.bind] at h
  cases htrack : getTrack p clip.trackId with
  | error e => rw [htrack] at h; simp at h
  | ok track =>
  rw [htrack] at h
  simp only [] at h
  split at h
  · cases h
  · rename_i u heq
    simp only [pure, Except.pure] at h
    injection h with h
    subst h
    cases u
    have hcan := (assertNoOverlap_eq_ok_iff _ _ _).mp heq
    obtain ⟨htrm, hmem⟩ := getClip_in_getTrack hwf hclip htrack
    obtain ⟨_, htrid⟩ := getTrack_ok_mem htrack
    have hid := getClip_id hclip
    refine projectWF_replace_core hwf htrm hmem hid ?_ ?_ hcan
    · cases anchor
      · exact hid
      · exact hid
    · cases anchor
      · exact htrid.symm
      · exact htrid.symm

theorem updateTextClip_wf {p q : EditorProject} {clipId : String}
    {patch : TextClipPatch} {now : Int}
    (hpt : patch.trackId = none)
    (h : updateTextClip p clipId patch now = .ok q) (hwf : projectWF p) : projectWF q := by
  unfold updateTextClip at h
  cases hclip : getClip p clipId with
  | error e => rw [hclip] at h; simp [bind, Except.bind] at h
  | ok clip =>
  rw [hclip] at h
  simp only [bind, Except.bind] at h
  split at h
  · cases h
  · simp only [pure, Except.pure] at h
    cases htrack : getTrack p clip.trackId with
    | error e => rw [htrack] at h; simp at h
    | ok track =>
    rw [htrack] at h
    simp only [] at h
    rw [hpt] at h
    simp only [Option.getD_none] at h
    split at h
    · cases h
    · rename_i u heq
      injection h with h
      subst h
      cases u
      have hcan := (assertNoOverlap_eq_ok_iff _ _ _).mp heq
      obtain ⟨htrm, hmem⟩ := getClip_in_getTrack hwf hclip htrack
      obtain ⟨_, htrid⟩ := getTrack_ok_mem htrack
      have hid := getClip_id hclip
      refine projectWF_replace_core hwf htrm hmem hid ?_ ?_ hcan
      · exact hid
      · exact htrid.symm

theorem moveClipToTrack_wf {p q : EditorProject} {clipId nextTrackId : String} {s now : Int}
    (h : moveClipToTrack p clipId nextTrackId s now = .ok q) (hwf : projectWF p) :
    projectWF q := by
  unfold moveClipToTrack at h
  cases hclip : getClip p clipId with
  | error e => rw [hclip] at h; simp [bind, Except.bind] at h
  | ok clip =>
  rw [hclip] at h
  simp only [bind, Except.bind] at h
  cases hfrom : getTrack p clip.trackId with
  | error e => rw [hfrom] at h; simp at h
  | ok fromTrack =>
  rw [hfrom] at h
  simp only [] at h
  cases hto : getTrack p nextTrackId with
  | error e => rw [hto] at h; simp at h
  | ok toTrack =>
  rw [hto] at h
  simp only [] at h
  cases hkind : assertTrackAcceptsClipKind toTrack.kind clip.kind with
  | error e => rw [hkind] at h; simp at h
  | ok u =>
  rw [hkind] at h
  simp only [] at h
  split at h
  · cases h
  · rename_i u2 heq
    simp only [pure, Except.pure] at h
    injection h with h
    subst h
    cases u2
    have hcan := (assertNoOverlap_eq_ok_iff _ _ _).mp heq
    have hid := getClip_id hclip
    obtain ⟨hfm, hmem⟩ := getClip_in_getTrack hwf hclip hfrom
    obtain ⟨htm, htoid⟩ := getTrack_ok_mem hto
    by_cases hsame : toTrack.id = fromTrack.id
    · refine projectWF_map_sublist (fun t ht => ?_) hwf
      by_cases h1 : (t.id == fromTrack.id) = true
      · rw [if_pos h1]
        exact ⟨rfl, List.filter_sublist t.clips⟩
      · rw [if_neg h1]
        by_cases h2 : (t.id == toTrack.id) = true
        · exact absurd (by rw [beq_iff_eq] at h2 ⊢; rw [h2, hsame]) h1
        · rw [if_neg h2]
          exact ⟨rfl, List.Sublist.refl t.clips⟩
    · obtain ⟨hTN, hCN, hCons, hNov⟩ := projectWF_elim hwf
      refine projectWF_mk_tracks p _ now ?_ ?_ ?_ ?_
      · rw [map_map_congr (fun t ht => ?_)]
        · exact hTN
        · split
          · rfl
          · split <;> rfl
      · obtain ⟨L₁, L₂, hdec, hne₁, hne₂⟩ := keyed_decomp (fun t => t.id) hTN hfm
        have hTN' := hTN
        rw [hdec, List.map_append, List.map_cons, List.nodup_append] at hTN'
        have hfromN : (fromTrack.clips.map (fun c => c.id)).Nodup := nodup_segment hCN hfm
        have hcperm : (fromTrack.clips.map (fun c => c.id)).Perm
            (clip.id :: (fromTrack.clips.filter (fun c => c.id != clipId)).map
              (fun c => c.id)) := by
          have h1 := (clips_perm_priority_others hfromN hmem hid).map (fun c => c.id)
          rw [List.map_cons] at h1
          exact h1
        have htoLR : toTrack ∈ L₁ ∨ toTrack ∈ L₂ := by
          rw [hdec] at htm
          rcases List.mem_append.mp htm with hm | hm
          · exact Or.inl hm
          · cases hm with
            | head => exact absurd rfl hsame
            | tail _ hm => exact Or.inr hm
        rcases htoLR with htoA | htoB
        · have hneL₂to : ∀ y ∈ L₂, y.id ≠ toTrack.id := by
            intro y hy hEq
            refine hTN'.2.2 (List.mem_map_of_mem (fun t => t.id) htoA) ?_
            rw [← hEq]
            exact List.mem_cons_of_mem _ (List.mem_map_of_mem (fun t => t.id) hy)
          obtain ⟨M₁, M₂, hdecL, hneM₁, hneM₂⟩ := keyed_decomp (fun t => t.id) hTN'.1 htoA
          have hmap : p.tracks.map (fun t => if t.id == fromTrack.id then { t with clips := t.clips.filter (fun c => c.id != clipId) } else if t.id == toTrack.id then { t with clips := t.clips ++ [{ clip with trackId := nextTrackId, startMs := clampNonNegative s }] } else t) = (M₁ ++ ({ toTrack with clips := toTrack.clips ++ [{ clip with trackId := nextTrackId, startMs := clampNonNegative s }] } : Track) :: M₂) ++ ({ fromTrack with clips := fromTrack.clips.filter (fun c => c.id != clipId) } : Track) :: L₂ := by
            rw [hdec, hdecL, List.map_append, List.map_append, List.map_cons, List.map_cons]
            congr 1
            · congr 1
              · refine map_id_of_eq (fun y hy => ?_)
                have hyL₁ : y ∈ L₁ := by
                  rw [hdecL]
                  exact List.mem_append.mpr (Or.inl hy)
                rw [if_neg (by simp only [beq_iff_eq]; exact hne₁ y hyL₁),
                  if_neg (by simp only [beq_iff_eq]; exact hneM₁ y hy)]
              congr 1
              · rw [if_neg (by simp only [beq_iff_eq]; exact hsame), if_pos (by simp)]
              · refine map_id_of_eq (fun y hy => ?_)
                have hyL₁ : y ∈ L₁ := by
                  rw [hdecL]
                  exact List.mem_append.mpr (Or.inr (List.mem_cons_of_mem toTrack hy))
                rw [if_neg (by simp only [beq_iff_eq]; exact hne₁ y hyL₁),
                  if_neg (by simp only [beq_iff_eq]; exact hneM₂ y hy)]
            congr 1
            · rw [if_pos (by simp)]
            · refine map_id_of_eq (fun y hy => ?_)
              rw [if_neg (by simp only [beq_iff_eq]; exact hne₂ y hy),
                if_neg (by simp only [beq_iff_eq]; exact hneL₂to y hy)]
          rw [hmap, clipIdsOfTracks_append, clipIdsOfTracks_cons, clipIdsOfTracks_append,
            clipIdsOfTracks_cons]
          show ((clipIdsOfTracks M₁ ++ ((toTrack.clips ++ [({ clip with trackId := nextTrackId, startMs := clampNonNegative s } : Clip)]).map (fun c => c.id) ++ clipIdsOfTracks M₂)) ++ ((fromTrack.clips.filter (fun c => c.id != clipId)).map (fun c => c.id) ++ clipIdsOfTracks L₂)).Nodup
          rw [List.map_append]
          simp only [List.append_assoc, List.map_cons, List.map_nil, List.singleton_append]
          show (clipIdsOfTracks M₁ ++ (toTrack.clips.map (fun c => c.id) ++ (clip.id :: (clipIdsOfTracks M₂ ++ ((fromTrack.clips.filter (fun c => c.id != clipId)).map (fun c => c.id) ++ clipIdsOfTracks L₂))))).Nodup
          refine nodup_move_after _ _ _ _ _ _ _ hcperm ?_
          have hCN' := hCN
          rw [hdec, hdecL, clipIdsOfTracks_append, clipIdsOfTracks_cons,
            clipIdsOfTracks_append, clipIdsOfTracks_cons] at hCN'
          simp only [List.append_assoc] at hCN'
          exact hCN'
        · have hneL₁to : ∀ y ∈ L₁, y.id ≠ toTrack.id := by
            intro y hy hEq
            refine hTN'.2.2 (List.mem_map_of_mem (fun t => t.id) hy) ?_
            rw [hEq]
            exact List.mem_cons_of_mem _ (List.mem_map_of_mem (fun t => t.id) htoB)
          have hL₂N : (L₂.map (fun t => t.id)).Nodup := (List.nodup_cons.mp hTN'.2.1).2
          obtain ⟨M₁, M₂, hdecL, hneM₁, hneM₂⟩ := keyed_decomp (fun t => t.id) hL₂N htoB
          have hmap : p.tracks.map (fun t => if t.id == fromTrack.id then { t with clips := t.clips.filter (fun c => c.id != clipId) } else if t.id == toTrack.id then { t with clips := t.clips ++ [{ clip with trackId := nextTrackId, startMs := clampNonNegative s }] } else t) = L₁ ++ ({ fromTrack with clips := fromTrack.clips.filter (fun c => c.id != clipId) } : Track) :: (M₁ ++ ({ toTrack with clips := toTrack.clips ++ [{ clip with trackId := nextTrackId, startMs := clampNonNegative s }] } : Track) :: M₂) := by
            rw [hdec, hdecL, List.map_append, List.map_cons, List.map_append, List.map_cons]
            congr 1
            · refine map_id_of_eq (fun y hy => ?_)
              rw [if_neg (by simp only [beq_iff_eq]; exact hne₁ y hy),
                if_neg (by simp only [beq_iff_eq]; exact hneL₁to y hy)]
            congr 1
            · rw [if_pos (by simp)]
            congr 1
            · refine map_id_of_eq (fun y hy => ?_)
              have hyL₂ : y ∈ L₂ := by
                rw [hdecL]
                exact List.mem_append.mpr (Or.inl hy)
              rw [if_neg (by simp only [beq_iff_eq]; exact hne₂ y hyL₂),
                if_neg (by simp only [beq_iff_eq]; exact hneM₁ y hy)]
            congr 1
            · rw [if_neg (by simp only [beq_iff_eq]; exact hsame), if_pos (by simp)]
            · refine map_id_of_eq (fun y hy => ?_)
              have hyL₂ : y ∈ L₂ := by
                rw [hdecL]
                exact List.mem_append.mpr (Or.inr (List.mem_cons_of_mem toTrack hy))
              rw [if_neg (by simp only [beq_iff_eq]; exact hne₂ y hyL₂),
                if_neg (by simp only [beq_iff_eq]; exact hneM₂ y hy)]
          rw [hmap, clipIdsOfTracks_append, clipIdsOfTracks_cons, clipIdsOfTracks_append,
            clipIdsOfTracks_cons]
          show (clipIdsOfTracks L₁ ++ ((fromTrack.clips.filter (fun c => c.id != clipId)).map (fun c => c.id) ++ (clipIdsOfTracks M₁ ++ ((toTrack.clips ++ [({ clip with trackId := nextTrackId, startMs := clampNonNegative s } : Clip)]).map (fun c => c.id) ++ clipIdsOfTracks M₂)))).Nodup
          rw [List.map_append]
          simp only [List.append_assoc, List.map_cons, List.map_nil, List.singleton_append]
          show (clipIdsOfTracks L₁ ++ ((fromTrack.clips.filter (fun c => c.id != clipId)).map (fun c => c.id) ++ (clipIdsOfTracks M₁ ++ (toTrack.clips.map (fun c => c.id) ++ (clip.id :: clipIdsOfTracks M₂))))).Nodup
          refine nodup_move_before _ _ _ _ _ _ _ hcperm ?_
          have hCN' := hCN
          rw [hdec, hdecL, clipIdsOfTracks_append, clipIdsOfTracks_cons,
            clipIdsOfTracks_append, clipIdsOfTracks_cons] at hCN'
          exact hCN'
      · intro t' ht' c hc
        rcases List.mem_map.mp ht' with ⟨t, ht, rfl⟩
        by_cases h1 : (t.id == fromTrack.id) = true
        · rw [if_pos h1] at hc ⊢
          show c.trackId = t.id
          exact hCons t ht c (List.Sublist.mem hc (List.filter_sublist t.clips))
        · rw [if_neg h1] at hc ⊢
          by_cases h2 : (t.id == toTrack.id) = true
          · rw [if_pos h2] at hc ⊢
            show c.trackId = t.id
            rcases List.mem_append.mp hc with hm | hm
            · exact hCons t ht c hm
            · rw [List.mem_singleton] at hm
              subst hm
              show nextTrackId = t.id
              rw [← htoid]
              exact (beq_iff_eq.mp h2).symm
          · rw [if_neg h2] at hc ⊢
            exact hCons t ht c hc
      · intro t' ht'
        rcases List.mem_map.mp ht' with ⟨t, ht, rfl⟩
        by_cases h1 : (t.id == fromTrack.id) = true
        · rw [if_pos h1]
          exact List.Pairwise.sublist (List.filter_sublist t.clips) (hNov t ht)
        · rw [if_neg h1]
          by_cases h2 : (t.id == toTrack.id) = true
          · rw [if_pos h2]
            have htt : t = toTrack := eq_of_key_eq (fun t => t.id) hTN ht htm (beq_iff_eq.mp h2)
            subst htt
            exact pairwise_snoc_disjoint (hNov t ht) (fun c hc => canPlace_disjoint_none hcan hc)
          · rw [if_neg h2]
            exact hNov t ht

/-- One successful fail-fast timeline operation on a project, with the
freshness of generated ids made explicit (`createId()` in the source) and
`updateTextClip` restricted to patches that do not re-home the clip
(no `trackId` entry) — the code does not re-validate either. -/
inductive WFStep : EditorProject → EditorProject → Prop
  | addTrack (p : EditorProject) (kind : TrackKind) (patch : TrackPatch)
      (freshTrackId : String) (now : Int) (hfresh : freshTrackId ∉ trackIds p) :
      WFStep p (addTrack p kind patch freshTrackId now)
  | removeTrack {p q : EditorProject} (trackId : String) (now : Int)
      (h : removeTrack p trackId now = .ok q) : WFStep p q
  | reorderTracksByIndex {p q : EditorProject} (i j now : Int)
      (h : reorderTracksByIndex p i j now = .ok q) : WFStep p q
  | setTrackOpacity {p q : EditorProject} (trackId : String) (o : Rat) (now : Int)
      (h : setTrackOpacity p trackId o now = .ok q) : WFStep p q
  | addVideoClipFromResource {p q : EditorProject} (input : VideoClipInput)
      (freshId : String) (now : Int) (hfresh : freshId ∉ projectClipIds p)
      (h : addVideoClipFromResource p input freshId now = .ok q) : WFStep p q
  | addAudioClipFromResource {p q : EditorProject} (input : AudioClipInput)
      (freshId : String) (now : Int) (hfresh : freshId ∉ projectClipIds p)
      (h : addAudioClipFromResource p input freshId now = .ok q) : WFStep p q
  | addTextClip {p q : EditorProject} (input : TextClipInput) (freshId : String) (now : Int)
      (hfresh : freshId ∉ projectClipIds p)
      (h : addTextClip p input freshId now = .ok q) : WFStep p q
  | moveClipInTrack {p q : EditorProject} (clipId : String) (s now : Int)
      (h : moveClipInTrack p clipId s now = .ok q) : WFStep p q
  | moveClipToTrack {p q : EditorProject} (clipId nextTrackId : String) (s now : Int)
      (h : moveClipToTrack p clipId nextTrackId s now = .ok q) : WFStep p q
  | resizeClip {p q : EditorProject} (clipId : String) (d now : Int) (anchor : ResizeAnchor)
      (h : resizeClip p clipId d anchor now = .ok q) : WFStep p q
  | updateTextClip {p q : EditorProject} (clipId : String) (patch : TextClipPatch) (now : Int)
      (hpt : patch.trackId = none)
      (h : updateTextClip p clipId patch now = .ok q) : WFStep p q
  | removeClip {p q : EditorProject} (clipId : String) (now : Int)
      (h : removeClip p clipId now = .ok q) : WFStep p q

theorem wfStep_preserves {p q : EditorProject} (h : WFStep p q) (hwf : projectWF p) :
    projectWF q := by
  cases h with
  | addTrack kind patch freshTrackId now hfresh =>
    exact addTrack_wf kind patch freshTrackId now hfresh hwf
  | removeTrack trackId now h => exact removeTrack_wf h hwf
  | reorderTracksByIndex i j now h => exact reorderTracks_wf h hwf
  | setTrackOpacity trackId o now h => exact setTrackOpacity_wf h hwf
  | addVideoClipFromResource input freshId now hfresh h => exact addVideoClip_wf hfresh h hwf
  | addAudioClipFromResource input freshId now hfresh h => exact addAudioClip_wf hfresh h hwf
  | addTextClip input freshId now hfresh h => exact addTextClip_wf hfresh h hwf
  | moveClipInTrack clipId s now h => exact moveClipInTrack_wf h hwf
  | moveClipToTrack clipId nextTrackId s now h => exact moveClipToTrack_wf h hwf
  | resizeClip clipId d now anchor h => exact resizeClip_wf h hwf
  | updateTextClip clipId patch now hpt h => exact updateTextClip_wf hpt h hwf
  | removeClip clipId now h => exact removeClip_wf h hwf

/-- C1 (amended): every project reachable by successful fail-fast operations
from a *well-formed* project — distinct track ids, globally distinct clip ids,
clips homed in their own track, per-track non-overlap — with generated ids
fresh and `updateTextClip` patches carrying no `trackId`, still has pairwise
non-overlapping clips in every track (indeed it is again well-formed).
Per-track non-overlap of the start project alone does not suffice: see the
counterexample with duplicated clip ids. -/
theorem C1_nonoverlap_invariant (p q : EditorProject) (hwf : projectWF p)
    (h : Relation.ReflTransGen WFStep p q) :
    ∀ t ∈ q.tracks, t.clips.Pairwise clipsDisjoint := by
  have hq : projectWF q := by
    induction h with
    | refl => exact hwf
    | tail _ hstep ih => exact wfStep_preserves hstep ih
  exact hq.2.2.2

theorem C1_nonoverlap_invariant_witness :
    projectWF (exProj []) ∧
    ∀ t ∈ (addTrack (exProj []) ClipKind.video { name := none, opacity := none }
        "trkC1" 5).tracks, t.clips.Pairwise clipsDisjoint :=
  ⟨by decide,
    C1_nonoverlap_invariant (exProj [])
      (addTrack (exProj []) ClipKind.video { name := none, opacity := none } "trkC1" 5)
      (by decide)
      (Relation.ReflTransGen.single
        (WFStep.addTrack (exProj []) ClipKind.video { name := none, opacity := none }
          "trkC1" 5 (by decide)))⟩

/-- C1 counterexample to the claim as stated: the project below satisfies
per-track non-overlap (two clips `[0,10)` and `[20,10)`), but its two clips
share the id `"x"`; one successful `moveClipInTrack` then replaces *both*
clips (the overlap gate ignores every clip with the moved id) and yields a
track whose clips overlap.  The second conjunct evaluates the operation and
checks non-overlap on its result. -/
theorem C1_nonoverlap_counterexample :
    (∀ t ∈ (exProj [exTrack [exClip "x" 0 10, exClip "x" 20 10]]).tracks,
      t.clips.Pairwise clipsDisjoint) ∧
    (moveClipInTrack (exProj [exTrack [exClip "x" 0 10, exClip "x" 20 10]]) "x" 5 7).map
      (fun q => decide (∀ t ∈ q.tracks, t.clips.Pairwise clipsDisjoint)) =
      .ok false :=
  ⟨by decide, by decide⟩


/-! ## Claim C3: the preview render loop (`PreviewCanvas/index.tsx`, `renderFrameAt`)

The loop is modelled as a step relation over the coordinator state.  JavaScript
runs the function body atomically between `await` points, so a step is one such
segment: a call to `renderFrameAt` either only records the latest playhead into
the pending slot (`lastRequestedMsRef`) when a render is in flight, or starts
the loop, consuming the slot and beginning a composite; a finished composite
appends its frame to the presented log and either starts the next composite
from the pending slot or leaves the loop.  The model covers runs in which the
canvas is mounted and every composite resolves; `requests` is the ghost log of
requested playhead values, and a pending or in-flight entry carries the index
of its request in that log. -/

structure RenderState where
  pending : Option (Nat × Int)
  rendering : Bool
  renderSeq : Nat
  inFlight : Option (Nat × Nat × Int)
  presented : List (Nat × Int)
  requests : List Int
deriving DecidableEq, Repr

def renderInit : RenderState :=
  { pending := none, rendering := false, renderSeq := 0, inFlight := none,
    presented := [], requests := [] }

/-- One atomic segment of `renderFrameAt` between `await` points. -/
inductive RenderStep : RenderState → RenderState → Prop
  | requestBusy (s : RenderState) (ms : Int) (hr : s.rendering = true) :
      RenderStep s
        { s with
          pending := some (s.requests.length, ms),
          requests := s.requests ++ [ms] }
  | requestIdle (s : RenderState) (ms : Int) (hr : s.rendering = false) :
      RenderStep s
        { s with
          pending := none,
          rendering := true,
          renderSeq := s.renderSeq + 1,
          inFlight := some (s.renderSeq + 1, s.requests.length, ms),
          requests := s.requests ++ [ms] }
  | completeNext (s : RenderState) (k i : Nat) (m : Int) (j : Nat) (m' : Int)
      (hf : s.inFlight = some (k, i, m)) (hp : s.pending = some (j, m')) :
      RenderStep s
        { s with
          pending := none,
          renderSeq := s.renderSeq + 1,
          inFlight := some (s.renderSeq + 1, j, m'),
          presented := s.presented ++ [(i, m)] }
  | completeIdle (s : RenderState) (k i : Nat) (m : Int)
      (hf : s.inFlight = some (k, i, m)) (hp : s.pending = none) :
      RenderStep s
        { s with
          rendering := false,
          inFlight := none,
          presented := s.presented ++ [(i, m)] }

/-- The inductive invariant of the render loop. -/
def RenderInv (s : RenderState) : Prop :=
  (s.rendering = false → s.pending = none ∧ s.inFlight = none) ∧
  (∀ k i m, s.inFlight = some (k, i, m) →
    s.rendering = true ∧ s.requests[i]? = some m ∧ ∀ x ∈ s.presented, x.1 < i) ∧
  (∀ j m', s.pending = some (j, m') →
    s.rendering = true ∧ j + 1 = s.requests.length ∧ s.requests[j]? = some m') ∧
  (s.pending = none → ∀ k i m, s.inFlight = some (k, i, m) → i + 1 = s.requests.length) ∧
  (∀ k i m j m', s.inFlight = some (k, i, m) → s.pending = some (j, m') → i < j) ∧
  (s.presented.map (fun x => x.1)).Pairwise (fun a b => a < b) ∧
  (∀ x ∈ s.presented, s.requests[x.1]? = some x.2) ∧
  (s.rendering = false → s.requests ≠ [] →
    ∃ m, s.requests.getLast? = some m ∧
      s.presented.getLast? = some (s.requests.length - 1, m))

theorem renderInv_init : RenderInv renderInit := by
  refine ⟨fun _ => ⟨rfl, rfl⟩, ?_, ?_, ?_, ?_, ?_, ?_, ?_⟩
  · intro k i m h
    cases h
  · intro j m' h
    cases h
  · intro _ k i m h
    cases h
  · intro k i m j m' h
    cases h
  · exact List.Pairwise.nil
  · intro x hx
    cases hx
  · intro _ hne
    exact absurd rfl hne

theorem getElem?_some_lt {α : Type} {l : List α} {i : Nat} {v : α} (h : l[i]? = some v) :
    i < l.length := by
  by_contra hlt
  rw [List.getElem?_eq_none (by omega)] at h
  cases h

theorem pairwise_lt_snoc {l : List Nat} {i : Nat}
    (h : l.Pairwise (fun a b => a < b)) (hall : ∀ x ∈ l, x < i) :
    (l ++ [i]).Pairwise (fun a b => a < b) := by
  rw [List.pairwise_append]
  refine ⟨h, List.pairwise_singleton _ _, fun a ha b hb => ?_⟩
  rw [List.mem_singleton] at hb
  subst hb
  exact hall a ha

theorem renderStep_preserves {s s' : RenderState} (h : RenderStep s s') (hinv : RenderInv s) :
    RenderInv s' := by
  obtain ⟨hI1, hI2, hI3, hI4, hI5, hI6, hI7, hI8⟩ := hinv
  cases h with
  | requestBusy ms hr =>
    refine ⟨?_, ?_, ?_, ?_, ?_, ?_, ?_, ?_⟩
    · intro hfalse
      exact Bool.noConfusion (hr.symm.trans hfalse)
    · intro k i m hF
      have h2 := hI2 k i m hF
      refine ⟨h2.1, ?_, h2.2.2⟩
      show (s.requests ++ [ms])[i]? = some m
      rw [List.getElem?_append_left (getElem?_some_lt h2.2.1)]
      exact h2.2.1
    · intro j m' hP
      have hP' : some (s.requests.length, ms) = some (j, m') := hP
      injection hP' with hP''
      injection hP'' with hj hm
      subst hj
      subst hm
      refine ⟨hr, ?_, ?_⟩
      · show s.requests.length + 1 = (s.requests ++ [ms]).length
        simp
      · show (s.requests ++ [ms])[s.requests.length]? = some ms
        exact List.getElem?_concat_length _ _
    · intro hP
      exact Option.noConfusion hP
    · intro k i m j m' hF hP
      have h2 := hI2 k i m hF
      have hP' : some (s.requests.length, ms) = some (j, m') := hP
      injection hP' with hP''
      injection hP'' with hj hm
      subst hj
      exact getElem?_some_lt h2.2.1
    · exact hI6
    · intro x hx
      have h7 := hI7 x hx
      show (s.requests ++ [ms])[x.1]? = some x.2
      rw [List.getElem?_append_left (getElem?_some_lt h7)]
      exact h7
    · intro hfalse
      exact Bool.noConfusion (hr.symm.trans hfalse)
  | requestIdle ms hr =>
    refine ⟨?_, ?_, ?_, ?_, ?_, ?_, ?_, ?_⟩
    · intro hfalse
      exact Bool.noConfusion hfalse
    · intro k i m hF
      have hF' : some (s.renderSeq + 1, s.requests.length, ms) = some (k, i, m) := hF
      injection hF' with hF''
      injection hF'' with hk hF3
      injection hF3 with hi hm
      subst hk
      subst hi
      subst hm
      refine ⟨rfl, List.getElem?_concat_length _ _, ?_⟩
      intro x hx
      exact getElem?_some_lt (hI7 x hx)
    · intro j m' hP
      exact Option.noConfusion hP
    · intro _ k i m hF
      have hF' : some (s.renderSeq + 1, s.requests.length, ms) = some (k, i, m) := hF
      injection hF' with hF''
      injection hF'' with hk hF3
      injection hF3 with hi hm
      subst hi
      show s.requests.length + 1 = (s.requests ++ [ms]).length
      simp
    · intro k i m j m' hF hP
      exact Option.noConfusion hP
    · exact hI6
    · intro x hx
      have h7 := hI7 x hx
      show (s.requests ++ [ms])[x.1]? = some x.2
      rw [List.getElem?_append_left (getElem?_some_lt h7)]
      exact h7
    · intro hfalse
      exact Bool.noConfusion hfalse
  | completeNext k i m j m' hf hp =>
    have h2 := hI2 k i m hf
    have h3 := hI3 j m' hp
    have h5 := hI5 k i m j m' hf hp
    refine ⟨?_, ?_, ?_, ?_, ?_, ?_, ?_, ?_⟩
    · intro hfalse
      exact Bool.noConfusion (h2.1.symm.trans hfalse)
    · intro k' i' m'' hF
      have hF' : some (s.renderSeq + 1, j, m') = some (k', i', m'') := hF
      injection hF' with hF''
      injection hF'' with hk hF3
      injection hF3 with hi hm
      subst hi
      subst hm
      refine ⟨h2.1, h3.2.2, ?_⟩
      intro x hx
      rcases List.mem_append.mp hx with hold | hnew
      · exact Nat.lt_trans (h2.2.2 x hold) h5
      · rw [List.mem_singleton] at hnew
        subst hnew
        exact h5
    · intro j' m'' hP
      exact Option.noConfusion hP
    · intro _ k' i' m'' hF
      have hF' : some (s.renderSeq + 1, j, m') = some (k', i', m'') := hF
      injection hF' with hF''
      injection hF'' with hk hF3
      injection hF3 with hi hm
      subst hi
      exact h3.2.1
    · intro k' i' m'' j' m''' hF hP
      exact Option.noConfusion hP
    · show ((s.presented ++ [(i, m)]).map (fun x => x.1)).Pairwise (fun a b => a < b)
      rw [List.map_append]
      show (s.presented.map (fun x => x.1) ++ [i]).Pairwise (fun a b => a < b)
      refine pairwise_lt_snoc hI6 ?_
      intro y hy
      rcases List.mem_map.mp hy with ⟨x, hx, rfl⟩
      exact h2.2.2 x hx
    · intro x hx
      rcases List.mem_append.mp hx with hold | hnew
      · exact hI7 x hold
      · rw [List.mem_singleton] at hnew
        subst hnew
        exact h2.2.1
    · intro hfalse
      exact Bool.noConfusion (h2.1.symm.trans hfalse)
  | completeIdle k i m hf hp =>
    have h2 := hI2 k i m hf
    have h4 := hI4 hp k i m hf
    refine ⟨?_, ?_, ?_, ?_, ?_, ?_, ?_, ?_⟩
    · intro _
      exact ⟨hp, rfl⟩
    · intro k' i' m'' hF
      have hF' : (none : Option (Nat × Nat × Int)) = some (k', i', m'') := hF
      exact Option.noConfusion hF'
    · intro j m' hP
      have hP' : s.pending = some (j, m') := hP
      rw [hp] at hP'
      exact Option.noConfusion hP'
    · intro _ k' i' m'' hF
      have hF' : (none : Option (Nat × Nat × Int)) = some (k', i', m'') := hF
      exact Option.noConfusion hF'
    · intro k' i' m'' j m' hF hP
      have hF' : (none : Option (Nat × Nat × Int)) = some (k', i', m'') := hF
      exact Option.noConfusion hF'
    · show ((s.presented ++ [(i, m)]).map (fun x => x.1)).Pairwise (fun a b => a < b)
      rw [List.map_append]
      show (s.presented.map (fun x => x.1) ++ [i]).Pairwise (fun a b => a < b)
      refine pairwise_lt_snoc hI6 ?_
      intro y hy
      rcases List.mem_map.mp hy with ⟨x, hx, rfl⟩
      exact h2.2.2 x hx
    · intro x hx
      rcases List.mem_append.mp hx with hold | hnew
      · exact hI7 x hold
      · rw [List.mem_singleton] at hnew
        subst hnew
        exact h2.2.1
    · intro _ hne
      have hi : i = s.requests.length - 1 := by
        have := h4
        omega
      refine ⟨m, ?_, ?_⟩
      · rw [List.getLast?_eq_getElem?, ← hi]
        exact h2.2.1
      · show (s.presented ++ [(i, m)]).getLast? = some (s.requests.length - 1, m)
        rw [List.getLast?_concat, hi]

/-- C3: in every run of the render loop (canvas mounted, composites
resolving), presentation order respects request order — the request indices of
the presented frames are strictly increasing, and every presented frame shows
the playhead value of its own request — so no frame for an earlier request is
ever presented after a frame for a later one; and whenever the loop goes idle
after at least one request, the frame presented last is exactly the one for
the *last* request (burst coalescing: intermediate requests may never be
rendered, but the final visible frame belongs to the latest request). -/
theorem C3_render_order_and_coalescing (s : RenderState)
    (h : Relation.ReflTransGen RenderStep renderInit s) :
    (s.presented.map (fun x => x.1)).Pairwise (fun a b => a < b) ∧
    (∀ x ∈ s.presented, s.requests[x.1]? = some x.2) ∧
    (s.rendering = false → s.requests ≠ [] →
      ∃ m, s.requests.getLast? = some m ∧
        s.presented.getLast? = some (s.requests.length - 1, m)) := by
  have hinv : RenderInv s := by
    induction h with
    | refl => exact renderInv_init
    | tail _ hstep ih => exact renderStep_preserves hstep ih
  exact ⟨hinv.2.2.2.2.2.1, hinv.2.2.2.2.2.2.1, hinv.2.2.2.2.2.2.2⟩

/-- The quiescent state after the burst `[10, 20, 30]`: requests `20` is
coalesced away, the first composite presents `10`, the last presents `30`. -/
def renderBurstFinal : RenderState :=
  { pending := none, rendering := false, renderSeq := 2, inFlight := none,
    presented := [(0, 10), (2, 30)], requests := [10, 20, 30] }

theorem C3_render_order_and_coalescing_witness :
    ((renderBurstFinal.presented.map (fun x => x.1)).Pairwise (fun a b => a < b) ∧
      (∀ x ∈ renderBurstFinal.presented, renderBurstFinal.requests[x.1]? = some x.2) ∧
      (renderBurstFinal.rendering = false → renderBurstFinal.requests ≠ [] →
        ∃ m, renderBurstFinal.requests.getLast? = some m ∧
          renderBurstFinal.presented.getLast? =
            some (renderBurstFinal.requests.length - 1, m))) :=
  C3_render_order_and_coalescing renderBurstFinal
    (Relation.ReflTransGen.tail
      (Relation.ReflTransGen.tail
        (Relation.ReflTransGen.tail
          (Relation.ReflTransGen.tail
            (Relation.ReflTransGen.single (RenderStep.requestIdle renderInit 10 rfl))
            (RenderStep.requestBusy _ 20 rfl))
          (RenderStep.requestBusy _ 30 rfl))
        (RenderStep.completeNext _ 1 0 10 2 30 rfl rfl))
      (RenderStep.completeIdle _ 2 2 30 rfl rfl))


/-! ## Claim C4: the frame compositor (`frameComposer.ts`)

Drawing is modelled as the list of draw calls issued on the canvas context
(`DrawOp`); video elements are records holding their `currentTime` (in exact
milliseconds — the source works in seconds with `EPS = 1/60`, and
`|cur − t| < EPS` in seconds is exactly `60·|curMs − tMs| < 1000`) and a
`seekFails` flag standing for the element erroring on seek; the UI-provided
`getVideoElement` closure is an association list keyed by resource id, and a
seek mutating `video.currentTime` becomes an update of that list.  `canvas`
sizing, the 2d-context handle and the `clear := false` path (the one the
preview loop uses) have no bearing on layer composition and are omitted;
`Number.isFinite` never fails on exact integers. -/

structure VideoEl where
  currentTimeMs : Int
  seekFails : Bool
deriving DecidableEq, Repr

abbrev VideoPool := List (String × VideoEl)

def poolGet (pool : VideoPool) (rid : String) : Option VideoEl :=
  (pool.find? (fun e => e.1 == rid)).map (fun e => e.2)

def poolSet (pool : VideoPool) (rid : String) (v : VideoEl) : VideoPool :=
  pool.map (fun e => if e.1 == rid then (e.1, v) else e)

inductive DrawOp
  | drawImage (resourceId : String) (alpha : Rat)
  | fillText (text : String) (alpha : Rat)
deriving DecidableEq, Repr

/-- `seekVideoTo` in milliseconds: negative targets are ignored, targets within
`EPS = 1/60` s of the current time are skipped, and otherwise the element
either errors (`seekFails`) or adopts the new time. -/
def seekVideoTo (v : VideoEl) (timeMs : Int) : Except String VideoEl :=
  if timeMs < 0 then .ok v
  else if 60 * (v.currentTimeMs - timeMs).natAbs < 1000 then .ok v
  else if v.seekFails then .error "video seek error"
  else .ok { v with currentTimeMs := timeMs }

instance : DecidableRel (fun a b : Track => a.order ≤ b.order) :=
  fun a b => Int.decLe a.order b.order

/-- `[...project.tracks].sort((a, b) => a.order - b.order)`. -/
def sortTracksByOrder (tracks : List Track) : List Track :=
  List.insertionSort (fun a b => a.order ≤ b.order) tracks

/-- JS truthiness of `track.hidden : boolean | undefined`. -/
def isHidden (t : Track) : Bool := t.hidden == some true

def findActiveVideoClips (project : EditorProject) (playheadMs : Int) :
    List (Track × Clip × Int) :=
  ((sortTracksByOrder project.tracks).filter
    (fun t => !isHidden t && t.kind == ClipKind.video)).flatMap
    (fun t => (t.clips.filter (fun c => c.kind == ClipKind.video &&
        decide (c.startMs ≤ playheadMs) &&
        decide (playheadMs < c.startMs + c.durationMs))).map
      (fun c => (t, c, c.trimStartMs + (playheadMs - c.startMs))))

def findActiveTextClips (project : EditorProject) (playheadMs : Int) :
    List (Track × Clip) :=
  ((sortTracksByOrder project.tracks).filter
    (fun t => !isHidden t && t.kind == ClipKind.text)).flatMap
    (fun t => (t.clips.filter (fun c => c.kind == ClipKind.text &&
        decide (c.startMs ≤ playheadMs) &&
        decide (playheadMs < c.startMs + c.durationMs))).map
      (fun c => (t, c)))

/-- One video layer: the per-clip loop of `composeFrame` on a video track.
A missing element skips the clip; a seek rejection propagates (the `await`
throws out of `composeFrame`). -/
def composeVideoLayer (pool : VideoPool) (alpha : Rat) :
    List (Track × Clip × Int) → Except String (VideoPool × List DrawOp)
  | [] => .ok (pool, [])
  | a :: rest =>
    match poolGet pool a.2.1.resourceId with
    | none => composeVideoLayer pool alpha rest
    | some v =>
      match seekVideoTo v a.2.2 with
      | .error e => .error e
      | .ok v' =>
        match composeVideoLayer (poolSet pool a.2.1.resourceId v') alpha rest with
        | .error e => .error e
        | .ok (pool', ops) => .ok (pool', DrawOp.drawImage a.2.1.resourceId alpha :: ops)

def composeTracks (project : EditorProject) (playheadMs : Int) (pool : VideoPool) :
    List Track → Except String (VideoPool × List DrawOp)
  | [] => .ok (pool, [])
  | t :: rest =>
    if isHidden t then composeTracks project playheadMs pool rest
    else
      let alpha := max 0 (min 1 t.opacity)
      if t.kind == ClipKind.video then
        match composeVideoLayer pool alpha
          ((findActiveVideoClips project playheadMs).filter (fun x => x.1.id == t.id)) with
        | .error e => .error e
        | .ok (pool', ops) =>
          match composeTracks project playheadMs pool' rest with
          | .error e => .error e
          | .ok (pool'', ops') => .ok (pool'', ops ++ ops')
      else if t.kind == ClipKind.text then
        let ops := ((findActiveTextClips project playheadMs).filter
          (fun x => x.1.id == t.id)).map (fun x => DrawOp.fillText x.2.text alpha)
        match composeTracks project playheadMs pool rest with
        | .error e => .error e
        | .ok (pool'', ops') => .ok (pool'', ops ++ ops')
      else
        composeTracks project playheadMs pool rest

def composeFrame (project : EditorProject) (playheadMs : Int) (pool : VideoPool) :
    Except String (VideoPool × List DrawOp) :=
  composeTracks project playheadMs pool (sortTracksByOrder project.tracks)

def exCClip (i tid rid : String) (s d : Int) : Clip :=
  { id := i, trackId := tid, startMs := s, durationMs := d, kind := .video,
    resourceId := rid, trimStartMs := 0, trimDurationMs := none, volume := 0,
    text := "", style := defaultStyle, transform := defaultTransform }

def exCTrack (i : String) (ord : Int) (cs : List Clip) : Track :=
  { id := i, kind := .video, name := "T", order := ord, opacity := 1,
    muted := none, hidden := none, clips := cs }

/-- Two video layers: track `tA` (order 0) above, `tB` (order 1) below in the
iteration, each with one clip active at playhead 0. -/
def exCProj : EditorProject :=
  { id := "p", name := "P", createdAt := 0, updatedAt := 0, resources := [],
    tracks := [exCTrack "tA" 0 [exCClip "a" "tA" "ridA" 0 100],
               exCTrack "tB" 1 [exCClip "b" "tB" "ridB" 0 100]],
    settings := exSettings }

def exCPoolBad : VideoPool :=
  [("ridA", { currentTimeMs := 5000, seekFails := true }),
   ("ridB", { currentTimeMs := 5000, seekFails := false })]

def exCPoolMissing : VideoPool :=
  [("ridB", { currentTimeMs := 5000, seekFails := false })]

theorem poolGet_poolSet_isSome (pool : VideoPool) (r rid : String) (v : VideoEl) :
    (poolGet (poolSet pool r v) rid).isSome = (poolGet pool rid).isSome := by
  unfold poolGet poolSet
  induction pool with
  | nil => rfl
  | cons e rest ih =>
    rw [List.map_cons]
    have hkey : ((if (e.1 == r) = true then (e.1, v) else e) : String × VideoEl).1 = e.1 := by
      split <;> rfl
    by_cases hei : (e.1 == rid) = true
    · rw [@List.find?_cons_of_pos (String × VideoEl) (fun x => x.1 == rid) _ _
        (by simp only [hkey]; exact hei),
        @List.find?_cons_of_pos (String × VideoEl) (fun x => x.1 == rid) e rest hei]
      rfl
    · rw [@List.find?_cons_of_neg (String × VideoEl) (fun x => x.1 == rid) _ _
        (by simp only [hkey]; exact hei),
        @List.find?_cons_of_neg (String × VideoEl) (fun x => x.1 == rid) e rest hei]
      exact ih

/-- Which layers the spec expects on the canvas: every active video clip whose
resource has a media element, in order; missing elements only skip their own
layer. -/
def expectedLayerDraws (present : String → Bool) (alpha : Rat) :
    List (Track × Clip × Int) → List DrawOp
  | [] => []
  | a :: rest =>
    if present a.2.1.resourceId then
      DrawOp.drawImage a.2.1.resourceId alpha :: expectedLayerDraws present alpha rest
    else expectedLayerDraws present alpha rest

theorem composeVideoLayer_ok (alpha : Rat) (actives : List (Track × Clip × Int)) :
    ∀ (pool : VideoPool), (∀ e ∈ pool, e.2.seekFails = false) →
    ∃ pool', composeVideoLayer pool alpha actives =
        .ok (pool', expectedLayerDraws (fun rid => (poolGet pool rid).isSome) alpha actives) ∧
      (∀ e ∈ pool', e.2.seekFails = false) ∧
      ∀ rid, (poolGet pool' rid).isSome = (poolGet pool rid).isSome := by
  induction actives with
  | nil =>
    intro pool hok
    exact ⟨pool, rfl, hok, fun rid => rfl⟩
  | cons a rest ih =>
    intro pool hok
    unfold composeVideoLayer expectedLayerDraws
    cases hg : poolGet pool a.2.1.resourceId with
    | none =>
      obtain ⟨pool', heq, hok', hstable⟩ := ih pool hok
      refine ⟨pool', ?_, hok', hstable⟩
      rw [if_neg (by simp [hg])]
      simp only [hg]
      exact heq
    | some v =>
      have hvok : v.seekFails = false := by
        unfold poolGet at hg
        cases hf : pool.find? (fun e => e.1 == a.2.1.resourceId) with
        | none => rw [hf] at hg; cases hg
        | some e =>
          rw [hf] at hg
          injection hg with hg
          subst hg
          exact hok e (List.mem_of_find?_eq_some hf)
      obtain ⟨v', hseek, hv'⟩ : ∃ v', seekVideoTo v a.2.2 = .ok v' ∧ v'.seekFails = false := by
        unfold seekVideoTo
        split
        · exact ⟨v, rfl, hvok⟩
        · split
          · exact ⟨v, rfl, hvok⟩
          · rw [if_neg (by simp [hvok])]
            exact ⟨_, rfl, hvok⟩
      have hsetok : ∀ e ∈ poolSet pool a.2.1.resourceId v', e.2.seekFails = false := by
        intro e he
        unfold poolSet at he
        rcases List.mem_map.mp he with ⟨e0, he0, rfl⟩
        split
        · exact hv'
        · exact hok e0 he0
      obtain ⟨pool', heq, hok', hstable⟩ := ih (poolSet pool a.2.1.resourceId v') hsetok
      refine ⟨pool', ?_, hok', fun rid =>
        (hstable rid).trans (poolGet_poolSet_isSome pool a.2.1.resourceId rid v')⟩
      rw [if_pos (by simp [hg])]
      simp only [hg, hseek, heq]
      have hfun : (fun rid => (poolGet (poolSet pool a.2.1.resourceId v') rid).isSome) =
          (fun rid => (poolGet pool rid).isSome) :=
        funext (fun rid => poolGet_poolSet_isSome pool a.2.1.resourceId rid v')
      rw [hfun]

def expectedTrackDraws (project : EditorProject) (playheadMs : Int) (present : String → Bool) :
    List Track → List DrawOp
  | [] => []
  | t :: rest =>
    if isHidden t then expectedTrackDraws project playheadMs present rest
    else if t.kind == ClipKind.video then
      expectedLayerDraws present (max 0 (min 1 t.opacity))
        ((findActiveVideoClips project playheadMs).filter (fun x => x.1.id == t.id)) ++
      expectedTrackDraws project playheadMs present rest
    else if t.kind == ClipKind.text then
      ((findActiveTextClips project playheadMs).filter (fun x => x.1.id == t.id)).map
        (fun x => DrawOp.fillText x.2.text (max 0 (min 1 t.opacity))) ++
      expectedTrackDraws project playheadMs present rest
    else expectedTrackDraws project playheadMs present rest

theorem composeTracks_ok (project : EditorProject) (playheadMs : Int) (ts : List Track) :
    ∀ (pool : VideoPool), (∀ e ∈ pool, e.2.seekFails = false) →
    ∃ pool', composeTracks project playheadMs pool ts =
        .ok (pool', expectedTrackDraws project playheadMs
          (fun rid => (poolGet pool rid).isSome) ts) ∧
      (∀ e ∈ pool', e.2.seekFails = false) ∧
      ∀ rid, (poolGet pool' rid).isSome = (poolGet pool rid).isSome := by
  induction ts with
  | nil =>
    intro pool hok
    exact ⟨pool, rfl, hok, fun rid => rfl⟩
  | cons t rest ih =>
    intro pool hok
    unfold composeTracks expectedTrackDraws
    by_cases hh : isHidden t = true
    · rw [if_pos hh, if_pos hh]
      exact ih pool hok
    · rw [if_neg hh, if_neg hh]
      simp only []
      by_cases hv : (t.kind == ClipKind.video) = true
      · rw [if_pos hv, if_pos hv]
        obtain ⟨pool₁, heq₁, hok₁, hst₁⟩ := composeVideoLayer_ok (max 0 (min 1 t.opacity))
          ((findActiveVideoClips project playheadMs).filter (fun x => x.1.id == t.id)) pool hok
        obtain ⟨pool₂, heq₂, hok₂, hst₂⟩ := ih pool₁ hok₁
        refine ⟨pool₂, ?_, hok₂, fun rid => (hst₂ rid).trans (hst₁ rid)⟩
        simp only [heq₁, heq₂]
        have hfun : (fun rid => (poolGet pool₁ rid).isSome) =
            (fun rid => (poolGet pool rid).isSome) := funext hst₁
        rw [hfun]
      · rw [if_neg hv, if_neg hv]
        by_cases ht : (t.kind == ClipKind.text) = true
        · rw [if_pos ht, if_pos ht]
          obtain ⟨pool₂, heq₂, hok₂, hst₂⟩ := ih pool hok
          refine ⟨pool₂, ?_, hok₂, hst₂⟩
          simp only [heq₂]
        · rw [if_neg ht, if_neg ht]
          exact ih pool hok

/-- C4 (amended): as long as no element's seek errors, `composeFrame` resolves
and draws exactly the expected layers in track order: every active video clip
whose resource has a pool element is drawn, a missing element skips only its
own layer, and text layers are unaffected. -/
theorem C4_compose_degrades_per_layer (project : EditorProject) (playheadMs : Int)
    (pool : VideoPool) (hok : ∀ e ∈ pool, e.2.seekFails = false) :
    ∃ pool', composeFrame project playheadMs pool =
      .ok (pool', expectedTrackDraws project playheadMs
        (fun rid => (poolGet pool rid).isSome) (sortTracksByOrder project.tracks)) := by
  obtain ⟨pool', heq, _, _⟩ :=
    composeTracks_ok project playheadMs (sortTracksByOrder project.tracks) pool hok
  exact ⟨pool', heq⟩

theorem C4_compose_degrades_per_layer_witness :
    (∀ e ∈ exCPoolMissing, e.2.seekFails = false) ∧
    ∃ pool', composeFrame exCProj 0 exCPoolMissing =
      .ok (pool', expectedTrackDraws exCProj 0
        (fun rid => (poolGet exCPoolMissing rid).isSome) (sortTracksByOrder exCProj.tracks)) :=
  ⟨by decide, C4_compose_degrades_per_layer exCProj 0 exCPoolMissing (by decide)⟩

/-- C4 counterexample to the claim as stated: with the top layer's element
failing its seek (`ridA`, far from the target time) and the bottom layer's
element healthy, `composeFrame` rejects as a whole — the awaited seek throws
out of the composite and layer `ridB` is never drawn.  By contrast (second
conjunct) a *missing* element for the same layer only skips that layer and
`ridB` is still drawn, so the abort is specific to seek failure. -/
theorem C4_compose_counterexample :
    composeFrame exCProj 0 exCPoolBad = .error "video seek error" ∧
    composeFrame exCProj 0 exCPoolMissing =
      .ok ([("ridB", { currentTimeMs := 0, seekFails := false })],
        [DrawOp.drawImage "ridB" 1]) :=
  ⟨by decide, by decide⟩

end WebCut
